import Mathlib

/-! Dice pool engine (`src/js/DiceManager.js`) and dice helpers (`src/js/utils.js`).

A shallow embedding of the `DiceManager` class, of `DiceUtils.calculateStats`,
`DiceUtils.formatDiceNotation` and `DiceUtils.parseDiceNotation`, and the
properties of their operations.

Modelling conventions.

* JavaScript numbers are IEEE 754 binary64 values.  Those that hold dice
  counts, die values, totals and the arguments of the helpers are embedded as
  `Int`, the product `Math.random() * sides` and the averages as `ℚ`; every
  addition, subtraction, multiplication and division whose exact result need
  not be a binary64 value is followed by the rounding to the nearest binary64
  value, ties to even (`roundToDouble` on `Int`, `toDouble` on `ℚ`).  The
  totals of die values (at most `100` each, over the elements of an array) stay
  far below `2^53`, where the rounding is the identity, and are added as they
  are.  `NaN`, which only arises from arithmetic on `undefined`, is kept as a
  separate value of `JSNum`; results of magnitude `2^1024` and more, where
  JavaScript yields `Infinity`, are beyond the embedding.
* `Math.random()` and `Date.now()` are explicit inputs: an operation receives
  the sequence `random : Nat → ℚ` (resp. `now : Nat → Int`) whose `k`-th term is
  what the `k`-th call made during that operation returns.
* In-place mutation of the pool is explicit state passing: every method maps
  the manager before the call to the manager after it (together with the value
  it returns).
-/

/-! ## Data model -/

/-- The eight own keys of `this.dicePool` (constructor, lines 3-12). -/
inductive DiceType where
  | d20 | d12 | d10 | d100 | d8 | d6 | d4 | d2
  deriving DecidableEq, Fintype

/-- The property name of a dice type. -/
def DiceType.key : DiceType → String
  | .d20 => "d20"
  | .d12 => "d12"
  | .d10 => "d10"
  | .d100 => "d100"
  | .d8 => "d8"
  | .d6 => "d6"
  | .d4 => "d4"
  | .d2 => "d2"

/-- The own key, if any, that a property name denotes. -/
def DiceType.ofKey (type : String) : Option DiceType :=
  if type = "d20" then some .d20
  else if type = "d12" then some .d12
  else if type = "d10" then some .d10
  else if type = "d100" then some .d100
  else if type = "d8" then some .d8
  else if type = "d6" then some .d6
  else if type = "d4" then some .d4
  else if type = "d2" then some .d2
  else none

/-- The list `Object.keys(this.dicePool)`: own keys in insertion order. -/
def diceTypes : List DiceType :=
  [.d20, .d12, .d10, .d100, .d8, .d6, .d4, .d2]

/-- The die identifier built by the template literal
`type_i_Date.now()` of line 95.  The three parts are separated by underscores
and none of them contains one, so the string determines the triple and the
triple is kept instead of the string. -/
structure DieId where
  type : DiceType
  index : Nat
  time : Int
  deriving DecidableEq

/-- One element of a `results` array (lines 93-98). -/
structure Die where
  value : Int
  id : DieId
  selected : Bool
  removed : Bool
  deriving DecidableEq

/-- One value of `this.dicePool`. -/
structure PoolEntry where
  count : Int
  results : List Die
  deriving DecidableEq

/-- The state of a `DiceManager` instance. -/
structure DiceManager where
  dicePool : DiceType → PoolEntry
  selectedDice : Finset DieId

/-- One value of a snapshot's `byType` (lines 103-107, 139-143, 193-197). -/
structure TypeResult where
  rolls : List Die
  total : Int
  count : Int
  deriving DecidableEq

/-- The object returned by `rollAllDice`, `rerollSelectedDice` and
`removeSelectedDice`; `byType t = none` when `byType` has no key `t`. -/
structure Snapshot where
  byType : DiceType → Option TypeResult
  grandTotal : Int
  timestamp : Int

/-- A manager after a call, with the snapshot the call returned. -/
structure SnapshotCall where
  manager : DiceManager
  snapshot : Snapshot

/-! ## Property lookup on the pool object

`this.dicePool` is a plain object literal, so `this.dicePool[type]` also finds
the members of `Object.prototype`. -/

/-- The property names that every object literal inherits from
`Object.prototype`.  The language (ECMAScript with Annex B) fixes them; they
are no part of the repository. -/
def objectPrototypeKeys : List String :=
  ["constructor", "hasOwnProperty", "isPrototypeOf", "propertyIsEnumerable",
   "toLocaleString", "toString", "valueOf", "__proto__", "__defineGetter__",
   "__defineSetter__", "__lookupGetter__", "__lookupSetter__"]

/-- The outcome of evaluating `this.dicePool[type]`. -/
inductive PoolLookup where
  /-- An own property: a pool entry. -/
  | entry (t : DiceType)
  /-- A member of `Object.prototype`: an object (truthy) that is no pool entry. -/
  | inherited
  /-- No such property: `undefined` (falsy). -/
  | undefined
  deriving DecidableEq

/-- The expression `this.dicePool[type]`. -/
def lookupPool (type : String) : PoolLookup :=
  match DiceType.ofKey type with
  | some t => .entry t
  | none => if type ∈ objectPrototypeKeys then .inherited else .undefined

/-- A JavaScript number as far as the pool operations can produce one. -/
inductive JSNum where
  | int (v : Int)
  | nan
  deriving DecidableEq

/-- The own `count` property of the object that an inherited key denotes
(`none`: it has no such own property).  These objects live outside the
manager. -/
def Host : Type := String → Option JSNum

/-- A realm in which no inherited object has been given a `count`. -/
def Host.fresh : Host := fun _ => none

/-- Reading `.count` from the object behind an inherited key: its own property,
else the one found further up its prototype chain, which ends in
`Object.prototype` (the object behind `__proto__`); `none` is `undefined`. -/
def Host.readCount (h : Host) (key : String) : Option JSNum :=
  match h key with
  | some v => some v
  | none => h "__proto__"

/-! ## Binary64 arithmetic

JavaScript numbers are IEEE 754 binary64 values: a finite one is `k * 2^e` with
`|k| < 2^53` and `-1074 ≤ e`, and the result of an arithmetic operation is the
exact result rounded to the nearest such value, ties to the even `k`. -/

/-- The number of low bits that a natural number `a` has beyond `53`
(`0` when `a < 2^53`); the first argument bounds the number of halvings. -/
def ulpShift : Nat → Nat → Nat
  | 0, _ => 0
  | fuel + 1, a => if a < 9007199254740992 then 0 else ulpShift fuel (a / 2) + 1

/-- The binary64 value nearest to the integer `x`, ties to even: the result of
a JavaScript operation whose exact result is `x` (for `|x| < 2^1024`).  Up to
`2^53` every integer is a binary64 value. -/
def roundToDouble (x : Int) : Int :=
  if x.natAbs ≤ 9007199254740992 then x
  else
    let e := ulpShift x.natAbs x.natAbs
    let q := x.natAbs / 2 ^ e
    let r := x.natAbs % 2 ^ e
    let half := 2 ^ (e - 1)
    let m := if r < half then q else if half < r then q + 1 else if q % 2 = 0 then q else q + 1
    Int.sign x * ((m * 2 ^ e : Nat) : Int)

/-- The exponent `e` of the unit in the last place `2^e` of the binary64 values
around `x`: `52` below the exponent of `x`, and `-1074` for the subnormal
values. -/
def ulpExponent (x : ℚ) : Int :=
  max (Int.log 2 |x|) (-1022) - 52

/-- The integer nearest to `t`, ties to the even one. -/
def roundHalfEven (t : ℚ) : Int :=
  if t - ⌊t⌋ < 1 / 2 then ⌊t⌋
  else if 1 / 2 < t - ⌊t⌋ then ⌊t⌋ + 1
  else if ⌊t⌋ % 2 = 0 then ⌊t⌋ else ⌊t⌋ + 1

/-- The binary64 value nearest to the rational `x`, ties to even: the result of
a JavaScript operation whose exact result is `x` (for `|x| < 2^1024`). -/
def toDouble (x : ℚ) : ℚ :=
  (roundHalfEven (x / (2 : ℚ) ^ ulpExponent x) : ℚ) * (2 : ℚ) ^ ulpExponent x

/-- The sum `c + n` for a property value `c` (`undefined + n` is `NaN`). -/
def jsAdd (c : Option JSNum) (n : Int) : JSNum :=
  match c with
  | some (.int v) => .int (roundToDouble (v + n))
  | _ => .nan

/-- The value `Math.max(0, c - n)` for a property value `c`. -/
def jsMaxZeroSub (c : Option JSNum) (n : Int) : JSNum :=
  match c with
  | some (.int v) => .int (max 0 (roundToDouble (v - n)))
  | _ => .nan

/-- A manager and host after a pool mutation, with the returned number. -/
structure PoolCall where
  manager : DiceManager
  host : Host
  value : JSNum

namespace DiceManager

/-- The constructor (lines 2-15). -/
def new : DiceManager where
  dicePool := fun _ => { count := 0, results := [] }
  selectedDice := ∅

/-- The method `addDice(type, count)` (lines 17-23). -/
def addDice (m : DiceManager) (h : Host) (type : String) (count : Int) : PoolCall :=
  match lookupPool type with
  | .entry t =>
    let c := roundToDouble ((m.dicePool t).count + count)
    { manager := { m with dicePool := Function.update m.dicePool t { m.dicePool t with count := c } }
      host := h
      value := .int c }
  | .inherited =>
    let c := jsAdd (h.readCount type) count
    { manager := m, host := Function.update h type (some c), value := c }
  | .undefined => { manager := m, host := h, value := .int 0 }

/-- The method `removeDice(type, count)` (lines 25-31). -/
def removeDice (m : DiceManager) (h : Host) (type : String) (count : Int) : PoolCall :=
  match lookupPool type with
  | .entry t =>
    let c := max 0 (roundToDouble ((m.dicePool t).count - count))
    { manager := { m with dicePool := Function.update m.dicePool t { m.dicePool t with count := c } }
      host := h
      value := .int c }
  | .inherited =>
    let c := jsMaxZeroSub (h.readCount type) count
    { manager := m, host := Function.update h type (some c), value := c }
  | .undefined => { manager := m, host := h, value := .int 0 }

/-- The method `resetDice(type)` (lines 33-40). -/
def resetDice (m : DiceManager) (h : Host) (type : String) : PoolCall :=
  match lookupPool type with
  | .entry t =>
    { manager := { m with dicePool := Function.update m.dicePool t { count := 0, results := [] } }
      host := h
      value := .int 0 }
  | .inherited =>
    { manager := m, host := Function.update h type (some (.int 0)), value := .int 0 }
  | .undefined => { manager := m, host := h, value := .int 0 }

/-- The method `resetAllDice()` (lines 42-48). -/
def resetAllDice (m : DiceManager) : DiceManager where
  dicePool :=
    diceTypes.foldl (fun pool type => Function.update pool type { count := 0, results := [] })
      m.dicePool
  selectedDice := ∅

/-- The method `getTotalDiceCount()` (lines 54-56). -/
def getTotalDiceCount (m : DiceManager) : Int :=
  (diceTypes.map m.dicePool).foldl (fun total dice => roundToDouble (total + dice.count)) 0

/-- The method `getDiceSides(type)` (lines 62-74) on the own keys; every entry
of `sidesMap` is non-zero, so the fallback `|| 6` is not taken for them. -/
def getDiceSides : DiceType → Int
  | .d20 => 20
  | .d12 => 12
  | .d10 => 10
  | .d100 => 100
  | .d8 => 8
  | .d6 => 6
  | .d4 => 4
  | .d2 => 2

/-- The method `rollSingleDie(sides)` (lines 76-78), where `r` is the value
that `Math.random()` returns; the product is a binary64 multiplication, so
`Math.floor` is applied to the rounded product. -/
def rollSingleDie (sides : Int) (r : ℚ) : Int :=
  ⌊toDouble (r * (sides : ℚ))⌋ + 1

/-- The method `getSelectedDiceCount()` (lines 211-213). -/
def getSelectedDiceCount (m : DiceManager) : Nat :=
  m.selectedDice.card

end DiceManager

/-- The variables that the three `Object.keys(this.dicePool).forEach` loops
update: the manager, the object under construction (`results`,
`rerolledResults`, `updatedResults`), `totalGrand`, and how many calls of
`Math.random()` and `Date.now()` have been made so far. -/
structure LoopState where
  manager : DiceManager
  results : DiceType → Option TypeResult
  totalGrand : Int
  randomCalls : Nat
  nowCalls : Nat

/-- The loop variables on entry to a method. -/
def LoopState.init (m : DiceManager) : LoopState where
  manager := m
  results := fun _ => none
  totalGrand := 0
  randomCalls := 0
  nowCalls := 0

/-- The call `results.forEach(callback)` for a callback that updates captured
variables (the state `σ`) and may mutate the die it is given. -/
def forEachDie {σ : Type} (callback : σ → Die → σ × Die) : σ → List Die → σ × List Die
  | s, [] => (s, [])
  | s, die :: rest =>
    let step := callback s die
    let tail := forEachDie callback step.1 rest
    (tail.1, step.2 :: tail.2)

namespace DiceManager

/-- The `for` loop of lines 91-100 after `i` iterations: the array `rolls` and
`totalForType`.  `r0` and `c0` count the calls of `Math.random()` and
`Date.now()` made before the loop. -/
def rollLoop (type : DiceType) (sides : Int) (random : Nat → ℚ) (now : Nat → Int)
    (r0 c0 : Nat) : Nat → List Die × Int
  | 0 => ([], 0)
  | i + 1 =>
    let before := rollLoop type sides random now r0 c0 i
    let roll := rollSingleDie sides (random (r0 + i))
    (before.1 ++ [{ value := roll
                    id := { type := type, index := i, time := now (c0 + i) }
                    selected := false
                    removed := false }],
     before.2 + roll)

/-- The body of the `forEach` of `rollAllDice` (lines 84-110). -/
def rollAllDiceStep (random : Nat → ℚ) (now : Nat → Int) (s : LoopState) (type : DiceType) :
    LoopState :=
  let count := (s.manager.dicePool type).count
  if count > 0 then
    let sides := getDiceSides type
    let loop := rollLoop type sides random now s.randomCalls s.nowCalls count.toNat
    let rolls := loop.1
    let totalForType := loop.2
    { manager :=
        { s.manager with
          dicePool := Function.update s.manager.dicePool type
            { s.manager.dicePool type with results := rolls } }
      results := Function.update s.results type
        (some { rolls := rolls, total := totalForType, count := count })
      totalGrand := s.totalGrand + totalForType
      randomCalls := s.randomCalls + count.toNat
      nowCalls := s.nowCalls + count.toNat }
  else s

/-- The method `rollAllDice()` (lines 80-117). -/
def rollAllDice (m : DiceManager) (random : Nat → ℚ) (now : Nat → Int) : SnapshotCall :=
  let s := diceTypes.foldl (rollAllDiceStep random now) (LoopState.init m)
  { manager := s.manager
    snapshot := { byType := s.results, grandTotal := s.totalGrand, timestamp := now s.nowCalls } }

/-- The callback of lines 129-137; the captured variables are `totalForType`
and the number of calls of `Math.random()` made so far. -/
def rerollCallback (selectedDice : Finset DieId) (sides : Int) (random : Nat → ℚ)
    (s : Int × Nat) (die : Die) : (Int × Nat) × Die :=
  if die.removed = false then
    if die.id ∈ selectedDice then
      let die1 := { die with value := rollSingleDie sides (random s.2), selected := false }
      ((s.1 + die1.value, s.2 + 1), die1)
    else ((s.1 + die.value, s.2), die)
  else (s, die)

/-- The body of the `forEach` of `rerollSelectedDice` (lines 123-146). -/
def rerollSelectedDiceStep (random : Nat → ℚ) (s : LoopState) (type : DiceType) : LoopState :=
  let results := (s.manager.dicePool type).results
  if results.length > 0 then
    let sides := getDiceSides type
    let loop := forEachDie (rerollCallback s.manager.selectedDice sides random)
      (0, s.randomCalls) results
    let totalForType := loop.1.1
    let results1 := loop.2
    { manager :=
        { s.manager with
          dicePool := Function.update s.manager.dicePool type
            { s.manager.dicePool type with results := results1 } }
      results := Function.update s.results type
        (some { rolls := results1
                total := totalForType
                count := (results1.filter (fun r => !r.removed)).length })
      totalGrand := s.totalGrand + totalForType
      randomCalls := loop.1.2
      nowCalls := s.nowCalls }
  else s

/-- The method `rerollSelectedDice()` (lines 119-155). -/
def rerollSelectedDice (m : DiceManager) (random : Nat → ℚ) (now : Nat → Int) : SnapshotCall :=
  let s := diceTypes.foldl (rerollSelectedDiceStep random) (LoopState.init m)
  { manager := { s.manager with selectedDice := ∅ }
    snapshot := { byType := s.results, grandTotal := s.totalGrand, timestamp := now s.nowCalls } }

/-- The method `toggleDiceSelection(diceId)` (lines 157-172). -/
def toggleDiceSelection (m : DiceManager) (diceId : DieId) : DiceManager :=
  let selectedDice :=
    if diceId ∈ m.selectedDice then m.selectedDice.erase diceId else insert diceId m.selectedDice
  { dicePool :=
      diceTypes.foldl
        (fun pool type => Function.update pool type
          { pool type with
            results := (pool type).results.map (fun die =>
              if die.id = diceId then { die with selected := decide (diceId ∈ selectedDice) }
              else die) })
        m.dicePool
    selectedDice := selectedDice }

/-- The callback of lines 183-191; the captured variable is `totalForType`. -/
def removeCallback (selectedDice : Finset DieId) (totalForType : Int) (die : Die) : Int × Die :=
  let die1 := if die.id ∈ selectedDice then { die with removed := true, selected := false } else die
  if die1.removed = false then (totalForType + die1.value, die1) else (totalForType, die1)

/-- The body of the `forEach` of `removeSelectedDice` (lines 178-200). -/
def removeSelectedDiceStep (s : LoopState) (type : DiceType) : LoopState :=
  let results := (s.manager.dicePool type).results
  if results.length > 0 then
    let loop := forEachDie (removeCallback s.manager.selectedDice) 0 results
    let totalForType := loop.1
    let results1 := loop.2
    { manager :=
        { s.manager with
          dicePool := Function.update s.manager.dicePool type
            { s.manager.dicePool type with results := results1 } }
      results := Function.update s.results type
        (some { rolls := results1
                total := totalForType
                count := (results1.filter (fun r => !r.removed)).length })
      totalGrand := s.totalGrand + totalForType
      randomCalls := s.randomCalls
      nowCalls := s.nowCalls }
  else s

/-- The method `removeSelectedDice()` (lines 174-209). -/
def removeSelectedDice (m : DiceManager) (now : Nat → Int) : SnapshotCall :=
  let s := diceTypes.foldl removeSelectedDiceStep (LoopState.init m)
  { manager := { s.manager with selectedDice := ∅ }
    snapshot := { byType := s.results, grandTotal := s.totalGrand, timestamp := now s.nowCalls } }

end DiceManager

/-! ## Sequences of calls -/

/-- One call of a method of the manager, with the inputs it receives. -/
inductive Op where
  | addDice (type : String) (count : Int)
  | removeDice (type : String) (count : Int)
  | resetDice (type : String)
  | resetAllDice
  | rollAllDice (random : Nat → ℚ) (now : Nat → Int)
  | rerollSelectedDice (random : Nat → ℚ) (now : Nat → Int)
  | toggleDiceSelection (diceId : DieId)
  | removeSelectedDice (now : Nat → Int)

/-- The manager and host after one call. -/
def Op.apply (op : Op) (s : DiceManager × Host) : DiceManager × Host :=
  match op with
  | .addDice type count =>
    let c := s.1.addDice s.2 type count
    (c.manager, c.host)
  | .removeDice type count =>
    let c := s.1.removeDice s.2 type count
    (c.manager, c.host)
  | .resetDice type =>
    let c := s.1.resetDice s.2 type
    (c.manager, c.host)
  | .resetAllDice => (s.1.resetAllDice, s.2)
  | .rollAllDice random now => ((s.1.rollAllDice random now).manager, s.2)
  | .rerollSelectedDice random now => ((s.1.rerollSelectedDice random now).manager, s.2)
  | .toggleDiceSelection diceId => (s.1.toggleDiceSelection diceId, s.2)
  | .removeSelectedDice now => ((s.1.removeSelectedDice now).manager, s.2)

/-- The manager and host after a sequence of calls, first call first. -/
def runOps (ops : List Op) (s : DiceManager × Host) : DiceManager × Host :=
  ops.foldl (fun st op => op.apply st) s

/-- Every value that `Math.random()` returns during the call is a binary64
value in `[0, 1)`. -/
def Op.RandomInRange : Op → Prop
  | .rollAllDice random _ => ∀ k, 0 ≤ random k ∧ random k < 1 ∧ toDouble (random k) = random k
  | .rerollSelectedDice random _ =>
    ∀ k, 0 ≤ random k ∧ random k < 1 ∧ toDouble (random k) = random k
  | _ => True

/-- The `total` of a `byType` entry, `0` for an absent key. -/
def totalOf (r : Option TypeResult) : Int :=
  match r with
  | some x => x.total
  | none => 0

/-- The sum of `value` over the dice with `removed = false`. -/
def liveTotal (rolls : List Die) : Int :=
  ((rolls.filter (fun die => !die.removed)).map (fun die => die.value)).sum

/-- The number of dice with `removed = false`. -/
def liveCount (rolls : List Die) : Nat :=
  (rolls.filter (fun die => !die.removed)).length

/-- A loop body that touches the pool entry and the `byType` key of the current
type only, and never the selection set. -/
structure LoopStepLocal (step : LoopState → DiceType → LoopState) : Prop where
  results_other : ∀ s k t, t ≠ k → (step s k).results t = s.results t
  pool_other : ∀ s k t, t ≠ k → (step s k).manager.dicePool t = s.manager.dicePool t
  selected : ∀ s k, (step s k).manager.selectedDice = s.manager.selectedDice

/-- Every stored die has a value between `1` and the side count of its type. -/
def ValuesInRange (m : DiceManager) : Prop :=
  ∀ t, ∀ die ∈ (m.dicePool t).results, 1 ≤ die.value ∧ die.value ≤ DiceManager.getDiceSides t

/-! ## Example states -/

/-- A new manager on which one d6 was loaded and rolled, the draw being one
half. -/
def exampleRolled : DiceManager :=
  ((DiceManager.new.addDice Host.fresh "d6" 1).manager.rollAllDice (fun _ => 1 / 2)
    (fun _ => 1700000000000)).manager

/-- The state `exampleRolled` after its only die was selected. -/
def exampleSelected : DiceManager :=
  exampleRolled.toggleDiceSelection { type := .d6, index := 0, time := 1700000000000 }

/-- The state `exampleSelected` after `removeSelectedDice`: its only die has
`removed = true`. -/
def exampleRemoved : DiceManager :=
  (exampleSelected.removeSelectedDice (fun _ => 1700000000001)).manager

/-! ## Predicates on states and calls -/

/-- Every die stored in the pool, type by type in key order. -/
def allDice (m : DiceManager) : List Die :=
  diceTypes.flatMap (fun t => (m.dicePool t).results)

/-- The type and index parts of the ids of a list of dice. -/
def idKeys (dice : List Die) : List (DiceType × Nat) :=
  dice.map (fun die => (die.id.type, die.id.index))

/-- The dice stored under each type carry that type in their id and are
numbered `0, 1, 2, ...` in order. -/
def IdsNumbered (m : DiceManager) : Prop :=
  ∀ t, idKeys (m.dicePool t).results =
    (List.range (m.dicePool t).results.length).map (fun i => (t, i))

/-- The calls `addDice` and `removeDice` are made with a count `n ≥ 0`. -/
def Op.CountArgNonneg : Op → Prop
  | .addDice _ count => 0 ≤ count
  | .removeDice _ count => 0 ≤ count
  | _ => True

/-- Every `count` of the pool is non-negative. -/
def CountsNonneg (m : DiceManager) : Prop :=
  ∀ t, 0 ≤ (m.dicePool t).count

/-- The state `exampleRolled` after its one loaded d6 was taken out of the pool
again: the count of d6 is `0` and the rolled die is still stored. -/
def exampleStale : DiceManager :=
  (exampleRolled.removeDice Host.fresh "d6" 1).manager

/-- Every stored die that is live and flagged `selected` has its id in the
selection set. -/
def SelectedInSelection (m : DiceManager) : Prop :=
  ∀ t, ∀ die ∈ (m.dicePool t).results,
    die.removed = false → die.selected = true → die.id ∈ m.selectedDice

/-- No stored live die is flagged `selected`. -/
def NoLiveSelected (m : DiceManager) : Prop :=
  ∀ t, ∀ die ∈ (m.dicePool t).results, die.removed = false → die.selected = false

/-- The sum of `value` over the dice with `removed = false` whose id is in the
given selection. -/
def selectedLiveTotal (selectedDice : Finset DieId) (rolls : List Die) : Int :=
  ((rolls.filter (fun die => !die.removed && decide (die.id ∈ selectedDice))).map
    (fun die => die.value)).sum

/-! ## Object identity of the `results` arrays

`rollAllDice` stores the array `rolls` in the pool and puts the same array into
the snapshot (lines 102-104); `rerollSelectedDice` and `removeSelectedDice` put
the stored array itself into the snapshot (`rolls: results`, lines 140 and
194).  The three selection operations change the dice of the stored arrays in
place and never replace an array.  To say what a caller reads from a snapshot
later on, the arrays are given addresses. -/

/-- The position of a type in `Object.keys(this.dicePool)`. -/
def typeIndex : DiceType → Nat
  | .d20 => 0
  | .d12 => 1
  | .d10 => 2
  | .d100 => 3
  | .d8 => 4
  | .d6 => 5
  | .d4 => 6
  | .d2 => 7

/-- A manager whose `results` arrays are objects: a pool entry holds its count
and the address of its array, `heap` holds the dice of every array allocated so
far, and addresses from `nextAddress` on are unused. -/
structure HeapManager where
  count : DiceType → Int
  results : DiceType → Nat
  heap : Nat → List Die
  nextAddress : Nat
  selectedDice : Finset DieId

/-- One value of a snapshot's `byType` as the caller holds it: `rolls` is the
address of an array. -/
structure TypeResultRef where
  rolls : Nat
  total : Int
  count : Int

/-- A snapshot as the caller holds it. -/
structure SnapshotRef where
  byType : DiceType → Option TypeResultRef
  grandTotal : Int
  timestamp : Int

/-- What the caller reads from a snapshot when the arrays hold `heap`. -/
def SnapshotRef.read (s : SnapshotRef) (heap : Nat → List Die) : Snapshot where
  byType := fun t =>
    (s.byType t).map (fun r => { rolls := heap r.rolls, total := r.total, count := r.count })
  grandTotal := s.grandTotal
  timestamp := s.timestamp

/-- The snapshot object whose `rolls` are the arrays at the given addresses and
whose numbers are those of `s`. -/
def Snapshot.withRolls (s : Snapshot) (results : DiceType → Nat) : SnapshotRef where
  byType := fun t =>
    (s.byType t).map (fun r => { rolls := results t, total := r.total, count := r.count })
  grandTotal := s.grandTotal
  timestamp := s.timestamp

namespace HeapManager

/-- The constructor: eight distinct empty arrays. -/
def new : HeapManager where
  count := fun _ => 0
  results := typeIndex
  heap := fun _ => []
  nextAddress := 8
  selectedDice := ∅

/-- The manager with every array replaced by its dice. -/
def view (e : HeapManager) : DiceManager where
  dicePool := fun t => { count := e.count t, results := e.heap (e.results t) }
  selectedDice := e.selectedDice

/-- An operation that changes dice in place: every pool entry keeps its array
object, and the arrays hold the dice of the manager `m1` the operation leads
to. -/
def mutate (e : HeapManager) (m1 : DiceManager) : HeapManager where
  count := fun t => (m1.dicePool t).count
  results := e.results
  heap :=
    diceTypes.foldl (fun heap t => Function.update heap (e.results t) (m1.dicePool t).results)
      e.heap
  nextAddress := e.nextAddress
  selectedDice := m1.selectedDice

/-- The method `toggleDiceSelection(diceId)` on array objects. -/
def toggleDiceSelection (e : HeapManager) (diceId : DieId) : HeapManager :=
  e.mutate (e.view.toggleDiceSelection diceId)

/-- The method `rerollSelectedDice()` on array objects; the snapshot's `rolls`
are the stored arrays. -/
def rerollSelectedDice (e : HeapManager) (random : Nat → ℚ) (now : Nat → Int) :
    HeapManager × SnapshotRef :=
  (e.mutate (e.view.rerollSelectedDice random now).manager,
   (e.view.rerollSelectedDice random now).snapshot.withRolls e.results)

/-- The method `removeSelectedDice()` on array objects; the snapshot's `rolls`
are the stored arrays. -/
def removeSelectedDice (e : HeapManager) (now : Nat → Int) : HeapManager × SnapshotRef :=
  (e.mutate (e.view.removeSelectedDice now).manager,
   (e.view.removeSelectedDice now).snapshot.withRolls e.results)

/-- The addresses of the stored arrays after `rollAllDice`: a type with positive
count gets a newly allocated array (`const rolls = []`, line 88). -/
def rolledResults (e : HeapManager) (t : DiceType) : Nat :=
  if e.count t > 0 then e.nextAddress + typeIndex t else e.results t

/-- The method `rollAllDice()` on array objects; the snapshot's `rolls` are the
newly stored arrays. -/
def rollAllDice (e : HeapManager) (random : Nat → ℚ) (now : Nat → Int) :
    HeapManager × SnapshotRef :=
  ({ count := fun t => ((e.view.rollAllDice random now).manager.dicePool t).count
     results := e.rolledResults
     heap :=
       diceTypes.foldl
         (fun heap t =>
           if e.count t > 0 then
             Function.update heap (e.rolledResults t)
               ((e.view.rollAllDice random now).manager.dicePool t).results
           else heap)
         e.heap
     nextAddress := e.nextAddress + 8
     selectedDice := (e.view.rollAllDice random now).manager.selectedDice },
   (e.view.rollAllDice random now).snapshot.withRolls e.rolledResults)

/-- Distinct pool entries hold distinct arrays, all allocated already. -/
def WellFormed (e : HeapManager) : Prop :=
  Function.Injective e.results ∧ ∀ t, e.results t < e.nextAddress

end HeapManager

/-- An operation that returns a snapshot. -/
inductive SnapshotOp where
  | rollAllDice (random : Nat → ℚ) (now : Nat → Int)
  | rerollSelectedDice (random : Nat → ℚ) (now : Nat → Int)
  | removeSelectedDice (now : Nat → Int)

/-- The manager after the operation and the snapshot it returns. -/
def SnapshotOp.apply (op : SnapshotOp) (e : HeapManager) : HeapManager × SnapshotRef :=
  match op with
  | .rollAllDice random now => e.rollAllDice random now
  | .rerollSelectedDice random now => e.rerollSelectedDice random now
  | .removeSelectedDice now => e.removeSelectedDice now

/-- An operation that changes the stored dice in place. -/
inductive SelectionOp where
  | toggleDiceSelection (diceId : DieId)
  | rerollSelectedDice (random : Nat → ℚ) (now : Nat → Int)
  | removeSelectedDice (now : Nat → Int)

/-- The manager after the operation. -/
def SelectionOp.apply (op : SelectionOp) (e : HeapManager) : HeapManager :=
  match op with
  | .toggleDiceSelection diceId => e.toggleDiceSelection diceId
  | .rerollSelectedDice random now => (e.rerollSelectedDice random now).1
  | .removeSelectedDice now => (e.removeSelectedDice now).1

/-- The manager after a sequence of such operations, first one first. -/
def runSelectionOps (ops : List SelectionOp) (e : HeapManager) : HeapManager :=
  ops.foldl (fun st op => op.apply st) e

/-- The same operation on the manager without addresses. -/
def SelectionOp.applyView (op : SelectionOp) (m : DiceManager) : DiceManager :=
  match op with
  | .toggleDiceSelection diceId => m.toggleDiceSelection diceId
  | .rerollSelectedDice random now => (m.rerollSelectedDice random now).manager
  | .removeSelectedDice now => (m.removeSelectedDice now).manager

/-- The same snapshot operation on the manager without addresses. -/
def SnapshotOp.applyView (op : SnapshotOp) (m : DiceManager) : SnapshotCall :=
  match op with
  | .rollAllDice random now => m.rollAllDice random now
  | .rerollSelectedDice random now => m.rerollSelectedDice random now
  | .removeSelectedDice now => m.removeSelectedDice now

/-- The manager without addresses after a sequence of in-place operations. -/
def runSelectionOpsView (ops : List SelectionOp) (m : DiceManager) : DiceManager :=
  ops.foldl (fun st op => op.applyView st) m

/-- A new manager with one d6 loaded, with array objects. -/
def exampleHeapLoaded : HeapManager :=
  { HeapManager.new with count := fun t => if t = .d6 then 1 else 0 }

/-! ## Statistics of a list of rolls (`src/js/utils.js`, lines 56-73)

Rolls are integer-valued binary64 numbers; `average` and `median` come from a
division and are embedded as rationals.  Every addition and division is
followed by the rounding to binary64. -/

/-- The object returned by `DiceUtils.calculateStats` for a non-empty array. -/
structure Stats where
  sum : Int
  average : ℚ
  min : Int
  max : Int
  median : ℚ
  count : Nat

/-- The argument array after a call of `calculateStats`, and the returned value
(`none` is `null`). -/
structure StatsCall where
  rolls : List Int
  value : Option Stats

namespace DiceUtils

/-- The function `calculateStats(rolls)` (lines 57-73).  The array that is
sorted is the copy `[...rolls]`, so the argument keeps its order.  The
comparator of `sort((a, b) => a - b)` returns the rounded difference, which has
the sign of the exact difference, so the call puts the numbers in ascending
order; the ascending arrangement of a list of integers is unique, and it is
computed here by insertion sort.  Every index read lies inside the non-empty
array, so the default of `getD` is never used. -/
def calculateStats (rolls : List Int) : StatsCall :=
  if rolls.length = 0 then { rolls := rolls, value := none }
  else
    let sum := rolls.foldl (fun acc val => roundToDouble (acc + val)) 0
    let sorted := rolls.insertionSort (fun a b => a ≤ b)
    { rolls := rolls
      value := some
        { sum := sum
          average := toDouble ((sum : ℚ) / (rolls.length : ℚ))
          min := sorted.getD 0 0
          max := sorted.getD (sorted.length - 1) 0
          median :=
            if sorted.length % 2 = 0 then
              toDouble
                (((roundToDouble
                  (sorted.getD (sorted.length / 2 - 1) 0 + sorted.getD (sorted.length / 2) 0)
                    : Int) : ℚ) / 2)
            else ((sorted.getD (sorted.length / 2) 0 : Int) : ℚ)
          count := rolls.length } }

end DiceUtils

/-! ## Dice notation (`src/js/utils.js`, lines 36-54)

The arguments are integer-valued binary64 numbers.  A template literal prints a
number by the conversion of a number to a string: the decimal digits of an
integer of magnitude up to `2^53`, the shortest digits that convert back to the
number above that, and the exponent form from `10^21` on; a negative number
gets a leading minus sign.  `parseInt` returns the binary64 value nearest to
the integer that the digits denote. -/

/-- The character of a decimal digit. -/
def digitChar : Nat → Char
  | 0 => '0'
  | 1 => '1'
  | 2 => '2'
  | 3 => '3'
  | 4 => '4'
  | 5 => '5'
  | 6 => '6'
  | 7 => '7'
  | 8 => '8'
  | _ => '9'

/-- The value of a decimal digit character. -/
def digitValue (c : Char) : Nat :=
  c.toNat - 48

/-- The decimal digits of a natural number, most significant first. -/
def natToChars (n : Nat) : List Char :=
  if n = 0 then ['0'] else (Nat.digits 10 n).reverse.map digitChar

/-- The decimal numeral with at most `k` significant digits that is nearest to
`a` among those that the conversion to binary64 maps to `a`, if there is one;
of two equally near ones, the one whose last significant digit is even. -/
def roundTrip (a : Nat) (k : Nat) : Option Nat :=
  let p := 10 ^ ((Nat.digits 10 a).length - k)
  let lo := a / p * p
  let hi := lo + p
  let okLo : Bool := decide (roundToDouble (lo : Int) = (a : Int))
  let okHi : Bool := decide (roundToDouble (hi : Int) = (a : Int))
  if okLo ∧ okHi then
    if a - lo < hi - a then some lo
    else if hi - a < a - lo then some hi
    else if (a / p) % 2 = 0 then some lo else some hi
  else if okLo then some lo
  else if okHi then some hi
  else none

/-- The numeral of `roundTrip` for the least number of digits from `k` on that
has one, trying `fuel` digit counts; `a` itself if none is found (seventeen
digits always suffice for a binary64 value). -/
def shortestRoundTrip (a : Nat) : Nat → Nat → Nat
  | 0, _ => a
  | fuel + 1, k =>
    match roundTrip a k with
    | some v => v
    | none => shortestRoundTrip a fuel (k + 1)

/-- The digits without the zeros at the end. -/
def dropTrailingZeros (digits : List Char) : List Char :=
  (digits.reverse.dropWhile (fun c => c = '0')).reverse

/-- The text that a template literal prints for a binary64 value that is a
natural number `a` (the conversion of a number to a string of the language):
up to `2^53` the decimal digits of `a`; above, the shortest digits that
convert back to `a`, filled up with zeros when there are at most `21` digits
in all, and otherwise in exponent form, as in `1e+21` and `1.5e+21`. -/
def natNumberToChars (a : Nat) : List Char :=
  if a ≤ 9007199254740992 then natToChars a
  else
    let digits := natToChars (shortestRoundTrip a 17 1)
    if digits.length ≤ 21 then digits
    else
      match dropTrailingZeros digits with
      | [] => digits
      | [d] => d :: 'e' :: '+' :: natToChars (digits.length - 1)
      | d :: rest => d :: '.' :: (rest ++ 'e' :: '+' :: natToChars (digits.length - 1))

/-- The text that a template literal prints for an integer-valued binary64
value. -/
def numberToChars (i : Int) : List Char :=
  if i < 0 then '-' :: natNumberToChars i.natAbs else natNumberToChars i.natAbs

/-- The number that a string of decimal digits denotes. -/
def digitsValue (digits : List Char) : Nat :=
  digits.foldl (fun acc c => 10 * acc + digitValue c) 0

/-- The call `parseInt(s)` for a string `s` of decimal digits with an optional
sign in front, which is what the groups of the pattern capture: the binary64
value nearest to the integer that the text denotes. -/
def parseInt : List Char → Int
  | '-' :: digits => roundToDouble (-(digitsValue digits : Int))
  | '+' :: digits => roundToDouble (digitsValue digits : Int)
  | digits => roundToDouble (digitsValue digits : Int)

/-- An attempt to match `(\d+)d(\d+)([+-]\d+)?` with flag `i` at the start of
the text: the three captured groups (the third is `none` when it took no part
in the match).  Both `\d+` are greedy: the first must take the whole run of
digits, since a shorter one would be followed by a digit and not by `d`; the
second keeps the whole run, since the optional group that follows can always
match nothing, so no backtracking takes place. -/
def matchAt (text : List Char) : Option (List Char × List Char × Option (List Char)) :=
  let first := text.span Char.isDigit
  if first.1 = [] then none
  else
    match first.2 with
    | [] => none
    | c :: rest =>
      if c = 'd' ∨ c = 'D' then
        let second := rest.span Char.isDigit
        if second.1 = [] then none
        else
          match second.2 with
          | [] => some (first.1, second.1, none)
          | sign :: tail =>
            if sign = '+' ∨ sign = '-' then
              let third := tail.span Char.isDigit
              if third.1 = [] then some (first.1, second.1, none)
              else some (first.1, second.1, some (sign :: third.1))
            else some (first.1, second.1, none)
      else none

/-- The leftmost match of the pattern: start positions are tried from left to
right. -/
def matchPattern : List Char → Option (List Char × List Char × Option (List Char))
  | [] => none
  | c :: rest =>
    match matchAt (c :: rest) with
    | some groups => some groups
    | none => matchPattern rest

/-- The object returned by `DiceUtils.parseDiceNotation`. -/
structure ParsedNotation where
  count : Int
  sides : Int
  modifier : Int
  deriving DecidableEq

namespace DiceUtils

/-- The function `formatDiceNotation(count, sides, modifier)` (lines 37-42). -/
def formatDiceNotation (count sides modifier : Int) : String :=
  let text := numberToChars count ++ ['d'] ++ numberToChars sides
  if modifier > 0 then String.mk (text ++ ['+'] ++ numberToChars modifier)
  else if modifier < 0 then String.mk (text ++ numberToChars modifier)
  else String.mk text

/-- The function `parseDiceNotation(text)` (lines 45-54); `none` is `null`. -/
def parseDiceNotation (text : String) : Option ParsedNotation :=
  match matchPattern text.data with
  | none => none
  | some (first, second, third) =>
    some
      { count := parseInt first
        sides := parseInt second
        modifier :=
          match third with
          | some group => parseInt group
          | none => 0 }

end DiceUtils

/-! ## Binary64 rounding -/

theorem roundToDouble_of_le (x : Int) (h : x.natAbs ≤ 2 ^ 53) : roundToDouble x = x := by
  unfold roundToDouble
  rw [if_pos (by norm_num at h ⊢; exact h)]

theorem roundToDouble_nonneg (x : Int) (h : 0 ≤ x) : 0 ≤ roundToDouble x := by
  unfold roundToDouble
  split
  · exact h
  · exact mul_nonneg (Int.sign_nonneg.mpr h) (Int.natCast_nonneg _)

theorem foldl_round_eq_sum (l : List Int) (a : Int)
    (h : a.natAbs + (l.map Int.natAbs).sum ≤ 2 ^ 53) :
    l.foldl (fun acc v => roundToDouble (acc + v)) a = a + l.sum := by
  induction l generalizing a with
  | nil => simp
  | cons v l ih =>
    simp only [List.map_cons, List.sum_cons] at h
    have hav : (a + v).natAbs ≤ a.natAbs + v.natAbs := Int.natAbs_add_le a v
    rw [List.foldl_cons, roundToDouble_of_le _ (by omega), ih _ (by omega), List.sum_cons]
    ring

theorem roundHalfEven_intCast (n : Int) : roundHalfEven (n : ℚ) = n := by
  unfold roundHalfEven
  simp

theorem roundHalfEven_nonneg (t : ℚ) (ht : 0 ≤ t) : 0 ≤ roundHalfEven t := by
  unfold roundHalfEven
  have hf : 0 ≤ ⌊t⌋ := Int.floor_nonneg.mpr ht
  split
  · exact hf
  · split
    · omega
    · split <;> omega

theorem roundHalfEven_le_pred (t : ℚ) (n : Int) (ht : t < (n : ℚ) - 1 / 2) :
    roundHalfEven t ≤ n - 1 := by
  unfold roundHalfEven
  have hfl : (⌊t⌋ : ℚ) ≤ t := Int.floor_le t
  have hlt : ⌊t⌋ < n := by
    rw [Int.floor_lt]
    linarith
  by_cases hcase : ⌊t⌋ = n - 1
  · have hfrac : t - ⌊t⌋ < 1 / 2 := by
      rw [hcase]
      push_cast
      linarith
    rw [if_pos hfrac]
    omega
  · have hle : ⌊t⌋ ≤ n - 2 := by omega
    split
    · omega
    · split
      · omega
      · split <;> omega

theorem two_zpow_pos (e : Int) : (0 : ℚ) < (2 : ℚ) ^ e := zpow_pos (by norm_num) e

theorem ulpExponent_ge (x : ℚ) : -1074 ≤ ulpExponent x := by
  unfold ulpExponent
  have := le_max_right (Int.log 2 |x|) (-1022)
  omega

/-- the exponent of a non-zero number below `2^(53+j)` is at most `j` -/
theorem ulpExponent_le (x : ℚ) (j : Int) (hj : -1074 ≤ j) (h0 : x ≠ 0)
    (hx : |x| < (2 : ℚ) ^ (53 + j)) : ulpExponent x ≤ j := by
  unfold ulpExponent
  have hpos : 0 < |x| := abs_pos.mpr h0
  have hlog : Int.log 2 |x| < 53 + j := by
    have h1 := Int.zpow_log_le_self (b := 2) (r := |x|) (by norm_num) hpos
    have h4 : ((2 : ℕ) : ℚ) = (2 : ℚ) := by norm_num
    rw [h4] at h1
    by_contra hcon
    push_neg at hcon
    have h3 : (2 : ℚ) ^ (53 + j) ≤ (2 : ℚ) ^ Int.log 2 |x| :=
      zpow_le_zpow_right₀ (by norm_num) hcon
    linarith
  have hmax : max (Int.log 2 |x|) (-1022) ≤ 52 + j := max_le (by omega) (by omega)
  omega

/-- a number `k * 2^j` with `|k| < 2^53` is a double -/
theorem toDouble_mul_zpow (k : Int) (j : Int) (hk : k.natAbs < 2 ^ 53) (hj : -1074 ≤ j) :
    toDouble ((k : ℚ) * (2 : ℚ) ^ j) = (k : ℚ) * (2 : ℚ) ^ j := by
  by_cases hk0 : k = 0
  · subst hk0
    unfold toDouble
    simp [roundHalfEven]
  have hne : (k : ℚ) * (2 : ℚ) ^ j ≠ 0 :=
    mul_ne_zero (by exact_mod_cast hk0) (two_zpow_pos j).ne'
  have hx : |(k : ℚ) * (2 : ℚ) ^ j| < (2 : ℚ) ^ (53 + j) := by
    rw [abs_mul, abs_of_pos (two_zpow_pos j), zpow_add₀ (by norm_num : (2 : ℚ) ≠ 0)]
    apply mul_lt_mul_of_pos_right _ (two_zpow_pos j)
    have : |(k : ℚ)| = ((k.natAbs : ℕ) : ℚ) := by
      rw [Nat.cast_natAbs]
      simp
    rw [this]
    have h2 : ((2 : ℚ) ^ (53 : ℤ)) = (((2 ^ 53 : ℕ) : ℕ) : ℚ) := by norm_num
    rw [h2]
    exact_mod_cast hk
  have he := ulpExponent_le _ j hj hne hx
  unfold toDouble
  generalize ulpExponent ((k : ℚ) * (2 : ℚ) ^ j) = e at he
  have hn : (((j - e).toNat : ℕ) : ℤ) = j - e := Int.toNat_of_nonneg (by omega)
  have hpow : (2 : ℚ) ^ (j - e) = (2 : ℚ) ^ (j - e).toNat := by
    rw [← zpow_natCast, hn]
  have hdiv : (k : ℚ) * (2 : ℚ) ^ j / (2 : ℚ) ^ e = ((k * 2 ^ (j - e).toNat : Int) : ℚ) := by
    rw [mul_div_assoc, ← zpow_sub₀ (by norm_num : (2 : ℚ) ≠ 0), hpow]
    push_cast
    rfl
  rw [hdiv, roundHalfEven_intCast]
  push_cast
  rw [mul_assoc, ← hpow, ← zpow_add₀ (by norm_num : (2 : ℚ) ≠ 0)]
  congr 2
  omega

theorem toDouble_nonneg (x : ℚ) (hx : 0 ≤ x) : 0 ≤ toDouble x := by
  unfold toDouble
  apply mul_nonneg _ (two_zpow_pos _).le
  have : 0 ≤ roundHalfEven (x / (2 : ℚ) ^ ulpExponent x) :=
    roundHalfEven_nonneg _ (div_nonneg hx (two_zpow_pos _).le)
  exact_mod_cast this

/-- the product of a draw below one and a side count rounds below the side count -/
theorem toDouble_mul_lt (r : ℚ) (s : Int) (hr0 : 0 ≤ r) (hr1 : r ≤ 1 - (2 : ℚ) ^ (-53 : ℤ))
    (hs1 : 2 ≤ s) (hs2 : s ≤ 2 ^ 52) : toDouble (r * (s : ℚ)) < (s : ℚ) := by
  have hsq : (2 : ℚ) ≤ (s : ℚ) := by exact_mod_cast hs1
  have hsq2 : (s : ℚ) ≤ (2 : ℚ) ^ (52 : ℤ) := by
    have : ((2 : ℚ) ^ (52 : ℤ)) = (((2 ^ 52 : ℤ) : ℤ) : ℚ) := by norm_num
    rw [this]
    exact_mod_cast hs2
  have hx0 : 0 ≤ r * (s : ℚ) := mul_nonneg hr0 (by linarith)
  have h53 : (0 : ℚ) < (2 : ℚ) ^ (-53 : ℤ) := two_zpow_pos _
  have hxs : r * (s : ℚ) ≤ (s : ℚ) - (s : ℚ) * (2 : ℚ) ^ (-53 : ℤ) := by nlinarith
  have hulp : (2 : ℚ) ^ ulpExponent (r * (s : ℚ)) < (s : ℚ) * (2 : ℚ) ^ (-52 : ℤ) := by
    unfold ulpExponent
    rw [abs_of_nonneg hx0]
    have h52 : (0 : ℚ) < (2 : ℚ) ^ (-52 : ℤ) := two_zpow_pos _
    rcases le_total (Int.log 2 (r * (s : ℚ))) (-1022) with hle | hle
    · rw [max_eq_right hle]
      have : (2 : ℚ) ^ (-1022 - 52 : ℤ) < (2 : ℚ) ^ (-52 : ℤ) :=
        zpow_lt_zpow_right₀ (by norm_num) (by norm_num)
      nlinarith
    · rw [max_eq_left hle, zpow_sub₀ (by norm_num : (2 : ℚ) ≠ 0)]
      have hlogle : (2 : ℚ) ^ Int.log 2 (r * (s : ℚ)) < (s : ℚ) := by
        by_cases hpos : 0 < r * (s : ℚ)
        · have h1 := Int.zpow_log_le_self (b := 2) (r := r * (s : ℚ)) (by norm_num) hpos
          have h4 : ((2 : ℕ) : ℚ) = (2 : ℚ) := by norm_num
          rw [h4] at h1
          have : r * (s : ℚ) < (s : ℚ) := by nlinarith
          linarith
        · have hzero : r * (s : ℚ) = 0 := le_antisymm (not_lt.mp hpos) hx0
          rw [hzero, Int.log_zero_right, zpow_zero]
          linarith
      rw [div_eq_mul_inv, ← zpow_neg]
      exact mul_lt_mul_of_pos_right hlogle (two_zpow_pos _)
  have hexp : ulpExponent (r * (s : ℚ)) ≤ 0 := by
    by_contra hcon
    push_neg at hcon
    have h1 : (2 : ℚ) ^ (1 : ℤ) ≤ (2 : ℚ) ^ ulpExponent (r * (s : ℚ)) :=
      zpow_le_zpow_right₀ (by norm_num) (by omega)
    have h2 : (s : ℚ) * (2 : ℚ) ^ (-52 : ℤ) ≤ (2 : ℚ) ^ (52 : ℤ) * (2 : ℚ) ^ (-52 : ℤ) :=
      mul_le_mul_of_nonneg_right hsq2 (two_zpow_pos _).le
    rw [← zpow_add₀ (by norm_num : (2 : ℚ) ≠ 0)] at h2
    have h52v : (2 : ℚ) ^ (-52 : ℤ) = 1 / 4503599627370496 := by norm_num
    rw [h52v] at hulp
    norm_num at h1 h2
    linarith
  unfold toDouble
  generalize ulpExponent (r * (s : ℚ)) = e at hulp hexp
  have hu := two_zpow_pos e
  have hn : (((-e).toNat : ℕ) : ℤ) = -e := Int.toNat_of_nonneg (by omega)
  have hsdiv : (s : ℚ) / (2 : ℚ) ^ e = ((s * 2 ^ (-e).toNat : Int) : ℚ) := by
    rw [div_eq_mul_inv, ← zpow_neg, ← hn, zpow_natCast]
    push_cast
    rfl
  have h52v : (2 : ℚ) ^ (-52 : ℤ) = 1 / 4503599627370496 := by norm_num
  have h53v : (2 : ℚ) ^ (-53 : ℤ) = 1 / 9007199254740992 := by norm_num
  rw [h52v] at hulp
  rw [h53v] at hxs
  have ht : r * (s : ℚ) / (2 : ℚ) ^ e < ((s * 2 ^ (-e).toNat : Int) : ℚ) - 1 / 2 := by
    rw [← hsdiv, div_sub' _ _ _ hu.ne', div_lt_div_iff_of_pos_right hu]
    linarith
  have hround := roundHalfEven_le_pred _ _ ht
  have hroundq : (roundHalfEven (r * (s : ℚ) / (2 : ℚ) ^ e) : ℚ) ≤
      ((s * 2 ^ (-e).toNat : Int) : ℚ) - 1 := by exact_mod_cast hround
  calc (roundHalfEven (r * (s : ℚ) / (2 : ℚ) ^ e) : ℚ) * (2 : ℚ) ^ e
      ≤ (((s * 2 ^ (-e).toNat : Int) : ℚ) - 1) * (2 : ℚ) ^ e :=
        mul_le_mul_of_nonneg_right hroundq hu.le
    _ = (s : ℚ) - (2 : ℚ) ^ e := by
        rw [← hsdiv]
        field_simp
    _ < (s : ℚ) := by linarith

/-- a double below one is at most `1 - 2^-53` -/
theorem double_lt_one (r : ℚ) (hd : toDouble r = r) (h1 : r < 1) :
    r ≤ 1 - (2 : ℚ) ^ (-53 : ℤ) := by
  have h53v : (2 : ℚ) ^ (-53 : ℤ) = 1 / 9007199254740992 := by norm_num
  by_cases hhalf : r ≤ 1 / 2
  · rw [h53v]
    linarith
  push_neg at hhalf
  have hpos : 0 < r := by linarith
  have hlog : Int.log 2 |r| = -1 := by
    rw [abs_of_pos hpos]
    have hlow : (-1 : ℤ) ≤ Int.log 2 r := by
      rw [← Int.zpow_le_iff_le_log (by norm_num) hpos]
      norm_num
      linarith
    have hhigh : Int.log 2 r < 0 := by
      rw [← Int.lt_zpow_iff_log_lt (by norm_num) hpos]
      norm_num
      exact h1
    omega
  have he : ulpExponent r = -53 := by
    unfold ulpExponent
    rw [hlog]
    norm_num
  unfold toDouble at hd
  rw [he] at hd
  generalize roundHalfEven (r / (2 : ℚ) ^ (-53 : ℤ)) = k at hd
  have h3 : (2 : ℚ) ^ (53 : ℤ) * (2 : ℚ) ^ (-53 : ℤ) = 1 := by norm_num
  have hklt : (k : ℚ) < (2 : ℚ) ^ (53 : ℤ) := by
    have h2 : (k : ℚ) * (2 : ℚ) ^ (-53 : ℤ) < 1 := by rw [hd]; exact h1
    by_contra hcon
    push_neg at hcon
    have := mul_le_mul_of_nonneg_right hcon (two_zpow_pos (-53 : ℤ)).le
    linarith
  have hpow : ((2 : ℚ) ^ (53 : ℤ)) = (((2 ^ 53 : ℤ) : ℤ) : ℚ) := by norm_num
  have hkint : k < 2 ^ 53 := by
    rw [hpow] at hklt
    exact_mod_cast hklt
  have hkle : (k : ℚ) ≤ (2 : ℚ) ^ (53 : ℤ) - 1 := by
    rw [hpow]
    have : k ≤ 2 ^ 53 - 1 := by omega
    exact_mod_cast this
  rw [← hd]
  have := mul_le_mul_of_nonneg_right hkle (two_zpow_pos (-53 : ℤ)).le
  linarith

theorem ulpExponent_of_bounds (x : ℚ) (l : Int) (hl : -1022 ≤ l) (h1 : (2 : ℚ) ^ l ≤ |x|)
    (h2 : |x| < (2 : ℚ) ^ (l + 1)) : ulpExponent x = l - 52 := by
  have hpos : 0 < |x| := lt_of_lt_of_le (two_zpow_pos l) h1
  have h4 : ((2 : ℕ) : ℚ) = (2 : ℚ) := by norm_num
  have hlow : l ≤ Int.log 2 |x| := by
    rw [← Int.zpow_le_iff_le_log (by norm_num) hpos, h4]
    exact h1
  have hhigh : Int.log 2 |x| < l + 1 := by
    rw [← Int.lt_zpow_iff_log_lt (by norm_num) hpos, h4]
    exact h2
  unfold ulpExponent
  have : Int.log 2 |x| = l := by omega
  rw [this, max_eq_left hl]

theorem roundHalfEven_of_floor (t : ℚ) (f : Int) (hf1 : (f : ℚ) ≤ t) (hf2 : t < (f : ℚ) + 1) :
    roundHalfEven t =
      if t - f < 1 / 2 then f else if 1 / 2 < t - f then f + 1
      else if f % 2 = 0 then f else f + 1 := by
  have hfl : ⌊t⌋ = f := Int.floor_eq_iff.mpr ⟨hf1, hf2⟩
  unfold roundHalfEven
  rw [hfl]

theorem toDouble_four_thirds : toDouble (4 / 3) = 6004799503160661 / 4503599627370496 := by
  have he : ulpExponent (4 / 3) = 0 - 52 :=
    ulpExponent_of_bounds _ 0 (by decide) (by rw [abs_of_pos] <;> norm_num)
      (by rw [abs_of_pos] <;> norm_num)
  have hr : roundHalfEven (4 / 3 / (2 : ℚ) ^ (0 - 52 : ℤ)) = 6004799503160661 := by
    rw [roundHalfEven_of_floor _ 6004799503160661 (by norm_num) (by norm_num)]
    norm_num
  unfold toDouble
  rw [he, hr]
  norm_num

/-! ## Basic facts about the keys -/

theorem lookupPool_key (t : DiceType) : lookupPool t.key = .entry t := by
  cases t <;> decide

theorem mem_diceTypes (t : DiceType) : t ∈ diceTypes := by
  cases t <;> decide

theorem diceTypes_nodup : diceTypes.Nodup := by
  decide

theorem lookupPool_undefined_of_not_key (type : String)
    (hown : DiceType.ofKey type = none) (hproto : type ∉ objectPrototypeKeys) :
    lookupPool type = .undefined := by
  simp [lookupPool, hown, hproto]

/-- Strings that are neither a pool key nor a member of `Object.prototype` are
rejected by the three pool mutations: they return `0` and change nothing. -/
theorem pool_mutations_reject_absent_key (m : DiceManager) (h : Host) (type : String) (n : Int)
    (hown : DiceType.ofKey type = none) (hproto : type ∉ objectPrototypeKeys) :
    (m.addDice h type n).value = .int 0 ∧ (m.addDice h type n).manager = m ∧
    (m.addDice h type n).host = h ∧
    (m.removeDice h type n).value = .int 0 ∧ (m.removeDice h type n).manager = m ∧
    (m.removeDice h type n).host = h ∧
    (m.resetDice h type).value = .int 0 ∧ (m.resetDice h type).manager = m ∧
    (m.resetDice h type).host = h := by
  simp [DiceManager.addDice, DiceManager.removeDice, DiceManager.resetDice,
    lookupPool_undefined_of_not_key type hown hproto]

/-! ## Pool mutations -/

/-- C1 (counterexample): a `count` of `2^53` is reached by
`addDice('d6', 9007199254740992)` on a new manager; `addDice('d6', 1)` then
leaves `count.d6` at `2^53` and returns `2^53`, not the old value plus `1`:
`2^53 + 1` is no binary64 value and the sum is rounded. -/
theorem C1_addDice_rounds_above_safe_range :
    ((DiceManager.new.addDice Host.fresh "d6" 9007199254740992).manager.dicePool .d6).count =
      9007199254740992 ∧
    (((DiceManager.new.addDice Host.fresh "d6" 9007199254740992).manager.addDice Host.fresh
      "d6" 1).manager.dicePool .d6).count = 9007199254740992 ∧
    ((DiceManager.new.addDice Host.fresh "d6" 9007199254740992).manager.addDice Host.fresh
      "d6" 1).value = .int 9007199254740992 ∧
    (((DiceManager.new.addDice Host.fresh "d6" 9007199254740992).manager.addDice Host.fresh
      "d6" 1).manager.dicePool .d6).count ≠
      ((DiceManager.new.addDice Host.fresh "d6" 9007199254740992).manager.dicePool .d6).count
        + 1 := by
  decide

/-- C1 (amended): for each of the eight dice types `t`, every manager state and
every integer `n`, `addDice(t, n)` sets `count[t]` to the binary64 value
nearest to its old value plus `n` and returns that new count; when the old
value plus `n` is at most `2^53` in magnitude, the new count is the old value
plus `n`; every other type's count, every type's results, the selection set
and the host objects are unchanged. -/
theorem C1_addDice_adds_to_count (m : DiceManager) (h : Host) (t : DiceType) (n : Int) :
    ((m.addDice h t.key n).manager.dicePool t).count =
      roundToDouble ((m.dicePool t).count + n) ∧
    (m.addDice h t.key n).value = .int ((m.addDice h t.key n).manager.dicePool t).count ∧
    (((m.dicePool t).count + n).natAbs ≤ 2 ^ 53 →
      ((m.addDice h t.key n).manager.dicePool t).count = (m.dicePool t).count + n ∧
      (m.addDice h t.key n).value = .int ((m.dicePool t).count + n)) ∧
    (∀ u, u ≠ t → ((m.addDice h t.key n).manager.dicePool u).count = (m.dicePool u).count) ∧
    (∀ u, ((m.addDice h t.key n).manager.dicePool u).results = (m.dicePool u).results) ∧
    (m.addDice h t.key n).manager.selectedDice = m.selectedDice ∧
    (m.addDice h t.key n).host = h := by
  refine ⟨?_, ?_, ?_, ?_, ?_, ?_, ?_⟩
  · simp [DiceManager.addDice, lookupPool_key]
  · simp [DiceManager.addDice, lookupPool_key]
  · intro hsafe
    refine ⟨?_, ?_⟩
    · simp [DiceManager.addDice, lookupPool_key, roundToDouble_of_le _ hsafe]
    · simp [DiceManager.addDice, lookupPool_key, roundToDouble_of_le _ hsafe]
  · intro u hu
    simp [DiceManager.addDice, lookupPool_key, Function.update_noteq hu]
  · intro u
    by_cases hu : u = t
    · subst hu
      simp [DiceManager.addDice, lookupPool_key]
    · simp [DiceManager.addDice, lookupPool_key, Function.update_noteq hu]
  · simp [DiceManager.addDice, lookupPool_key]
  · simp [DiceManager.addDice, lookupPool_key]

/-- C1 at a concrete input: `addDice('d6', 2)` on a new manager, whose
`count.d6` is `0`, stores and returns `0 + 2`. -/
theorem C1_addDice_adds_to_count_witness :
    ((DiceManager.new.dicePool .d6).count + 2).natAbs ≤ 2 ^ 53 ∧
    ((DiceManager.new.addDice Host.fresh DiceType.d6.key 2).manager.dicePool .d6).count =
      (DiceManager.new.dicePool .d6).count + 2 ∧
    (DiceManager.new.addDice Host.fresh DiceType.d6.key 2).value =
      .int ((DiceManager.new.dicePool .d6).count + 2) :=
  ⟨by decide,
   (C1_addDice_adds_to_count DiceManager.new Host.fresh .d6 2).2.2.1 (by decide)⟩

/-- C2 (counterexample): a `count` of `2^53 + 2` is reached by
`addDice('d6', 9007199254740994)` on a new manager; `removeDice('d6', 1)` then
sets `count.d6` to `2^53` and returns `2^53`, not `max(0, count - 1)`, which is
`2^53 + 1`: the difference is no binary64 value and is rounded. -/
theorem C2_removeDice_rounds_above_safe_range :
    ((DiceManager.new.addDice Host.fresh "d6" 9007199254740994).manager.dicePool .d6).count =
      9007199254740994 ∧
    (((DiceManager.new.addDice Host.fresh "d6" 9007199254740994).manager.removeDice Host.fresh
      "d6" 1).manager.dicePool .d6).count = 9007199254740992 ∧
    ((DiceManager.new.addDice Host.fresh "d6" 9007199254740994).manager.removeDice Host.fresh
      "d6" 1).value = .int 9007199254740992 ∧
    (((DiceManager.new.addDice Host.fresh "d6" 9007199254740994).manager.removeDice Host.fresh
      "d6" 1).manager.dicePool .d6).count ≠
      max 0
        (((DiceManager.new.addDice Host.fresh "d6" 9007199254740994).manager.dicePool .d6).count
          - 1) := by
  decide

/-- C2 (amended): for each of the eight dice types `t`, every manager state and
every integer `n`, `removeDice(t, n)` sets `count[t]` to `max(0, d)` for the
binary64 value `d` nearest to `count[t] - n` and returns that new count; when
`count[t] - n` is at most `2^53` in magnitude (in particular for a non-negative
count of at most `2^53` and `0 ≤ n ≤ 2^53`), the new count is
`max(0, count[t] - n)`; every other type's count, every type's results, the
selection set and the host objects are unchanged. -/
theorem C2_removeDice_clamps_count (m : DiceManager) (h : Host) (t : DiceType) (n : Int) :
    ((m.removeDice h t.key n).manager.dicePool t).count =
      max 0 (roundToDouble ((m.dicePool t).count - n)) ∧
    (m.removeDice h t.key n).value =
      .int ((m.removeDice h t.key n).manager.dicePool t).count ∧
    (((m.dicePool t).count - n).natAbs ≤ 2 ^ 53 →
      ((m.removeDice h t.key n).manager.dicePool t).count =
        max 0 ((m.dicePool t).count - n) ∧
      (m.removeDice h t.key n).value = .int (max 0 ((m.dicePool t).count - n))) ∧
    (0 ≤ (m.dicePool t).count → (m.dicePool t).count ≤ 2 ^ 53 → 0 ≤ n → n ≤ 2 ^ 53 →
      ((m.removeDice h t.key n).manager.dicePool t).count =
        max 0 ((m.dicePool t).count - n)) ∧
    (∀ u, u ≠ t →
      ((m.removeDice h t.key n).manager.dicePool u).count = (m.dicePool u).count) ∧
    (∀ u, ((m.removeDice h t.key n).manager.dicePool u).results = (m.dicePool u).results) ∧
    (m.removeDice h t.key n).manager.selectedDice = m.selectedDice ∧
    (m.removeDice h t.key n).host = h := by
  refine ⟨?_, ?_, ?_, ?_, ?_, ?_, ?_, ?_⟩
  · simp [DiceManager.removeDice, lookupPool_key]
  · simp [DiceManager.removeDice, lookupPool_key]
  · intro hsafe
    refine ⟨?_, ?_⟩
    · simp [DiceManager.removeDice, lookupPool_key, roundToDouble_of_le _ hsafe]
    · simp [DiceManager.removeDice, lookupPool_key, roundToDouble_of_le _ hsafe]
  · intro hc0 hc1 hn0 hn1
    have hsafe : ((m.dicePool t).count - n).natAbs ≤ 2 ^ 53 := by omega
    simp [DiceManager.removeDice, lookupPool_key, roundToDouble_of_le _ hsafe]
  · intro u hu
    simp [DiceManager.removeDice, lookupPool_key, Function.update_noteq hu]
  · intro u
    by_cases hu : u = t
    · subst hu
      simp [DiceManager.removeDice, lookupPool_key]
    · simp [DiceManager.removeDice, lookupPool_key, Function.update_noteq hu]
  · simp [DiceManager.removeDice, lookupPool_key]
  · simp [DiceManager.removeDice, lookupPool_key]

/-- C2 at a concrete input: after `addDice('d6', 2)` on a new manager,
`removeDice('d6', 5)` stores and returns `max(0, 2 - 5)`. -/
theorem C2_removeDice_clamps_count_witness :
    (((DiceManager.new.addDice Host.fresh "d6" 2).manager.dicePool .d6).count - 5).natAbs
      ≤ 2 ^ 53 ∧
    (((DiceManager.new.addDice Host.fresh "d6" 2).manager.removeDice Host.fresh
      DiceType.d6.key 5).manager.dicePool .d6).count =
      max 0 (((DiceManager.new.addDice Host.fresh "d6" 2).manager.dicePool .d6).count - 5) ∧
    ((DiceManager.new.addDice Host.fresh "d6" 2).manager.removeDice Host.fresh
      DiceType.d6.key 5).value =
      .int (max 0 (((DiceManager.new.addDice Host.fresh "d6" 2).manager.dicePool .d6).count
        - 5)) :=
  ⟨by decide,
   (C2_removeDice_clamps_count (DiceManager.new.addDice Host.fresh "d6" 2).manager Host.fresh
      .d6 5).2.2.1 (by decide)⟩

/-- C3 (evaluation at the failing input): the string `constructor` is none of
the eight pool keys, yet on a new manager in a fresh realm `addDice` and
`removeDice` with it do not return `0` but `NaN`, and they store that `NaN` as
the `count` property of the inherited object; `resetDice` returns `0` but
writes `count = 0` onto that object. -/
theorem C3_inherited_key_is_not_rejected :
    DiceType.ofKey "constructor" = none ∧
    (DiceManager.new.addDice Host.fresh "constructor" 1).value = .nan ∧
    (DiceManager.new.addDice Host.fresh "constructor" 1).host "constructor" = some .nan ∧
    (DiceManager.new.removeDice Host.fresh "constructor" 1).value = .nan ∧
    (DiceManager.new.removeDice Host.fresh "constructor" 1).host "constructor" = some .nan ∧
    (DiceManager.new.resetDice Host.fresh "constructor").value = .int 0 ∧
    (DiceManager.new.resetDice Host.fresh "constructor").host "constructor" = some (.int 0) := by
  decide

/-! ## The loop over the keys of the pool -/

theorem foldl_step_selected {step : LoopState → DiceType → LoopState}
    (hstep : LoopStepLocal step) (ks : List DiceType) (s : LoopState) :
    (ks.foldl step s).manager.selectedDice = s.manager.selectedDice := by
  induction ks generalizing s with
  | nil => rfl
  | cons k rest ih => rw [List.foldl_cons, ih, hstep.selected]

theorem foldl_step_not_mem {step : LoopState → DiceType → LoopState}
    (hstep : LoopStepLocal step) (ks : List DiceType) (s : LoopState) (t : DiceType)
    (ht : t ∉ ks) :
    (ks.foldl step s).results t = s.results t ∧
    (ks.foldl step s).manager.dicePool t = s.manager.dicePool t := by
  induction ks generalizing s with
  | nil => exact ⟨rfl, rfl⟩
  | cons k rest ih =>
    have hk : t ≠ k := fun h => ht (h ▸ List.mem_cons_self _ _)
    have hr : t ∉ rest := fun h => ht (List.mem_cons_of_mem _ h)
    rw [List.foldl_cons, (ih (step s k) hr).1, (ih (step s k) hr).2,
      hstep.results_other s k t hk, hstep.pool_other s k t hk]
    exact ⟨rfl, rfl⟩

/-- What the loop leaves at a key it visits is what the body produced there, in
a state that agreed with the initial one at that key and on the selection. -/
theorem foldl_step_mem {step : LoopState → DiceType → LoopState}
    (hstep : LoopStepLocal step) (ks : List DiceType) (hnd : ks.Nodup) (s : LoopState)
    (t : DiceType) (ht : t ∈ ks) :
    ∃ s0 : LoopState,
      s0.results t = s.results t ∧
      s0.manager.dicePool t = s.manager.dicePool t ∧
      s0.manager.selectedDice = s.manager.selectedDice ∧
      (ks.foldl step s).results t = (step s0 t).results t ∧
      (ks.foldl step s).manager.dicePool t = (step s0 t).manager.dicePool t := by
  induction ks generalizing s with
  | nil => cases ht
  | cons k rest ih =>
    have hk : k ∉ rest := (List.nodup_cons.mp hnd).1
    have hrest : rest.Nodup := (List.nodup_cons.mp hnd).2
    by_cases htk : t = k
    · subst htk
      have hf := foldl_step_not_mem hstep rest (step s t) t hk
      exact ⟨s, rfl, rfl, rfl, hf.1, hf.2⟩
    · have htr : t ∈ rest := by
        rcases List.mem_cons.mp ht with h | h
        · exact absurd h htk
        · exact h
      obtain ⟨s0, h1, h2, h3, h4, h5⟩ := ih hrest (step s k) htr
      refine ⟨s0, ?_, ?_, ?_, h4, h5⟩
      · rw [h1, hstep.results_other s k t htk]
      · rw [h2, hstep.pool_other s k t htk]
      · rw [h3, hstep.selected]

/-- The loop adds to `totalGrand` the totals it stores under the keys it
visits. -/
theorem foldl_step_totalGrand {step : LoopState → DiceType → LoopState}
    (hstep : LoopStepLocal step)
    (htot : ∀ s k, s.results k = none →
      (step s k).totalGrand = s.totalGrand + totalOf ((step s k).results k))
    (ks : List DiceType) (hnd : ks.Nodup) (s : LoopState)
    (hnone : ∀ k ∈ ks, s.results k = none) :
    (ks.foldl step s).totalGrand =
      s.totalGrand + (ks.map (fun k => totalOf ((ks.foldl step s).results k))).sum := by
  induction ks generalizing s with
  | nil => simp
  | cons k rest ih =>
    have hk : k ∉ rest := (List.nodup_cons.mp hnd).1
    have hrest : rest.Nodup := (List.nodup_cons.mp hnd).2
    have hnone1 : ∀ j ∈ rest, (step s k).results j = none := by
      intro j hj
      have hjk : j ≠ k := fun h => hk (h ▸ hj)
      rw [hstep.results_other s k j hjk]
      exact hnone j (List.mem_cons_of_mem _ hj)
    have h1 := ih hrest (step s k) hnone1
    have h2 := htot s k (hnone k (List.mem_cons_self _ _))
    have h3 := (foldl_step_not_mem hstep rest (step s k) k hk).1
    simp only [List.foldl_cons, List.map_cons, List.sum_cons]
    rw [h3]
    rw [h1, h2]
    ring

/-- A sum over `Object.keys(this.dicePool)` is the sum over all dice types. -/
theorem sum_diceTypes (f : DiceType → Int) : (diceTypes.map f).sum = ∑ t : DiceType, f t := by
  rfl

/-! ## `rollAllDice` -/

theorem rollAllDiceStep_local (random : Nat → ℚ) (now : Nat → Int) :
    LoopStepLocal (DiceManager.rollAllDiceStep random now) where
  results_other := by
    intro s k t htk
    unfold DiceManager.rollAllDiceStep
    by_cases hc : (s.manager.dicePool k).count > 0
    · simp [hc, Function.update_noteq htk]
    · simp [hc]
  pool_other := by
    intro s k t htk
    unfold DiceManager.rollAllDiceStep
    by_cases hc : (s.manager.dicePool k).count > 0
    · simp [hc, Function.update_noteq htk]
    · simp [hc]
  selected := by
    intro s k
    unfold DiceManager.rollAllDiceStep
    by_cases hc : (s.manager.dicePool k).count > 0
    · simp [hc]
    · simp [hc]

theorem rollAllDiceStep_totalGrand (random : Nat → ℚ) (now : Nat → Int) (s : LoopState)
    (k : DiceType) (hk : s.results k = none) :
    (DiceManager.rollAllDiceStep random now s k).totalGrand =
      s.totalGrand + totalOf ((DiceManager.rollAllDiceStep random now s k).results k) := by
  unfold DiceManager.rollAllDiceStep
  by_cases hc : (s.manager.dicePool k).count > 0
  · simp [hc, totalOf]
  · simp [hc, hk, totalOf]

theorem rollLoop_length (type : DiceType) (sides : Int) (random : Nat → ℚ) (now : Nat → Int)
    (r0 c0 n : Nat) : (DiceManager.rollLoop type sides random now r0 c0 n).1.length = n := by
  induction n with
  | zero => rfl
  | succ i ih => simp [DiceManager.rollLoop, ih]

theorem rollLoop_flags (type : DiceType) (sides : Int) (random : Nat → ℚ) (now : Nat → Int)
    (r0 c0 n : Nat) :
    ∀ die ∈ (DiceManager.rollLoop type sides random now r0 c0 n).1,
      die.selected = false ∧ die.removed = false := by
  induction n with
  | zero => simp [DiceManager.rollLoop]
  | succ i ih =>
    intro die hdie
    simp only [DiceManager.rollLoop, List.mem_append, List.mem_singleton] at hdie
    rcases hdie with h | h
    · exact ih die h
    · subst h
      exact ⟨rfl, rfl⟩

theorem rollLoop_total (type : DiceType) (sides : Int) (random : Nat → ℚ) (now : Nat → Int)
    (r0 c0 n : Nat) :
    (DiceManager.rollLoop type sides random now r0 c0 n).2 =
      ((DiceManager.rollLoop type sides random now r0 c0 n).1.map (fun die => die.value)).sum := by
  induction n with
  | zero => rfl
  | succ i ih => simp [DiceManager.rollLoop, ih]

theorem filter_live_of_flags (rolls : List Die) (h : ∀ die ∈ rolls, die.removed = false) :
    rolls.filter (fun die => !die.removed) = rolls := by
  rw [List.filter_eq_self]
  intro die hdie
  simp [h die hdie]

theorem rollAllDiceStep_pos (random : Nat → ℚ) (now : Nat → Int) (s : LoopState) (k : DiceType)
    (hc : (s.manager.dicePool k).count > 0) :
    DiceManager.rollAllDiceStep random now s k =
      { manager :=
          { s.manager with
            dicePool := Function.update s.manager.dicePool k
              { s.manager.dicePool k with
                results := (DiceManager.rollLoop k (DiceManager.getDiceSides k) random now
                  s.randomCalls s.nowCalls (s.manager.dicePool k).count.toNat).1 } }
        results := Function.update s.results k
          (some { rolls := (DiceManager.rollLoop k (DiceManager.getDiceSides k) random now
                    s.randomCalls s.nowCalls (s.manager.dicePool k).count.toNat).1
                  total := (DiceManager.rollLoop k (DiceManager.getDiceSides k) random now
                    s.randomCalls s.nowCalls (s.manager.dicePool k).count.toNat).2
                  count := (s.manager.dicePool k).count })
        totalGrand := s.totalGrand +
          (DiceManager.rollLoop k (DiceManager.getDiceSides k) random now
            s.randomCalls s.nowCalls (s.manager.dicePool k).count.toNat).2
        randomCalls := s.randomCalls + (s.manager.dicePool k).count.toNat
        nowCalls := s.nowCalls + (s.manager.dicePool k).count.toNat } := by
  unfold DiceManager.rollAllDiceStep
  simp [hc]

theorem rollAllDiceStep_nonpos (random : Nat → ℚ) (now : Nat → Int) (s : LoopState)
    (k : DiceType) (hc : ¬ (s.manager.dicePool k).count > 0) :
    DiceManager.rollAllDiceStep random now s k = s := by
  unfold DiceManager.rollAllDiceStep
  simp [hc]

/-- What `rollAllDice` leaves at a type: nothing new when its count is not
positive, and the freshly built array otherwise. -/
theorem rollAllDice_at (m : DiceManager) (random : Nat → ℚ) (now : Nat → Int) (t : DiceType) :
    ((m.rollAllDice random now).manager.dicePool t).count = (m.dicePool t).count ∧
    (¬ 0 < (m.dicePool t).count →
      (m.rollAllDice random now).snapshot.byType t = none ∧
      (m.rollAllDice random now).manager.dicePool t = m.dicePool t) ∧
    (0 < (m.dicePool t).count →
      ∃ r0 c0 : Nat,
        (m.rollAllDice random now).snapshot.byType t =
          some { rolls := (DiceManager.rollLoop t (DiceManager.getDiceSides t) random now r0 c0
                    (m.dicePool t).count.toNat).1
                 total := (DiceManager.rollLoop t (DiceManager.getDiceSides t) random now r0 c0
                    (m.dicePool t).count.toNat).2
                 count := (m.dicePool t).count } ∧
        ((m.rollAllDice random now).manager.dicePool t).results =
          (DiceManager.rollLoop t (DiceManager.getDiceSides t) random now r0 c0
            (m.dicePool t).count.toNat).1) := by
  obtain ⟨s0, h1, h2, -, h4, h5⟩ :=
    foldl_step_mem (rollAllDiceStep_local random now) diceTypes diceTypes_nodup
      (LoopState.init m) t (mem_diceTypes t)
  have h2 : s0.manager.dicePool t = m.dicePool t := h2
  have h1 : s0.results t = none := h1
  simp only [DiceManager.rollAllDice]
  rw [h4, h5]
  by_cases hc : 0 < (m.dicePool t).count
  · have hc0 : (s0.manager.dicePool t).count > 0 := by rw [h2]; exact hc
    rw [rollAllDiceStep_pos random now s0 t hc0]
    simp only [Function.update_same, h2]
    exact ⟨trivial, fun h => absurd hc h, fun _ => ⟨s0.randomCalls, s0.nowCalls, rfl, rfl⟩⟩
  · have hc0 : ¬ (s0.manager.dicePool t).count > 0 := by rw [h2]; exact hc
    rw [rollAllDiceStep_nonpos random now s0 t hc0, h2, h1]
    exact ⟨rfl, fun _ => ⟨rfl, rfl⟩, fun h => absurd h hc⟩

/-- C4: for every manager state in which type `t` has count `c > 0`,
`rollAllDice` returns a snapshot whose `byType[t].rolls` has exactly `c` dice
and whose `byType[t].count` is `c`; each of these dice has `selected = false`
and `removed = false`; and the manager's stored `results[t]` is that same
sequence, whatever `results[t]` held before. -/
theorem C4_rollAllDice_rolls_count_dice (m : DiceManager) (random : Nat → ℚ) (now : Nat → Int)
    (t : DiceType) (hc : 0 < (m.dicePool t).count) :
    ∃ r : TypeResult,
      (m.rollAllDice random now).snapshot.byType t = some r ∧
      (r.rolls.length : Int) = (m.dicePool t).count ∧
      r.count = (m.dicePool t).count ∧
      (∀ die ∈ r.rolls, die.selected = false ∧ die.removed = false) ∧
      ((m.rollAllDice random now).manager.dicePool t).results = r.rolls := by
  obtain ⟨r0, c0, hby, hres⟩ := (rollAllDice_at m random now t).2.2 hc
  refine ⟨_, hby, ?_, rfl, ?_, hres⟩
  · simp only [rollLoop_length]
    exact Int.toNat_of_nonneg hc.le
  · exact rollLoop_flags _ _ _ _ _ _ _

/-- C4 at a concrete input: two d6 loaded on a new manager. -/
theorem C4_rollAllDice_rolls_count_dice_witness :
    ∃ r : TypeResult,
      (((DiceManager.new.addDice Host.fresh "d6" 2).manager.rollAllDice
          (fun _ => 1 / 2) (fun _ => 1700000000000)).snapshot.byType .d6 = some r) ∧
      (r.rolls.length : Int) = ((DiceManager.new.addDice Host.fresh "d6" 2).manager.dicePool .d6).count ∧
      r.count = ((DiceManager.new.addDice Host.fresh "d6" 2).manager.dicePool .d6).count ∧
      (∀ die ∈ r.rolls, die.selected = false ∧ die.removed = false) ∧
      (((DiceManager.new.addDice Host.fresh "d6" 2).manager.rollAllDice
          (fun _ => 1 / 2) (fun _ => 1700000000000)).manager.dicePool .d6).results = r.rolls :=
  C4_rollAllDice_rolls_count_dice (DiceManager.new.addDice Host.fresh "d6" 2).manager
    (fun _ => 1 / 2) (fun _ => 1700000000000) .d6 (by decide)

/-! ## `results.forEach` -/

theorem forEachDie_forall₂ {σ : Type} (callback : σ → Die → σ × Die) (R : Die → Die → Prop)
    (hR : ∀ s die, R die (callback s die).2) (s : σ) (dice : List Die) :
    List.Forall₂ R dice (forEachDie callback s dice).2 := by
  induction dice generalizing s with
  | nil => exact List.Forall₂.nil
  | cons die rest ih => exact List.Forall₂.cons (hR s die) (ih _)

theorem forEachDie_length {σ : Type} (callback : σ → Die → σ × Die) (s : σ) (dice : List Die) :
    (forEachDie callback s dice).2.length = dice.length := by
  induction dice generalizing s with
  | nil => rfl
  | cons die rest ih => simp [forEachDie, ih]

theorem liveTotal_cons (die : Die) (rest : List Die) :
    liveTotal (die :: rest) = (if die.removed = false then die.value else 0) + liveTotal rest := by
  unfold liveTotal
  cases h : die.removed <;> simp [List.filter_cons, h]

theorem liveCount_cons (die : Die) (rest : List Die) :
    liveCount (die :: rest) = (if die.removed = false then 1 else 0) + liveCount rest := by
  unfold liveCount
  cases h : die.removed <;> simp [List.filter_cons, h, Nat.add_comm]

theorem rerollCallback_selected (selectedDice : Finset DieId) (sides : Int) (random : Nat → ℚ)
    (s : Int × Nat) (die : Die) (hr : die.removed = false) (hs : die.id ∈ selectedDice) :
    DiceManager.rerollCallback selectedDice sides random s die =
      ((s.1 + DiceManager.rollSingleDie sides (random s.2), s.2 + 1),
       { die with value := DiceManager.rollSingleDie sides (random s.2), selected := false }) := by
  simp [DiceManager.rerollCallback, hr, hs]

theorem rerollCallback_unselected (selectedDice : Finset DieId) (sides : Int)
    (random : Nat → ℚ) (s : Int × Nat) (die : Die) (hr : die.removed = false)
    (hs : die.id ∉ selectedDice) :
    DiceManager.rerollCallback selectedDice sides random s die = ((s.1 + die.value, s.2), die) := by
  simp [DiceManager.rerollCallback, hr, hs]

theorem rerollCallback_removed (selectedDice : Finset DieId) (sides : Int) (random : Nat → ℚ)
    (s : Int × Nat) (die : Die) (hr : die.removed = true) :
    DiceManager.rerollCallback selectedDice sides random s die = (s, die) := by
  simp [DiceManager.rerollCallback, hr]

theorem removeCallback_selected (selectedDice : Finset DieId) (a : Int) (die : Die)
    (hs : die.id ∈ selectedDice) :
    DiceManager.removeCallback selectedDice a die =
      (a, { die with removed := true, selected := false }) := by
  simp [DiceManager.removeCallback, hs]

theorem removeCallback_unselected_live (selectedDice : Finset DieId) (a : Int) (die : Die)
    (hs : die.id ∉ selectedDice) (hr : die.removed = false) :
    DiceManager.removeCallback selectedDice a die = (a + die.value, die) := by
  simp [DiceManager.removeCallback, hs, hr]

theorem removeCallback_unselected_removed (selectedDice : Finset DieId) (a : Int) (die : Die)
    (hs : die.id ∉ selectedDice) (hr : die.removed = true) :
    DiceManager.removeCallback selectedDice a die = (a, die) := by
  simp [DiceManager.removeCallback, hs, hr]

/-- The reroll callback adds to `totalForType` the value each live die has
after the callback ran on it. -/
theorem forEachDie_reroll_total (selectedDice : Finset DieId) (sides : Int) (random : Nat → ℚ)
    (a : Int) (c : Nat) (dice : List Die) :
    (forEachDie (DiceManager.rerollCallback selectedDice sides random) (a, c) dice).1.1 =
      a + liveTotal
        (forEachDie (DiceManager.rerollCallback selectedDice sides random) (a, c) dice).2 := by
  induction dice generalizing a c with
  | nil => simp [forEachDie, liveTotal]
  | cons die rest ih =>
    simp only [forEachDie, liveTotal_cons]
    cases hr : die.removed with
    | false =>
      by_cases hs : die.id ∈ selectedDice
      · rw [rerollCallback_selected _ _ _ _ _ hr hs]
        simp only [ih, hr, if_true]
        ring
      · rw [rerollCallback_unselected _ _ _ _ _ hr hs]
        simp only [ih, hr, if_true]
        ring
    | true =>
      rw [rerollCallback_removed _ _ _ _ _ hr]
      simp [ih, hr]

/-- The remove callback adds to `totalForType` the value of each die that is
live after the callback ran on it. -/
theorem forEachDie_remove_total (selectedDice : Finset DieId) (a : Int) (dice : List Die) :
    (forEachDie (DiceManager.removeCallback selectedDice) a dice).1 =
      a + liveTotal (forEachDie (DiceManager.removeCallback selectedDice) a dice).2 := by
  induction dice generalizing a with
  | nil => simp [forEachDie, liveTotal]
  | cons die rest ih =>
    simp only [forEachDie, liveTotal_cons]
    by_cases hs : die.id ∈ selectedDice
    · rw [removeCallback_selected _ _ _ hs]
      simp [ih]
    · cases hr : die.removed with
      | false =>
        rw [removeCallback_unselected_live _ _ _ hs hr]
        simp only [ih, hr, if_true]
        ring
      | true =>
        rw [removeCallback_unselected_removed _ _ _ hs hr]
        simp [ih, hr]

/-! ## `rerollSelectedDice` and `removeSelectedDice` -/

theorem rerollSelectedDiceStep_local (random : Nat → ℚ) :
    LoopStepLocal (DiceManager.rerollSelectedDiceStep random) where
  results_other := by
    intro s k t htk
    unfold DiceManager.rerollSelectedDiceStep
    by_cases hc : (s.manager.dicePool k).results.length > 0
    · simp [hc, Function.update_noteq htk]
    · simp [hc]
  pool_other := by
    intro s k t htk
    unfold DiceManager.rerollSelectedDiceStep
    by_cases hc : (s.manager.dicePool k).results.length > 0
    · simp [hc, Function.update_noteq htk]
    · simp [hc]
  selected := by
    intro s k
    unfold DiceManager.rerollSelectedDiceStep
    by_cases hc : (s.manager.dicePool k).results.length > 0
    · simp [hc]
    · simp [hc]

theorem removeSelectedDiceStep_local : LoopStepLocal DiceManager.removeSelectedDiceStep where
  results_other := by
    intro s k t htk
    unfold DiceManager.removeSelectedDiceStep
    by_cases hc : (s.manager.dicePool k).results.length > 0
    · simp [hc, Function.update_noteq htk]
    · simp [hc]
  pool_other := by
    intro s k t htk
    unfold DiceManager.removeSelectedDiceStep
    by_cases hc : (s.manager.dicePool k).results.length > 0
    · simp [hc, Function.update_noteq htk]
    · simp [hc]
  selected := by
    intro s k
    unfold DiceManager.removeSelectedDiceStep
    by_cases hc : (s.manager.dicePool k).results.length > 0
    · simp [hc]
    · simp [hc]

theorem rerollSelectedDiceStep_totalGrand (random : Nat → ℚ) (s : LoopState) (k : DiceType)
    (hk : s.results k = none) :
    (DiceManager.rerollSelectedDiceStep random s k).totalGrand =
      s.totalGrand + totalOf ((DiceManager.rerollSelectedDiceStep random s k).results k) := by
  unfold DiceManager.rerollSelectedDiceStep
  by_cases hc : (s.manager.dicePool k).results.length > 0
  · simp [hc, totalOf]
  · simp [hc, hk, totalOf]

theorem removeSelectedDiceStep_totalGrand (s : LoopState) (k : DiceType)
    (hk : s.results k = none) :
    (DiceManager.removeSelectedDiceStep s k).totalGrand =
      s.totalGrand + totalOf ((DiceManager.removeSelectedDiceStep s k).results k) := by
  unfold DiceManager.removeSelectedDiceStep
  by_cases hc : (s.manager.dicePool k).results.length > 0
  · simp [hc, totalOf]
  · simp [hc, hk, totalOf]

theorem rerollSelectedDiceStep_nonempty (random : Nat → ℚ) (s : LoopState) (k : DiceType)
    (hc : (s.manager.dicePool k).results.length > 0) :
    DiceManager.rerollSelectedDiceStep random s k =
      { manager :=
          { s.manager with
            dicePool := Function.update s.manager.dicePool k
              { s.manager.dicePool k with
                results := (forEachDie
                  (DiceManager.rerollCallback s.manager.selectedDice (DiceManager.getDiceSides k)
                    random)
                  (0, s.randomCalls) (s.manager.dicePool k).results).2 } }
        results := Function.update s.results k
          (some { rolls := (forEachDie
                    (DiceManager.rerollCallback s.manager.selectedDice (DiceManager.getDiceSides k)
                      random)
                    (0, s.randomCalls) (s.manager.dicePool k).results).2
                  total := (forEachDie
                    (DiceManager.rerollCallback s.manager.selectedDice (DiceManager.getDiceSides k)
                      random)
                    (0, s.randomCalls) (s.manager.dicePool k).results).1.1
                  count := (liveCount (forEachDie
                    (DiceManager.rerollCallback s.manager.selectedDice (DiceManager.getDiceSides k)
                      random)
                    (0, s.randomCalls) (s.manager.dicePool k).results).2 : Nat) })
        totalGrand := s.totalGrand + (forEachDie
          (DiceManager.rerollCallback s.manager.selectedDice (DiceManager.getDiceSides k) random)
          (0, s.randomCalls) (s.manager.dicePool k).results).1.1
        randomCalls := (forEachDie
          (DiceManager.rerollCallback s.manager.selectedDice (DiceManager.getDiceSides k) random)
          (0, s.randomCalls) (s.manager.dicePool k).results).1.2
        nowCalls := s.nowCalls } := by
  unfold DiceManager.rerollSelectedDiceStep
  simp [hc, liveCount]

theorem rerollSelectedDiceStep_empty (random : Nat → ℚ) (s : LoopState) (k : DiceType)
    (hc : ¬ (s.manager.dicePool k).results.length > 0) :
    DiceManager.rerollSelectedDiceStep random s k = s := by
  unfold DiceManager.rerollSelectedDiceStep
  simp [hc]

theorem removeSelectedDiceStep_nonempty (s : LoopState) (k : DiceType)
    (hc : (s.manager.dicePool k).results.length > 0) :
    DiceManager.removeSelectedDiceStep s k =
      { manager :=
          { s.manager with
            dicePool := Function.update s.manager.dicePool k
              { s.manager.dicePool k with
                results := (forEachDie (DiceManager.removeCallback s.manager.selectedDice) 0
                  (s.manager.dicePool k).results).2 } }
        results := Function.update s.results k
          (some { rolls := (forEachDie (DiceManager.removeCallback s.manager.selectedDice) 0
                    (s.manager.dicePool k).results).2
                  total := (forEachDie (DiceManager.removeCallback s.manager.selectedDice) 0
                    (s.manager.dicePool k).results).1
                  count := (liveCount (forEachDie
                    (DiceManager.removeCallback s.manager.selectedDice) 0
                    (s.manager.dicePool k).results).2 : Nat) })
        totalGrand := s.totalGrand +
          (forEachDie (DiceManager.removeCallback s.manager.selectedDice) 0
            (s.manager.dicePool k).results).1
        randomCalls := s.randomCalls
        nowCalls := s.nowCalls } := by
  unfold DiceManager.removeSelectedDiceStep
  simp [hc, liveCount]

theorem removeSelectedDiceStep_empty (s : LoopState) (k : DiceType)
    (hc : ¬ (s.manager.dicePool k).results.length > 0) :
    DiceManager.removeSelectedDiceStep s k = s := by
  unfold DiceManager.removeSelectedDiceStep
  simp [hc]

/-- What `rerollSelectedDice` leaves at a type: the array after the callback
ran over it, and a `byType` key exactly when the array is not empty. -/
theorem rerollSelectedDice_at (m : DiceManager) (random : Nat → ℚ) (now : Nat → Int)
    (t : DiceType) :
    ∃ c0 : Nat,
      (m.rerollSelectedDice random now).manager.dicePool t =
        { m.dicePool t with
          results := (forEachDie
            (DiceManager.rerollCallback m.selectedDice (DiceManager.getDiceSides t) random)
            (0, c0) (m.dicePool t).results).2 } ∧
      (m.rerollSelectedDice random now).snapshot.byType t =
        if (m.dicePool t).results.length > 0 then
          some { rolls := (forEachDie
                   (DiceManager.rerollCallback m.selectedDice (DiceManager.getDiceSides t) random)
                   (0, c0) (m.dicePool t).results).2
                 total := (forEachDie
                   (DiceManager.rerollCallback m.selectedDice (DiceManager.getDiceSides t) random)
                   (0, c0) (m.dicePool t).results).1.1
                 count := (liveCount (forEachDie
                   (DiceManager.rerollCallback m.selectedDice (DiceManager.getDiceSides t) random)
                   (0, c0) (m.dicePool t).results).2 : Nat) }
        else none := by
  obtain ⟨s0, h1, h2, h3, h4, h5⟩ :=
    foldl_step_mem (rerollSelectedDiceStep_local random) diceTypes diceTypes_nodup
      (LoopState.init m) t (mem_diceTypes t)
  have h1 : s0.results t = none := h1
  have h2 : s0.manager.dicePool t = m.dicePool t := h2
  have h3 : s0.manager.selectedDice = m.selectedDice := h3
  refine ⟨s0.randomCalls, ?_⟩
  simp only [DiceManager.rerollSelectedDice]
  rw [h4, h5]
  by_cases hc : (m.dicePool t).results.length > 0
  · have hc0 : (s0.manager.dicePool t).results.length > 0 := by rw [h2]; exact hc
    rw [rerollSelectedDiceStep_nonempty random s0 t hc0, if_pos hc]
    simp only [Function.update_same, h2, h3]
    exact ⟨trivial, trivial⟩
  · have hc0 : ¬ (s0.manager.dicePool t).results.length > 0 := by rw [h2]; exact hc
    have hnil : (m.dicePool t).results = [] := List.length_eq_zero.mp (by omega)
    rw [rerollSelectedDiceStep_empty random s0 t hc0, if_neg hc, h1, h2, hnil]
    refine ⟨?_, rfl⟩
    simp only [forEachDie]
    rw [← hnil]

/-- What `removeSelectedDice` leaves at a type: the array after the callback
ran over it, and a `byType` key exactly when the array is not empty. -/
theorem removeSelectedDice_at (m : DiceManager) (now : Nat → Int) (t : DiceType) :
    (m.removeSelectedDice now).manager.dicePool t =
      { m.dicePool t with
        results := (forEachDie (DiceManager.removeCallback m.selectedDice) 0
          (m.dicePool t).results).2 } ∧
    (m.removeSelectedDice now).snapshot.byType t =
      if (m.dicePool t).results.length > 0 then
        some { rolls := (forEachDie (DiceManager.removeCallback m.selectedDice) 0
                 (m.dicePool t).results).2
               total := (forEachDie (DiceManager.removeCallback m.selectedDice) 0
                 (m.dicePool t).results).1
               count := (liveCount (forEachDie (DiceManager.removeCallback m.selectedDice) 0
                 (m.dicePool t).results).2 : Nat) }
      else none := by
  obtain ⟨s0, h1, h2, h3, h4, h5⟩ :=
    foldl_step_mem removeSelectedDiceStep_local diceTypes diceTypes_nodup
      (LoopState.init m) t (mem_diceTypes t)
  have h1 : s0.results t = none := h1
  have h2 : s0.manager.dicePool t = m.dicePool t := h2
  have h3 : s0.manager.selectedDice = m.selectedDice := h3
  simp only [DiceManager.removeSelectedDice]
  rw [h4, h5]
  by_cases hc : (m.dicePool t).results.length > 0
  · have hc0 : (s0.manager.dicePool t).results.length > 0 := by rw [h2]; exact hc
    rw [removeSelectedDiceStep_nonempty s0 t hc0, if_pos hc]
    simp only [Function.update_same, h2, h3]
    exact ⟨trivial, trivial⟩
  · have hc0 : ¬ (s0.manager.dicePool t).results.length > 0 := by rw [h2]; exact hc
    have hnil : (m.dicePool t).results = [] := List.length_eq_zero.mp (by omega)
    rw [removeSelectedDiceStep_empty s0 t hc0, if_neg hc, h1, h2, hnil]
    refine ⟨?_, rfl⟩
    simp only [forEachDie]
    rw [← hnil]

/-! ## Snapshots -/

/-- C6: in every snapshot returned by `rollAllDice`, `rerollSelectedDice` or
`removeSelectedDice`, for every type `t` that is a key of `byType`,
`byType[t].total` is the sum of `value` over the dice of `byType[t].rolls`
with `removed = false` (as they are after the operation), and
`byType[t].count` is the number of those dice. -/
theorem C6_snapshot_total_and_count (m : DiceManager) (random : Nat → ℚ) (now : Nat → Int)
    (t : DiceType) (r : TypeResult) :
    ((m.rollAllDice random now).snapshot.byType t = some r →
      r.total = liveTotal r.rolls ∧ r.count = (liveCount r.rolls : Nat)) ∧
    ((m.rerollSelectedDice random now).snapshot.byType t = some r →
      r.total = liveTotal r.rolls ∧ r.count = (liveCount r.rolls : Nat)) ∧
    ((m.removeSelectedDice now).snapshot.byType t = some r →
      r.total = liveTotal r.rolls ∧ r.count = (liveCount r.rolls : Nat)) := by
  refine ⟨?_, ?_, ?_⟩
  · intro hr
    by_cases hc : 0 < (m.dicePool t).count
    · obtain ⟨r0, c0, hby, -⟩ := (rollAllDice_at m random now t).2.2 hc
      rw [hby] at hr
      cases hr
      have hlive := filter_live_of_flags
        (DiceManager.rollLoop t (DiceManager.getDiceSides t) random now r0 c0
          (m.dicePool t).count.toNat).1
        (fun die hdie => (rollLoop_flags _ _ _ _ _ _ _ die hdie).2)
      refine ⟨?_, ?_⟩
      · simp only [liveTotal, hlive]
        exact rollLoop_total _ _ _ _ _ _ _
      · simp only [liveCount, hlive, rollLoop_length]
        exact (Int.toNat_of_nonneg hc.le).symm
    · rw [((rollAllDice_at m random now t).2.1 hc).1] at hr
      cases hr
  · intro hr
    obtain ⟨c0, -, hby⟩ := rerollSelectedDice_at m random now t
    rw [hby] at hr
    by_cases hc : (m.dicePool t).results.length > 0
    · rw [if_pos hc] at hr
      cases hr
      refine ⟨?_, rfl⟩
      simpa using forEachDie_reroll_total m.selectedDice (DiceManager.getDiceSides t) random 0 c0
        (m.dicePool t).results
    · rw [if_neg hc] at hr
      cases hr
  · intro hr
    rw [(removeSelectedDice_at m now t).2] at hr
    by_cases hc : (m.dicePool t).results.length > 0
    · rw [if_pos hc] at hr
      cases hr
      refine ⟨?_, rfl⟩
      simpa using forEachDie_remove_total m.selectedDice 0 (m.dicePool t).results
    · rw [if_neg hc] at hr
      cases hr

theorem rollAllDice_snapshot_byType (m : DiceManager) (random : Nat → ℚ) (now : Nat → Int) :
    (m.rollAllDice random now).snapshot.byType =
      (diceTypes.foldl (DiceManager.rollAllDiceStep random now) (LoopState.init m)).results := by
  simp only [DiceManager.rollAllDice]

theorem rollAllDice_snapshot_grandTotal (m : DiceManager) (random : Nat → ℚ) (now : Nat → Int) :
    (m.rollAllDice random now).snapshot.grandTotal =
      (diceTypes.foldl (DiceManager.rollAllDiceStep random now) (LoopState.init m)).totalGrand := by
  simp only [DiceManager.rollAllDice]

theorem rollAllDice_grandTotal (m : DiceManager) (random : Nat → ℚ) (now : Nat → Int) :
    (m.rollAllDice random now).snapshot.grandTotal =
      ∑ t : DiceType, totalOf ((m.rollAllDice random now).snapshot.byType t) := by
  have h := foldl_step_totalGrand (rollAllDiceStep_local random now)
    (rollAllDiceStep_totalGrand random now) diceTypes diceTypes_nodup (LoopState.init m)
    (fun _ _ => rfl)
  have h0 : (LoopState.init m).totalGrand = 0 := rfl
  rw [h0, zero_add] at h
  rw [rollAllDice_snapshot_byType, rollAllDice_snapshot_grandTotal, ← sum_diceTypes]
  exact h

theorem rerollSelectedDice_snapshot_byType (m : DiceManager) (random : Nat → ℚ) (now : Nat → Int) :
    (m.rerollSelectedDice random now).snapshot.byType =
      (diceTypes.foldl (DiceManager.rerollSelectedDiceStep random) (LoopState.init m)).results := by
  simp only [DiceManager.rerollSelectedDice]

theorem rerollSelectedDice_snapshot_grandTotal (m : DiceManager) (random : Nat → ℚ) (now : Nat → Int) :
    (m.rerollSelectedDice random now).snapshot.grandTotal =
      (diceTypes.foldl (DiceManager.rerollSelectedDiceStep random) (LoopState.init m)).totalGrand := by
  simp only [DiceManager.rerollSelectedDice]

theorem rerollSelectedDice_grandTotal (m : DiceManager) (random : Nat → ℚ) (now : Nat → Int) :
    (m.rerollSelectedDice random now).snapshot.grandTotal =
      ∑ t : DiceType, totalOf ((m.rerollSelectedDice random now).snapshot.byType t) := by
  have h := foldl_step_totalGrand (rerollSelectedDiceStep_local random)
    (rerollSelectedDiceStep_totalGrand random) diceTypes diceTypes_nodup (LoopState.init m)
    (fun _ _ => rfl)
  have h0 : (LoopState.init m).totalGrand = 0 := rfl
  rw [h0, zero_add] at h
  rw [rerollSelectedDice_snapshot_byType, rerollSelectedDice_snapshot_grandTotal, ← sum_diceTypes]
  exact h

theorem removeSelectedDice_snapshot_byType (m : DiceManager) (now : Nat → Int) :
    (m.removeSelectedDice now).snapshot.byType =
      (diceTypes.foldl (DiceManager.removeSelectedDiceStep) (LoopState.init m)).results := by
  simp only [DiceManager.removeSelectedDice]

theorem removeSelectedDice_snapshot_grandTotal (m : DiceManager) (now : Nat → Int) :
    (m.removeSelectedDice now).snapshot.grandTotal =
      (diceTypes.foldl (DiceManager.removeSelectedDiceStep) (LoopState.init m)).totalGrand := by
  simp only [DiceManager.removeSelectedDice]

theorem removeSelectedDice_grandTotal (m : DiceManager) (now : Nat → Int) :
    (m.removeSelectedDice now).snapshot.grandTotal =
      ∑ t : DiceType, totalOf ((m.removeSelectedDice now).snapshot.byType t) := by
  have h := foldl_step_totalGrand (removeSelectedDiceStep_local)
    (removeSelectedDiceStep_totalGrand) diceTypes diceTypes_nodup (LoopState.init m)
    (fun _ _ => rfl)
  have h0 : (LoopState.init m).totalGrand = 0 := rfl
  rw [h0, zero_add] at h
  rw [removeSelectedDice_snapshot_byType, removeSelectedDice_snapshot_grandTotal, ← sum_diceTypes]
  exact h

/-- C7: in every snapshot returned by `rollAllDice`, `rerollSelectedDice` or
`removeSelectedDice`, `grandTotal` is the sum of `byType[t].total` over the
types `t` that are keys of `byType` (an absent key contributes `0`), and it is
`0` when `byType` has no key. -/
theorem C7_grandTotal_is_sum_of_totals (m : DiceManager) (random : Nat → ℚ) (now : Nat → Int) :
    ((m.rollAllDice random now).snapshot.grandTotal =
        ∑ t : DiceType, totalOf ((m.rollAllDice random now).snapshot.byType t) ∧
      ((∀ t, (m.rollAllDice random now).snapshot.byType t = none) →
        (m.rollAllDice random now).snapshot.grandTotal = 0)) ∧
    ((m.rerollSelectedDice random now).snapshot.grandTotal =
        ∑ t : DiceType, totalOf ((m.rerollSelectedDice random now).snapshot.byType t) ∧
      ((∀ t, (m.rerollSelectedDice random now).snapshot.byType t = none) →
        (m.rerollSelectedDice random now).snapshot.grandTotal = 0)) ∧
    ((m.removeSelectedDice now).snapshot.grandTotal =
        ∑ t : DiceType, totalOf ((m.removeSelectedDice now).snapshot.byType t) ∧
      ((∀ t, (m.removeSelectedDice now).snapshot.byType t = none) →
        (m.removeSelectedDice now).snapshot.grandTotal = 0)) := by
  refine ⟨⟨rollAllDice_grandTotal m random now, ?_⟩,
    ⟨rerollSelectedDice_grandTotal m random now, ?_⟩,
    ⟨removeSelectedDice_grandTotal m now, ?_⟩⟩
  · intro hnone
    rw [rollAllDice_grandTotal]
    exact Finset.sum_eq_zero (fun t _ => by rw [hnone t]; rfl)
  · intro hnone
    rw [rerollSelectedDice_grandTotal]
    exact Finset.sum_eq_zero (fun t _ => by rw [hnone t]; rfl)
  · intro hnone
    rw [removeSelectedDice_grandTotal]
    exact Finset.sum_eq_zero (fun t _ => by rw [hnone t]; rfl)

/-! ## What reroll and removal do to each die -/

/-- C8: `rerollSelectedDice` relates the dice of each type before and after
position by position (so their number and order are unchanged): a die with
`removed = false` whose id is in the selection keeps its id and
`removed = false`, gets `selected = false` and a value
`rollSingleDie(sides)` drawn during the call; a die whose id is not in the
selection is unchanged in all four fields. -/
theorem C8_rerollSelectedDice_per_die (m : DiceManager) (random : Nat → ℚ) (now : Nat → Int)
    (t : DiceType) :
    List.Forall₂
      (fun before after =>
        (before.removed = false ∧ before.id ∈ m.selectedDice →
          after.id = before.id ∧ after.removed = false ∧ after.selected = false ∧
          ∃ k, after.value = DiceManager.rollSingleDie (DiceManager.getDiceSides t) (random k)) ∧
        (before.id ∉ m.selectedDice → after = before))
      (m.dicePool t).results
      ((m.rerollSelectedDice random now).manager.dicePool t).results := by
  obtain ⟨c0, hpool, -⟩ := rerollSelectedDice_at m random now t
  rw [hpool]
  apply forEachDie_forall₂
  intro s die
  constructor
  · rintro ⟨hr, hs⟩
    rw [rerollCallback_selected _ _ _ _ _ hr hs]
    exact ⟨rfl, hr, rfl, s.2, rfl⟩
  · intro hs
    cases hr : die.removed with
    | false => rw [rerollCallback_unselected _ _ _ _ _ hr hs]
    | true => rw [rerollCallback_removed _ _ _ _ _ hr]

/-- The per-die effect of `removeSelectedDice`, position by position. -/
theorem removeSelectedDice_per_die (m : DiceManager) (now : Nat → Int) (t : DiceType) :
    List.Forall₂
      (fun before after =>
        after.id = before.id ∧ after.value = before.value ∧
        (before.id ∈ m.selectedDice → after.removed = true ∧ after.selected = false) ∧
        (before.id ∉ m.selectedDice →
          after.removed = before.removed ∧ after.selected = before.selected))
      (m.dicePool t).results
      ((m.removeSelectedDice now).manager.dicePool t).results := by
  rw [(removeSelectedDice_at m now t).1]
  apply forEachDie_forall₂
  intro s die
  by_cases hs : die.id ∈ m.selectedDice
  · rw [removeCallback_selected _ _ _ hs]
    exact ⟨rfl, rfl, fun _ => ⟨rfl, rfl⟩, fun h => absurd hs h⟩
  · cases hr : die.removed with
    | false =>
      rw [removeCallback_unselected_live _ _ _ hs hr]
      exact ⟨rfl, rfl, fun h => absurd h hs, fun _ => ⟨hr, rfl⟩⟩
    | true =>
      rw [removeCallback_unselected_removed _ _ _ hs hr]
      exact ⟨rfl, rfl, fun h => absurd h hs, fun _ => ⟨hr, rfl⟩⟩

/-- C10: after `rerollSelectedDice` and after `removeSelectedDice` the
selection set is empty and `getSelectedDiceCount()` is `0`, for every prior
state and every prior content of the selection. -/
theorem C10_selection_cleared (m : DiceManager) (random : Nat → ℚ) (now : Nat → Int) :
    (m.rerollSelectedDice random now).manager.selectedDice = ∅ ∧
    (m.rerollSelectedDice random now).manager.getSelectedDiceCount = 0 ∧
    (m.removeSelectedDice now).manager.selectedDice = ∅ ∧
    (m.removeSelectedDice now).manager.getSelectedDiceCount = 0 := by
  simp only [DiceManager.rerollSelectedDice, DiceManager.removeSelectedDice,
    DiceManager.getSelectedDiceCount, Finset.card_empty, and_self]

/-! ## Loops that update every pool entry independently -/

theorem foldl_update_apply (g : DiceType → PoolEntry → PoolEntry) (ks : List DiceType)
    (hnd : ks.Nodup) (pool : DiceType → PoolEntry) (t : DiceType) :
    (ks.foldl (fun pool k => Function.update pool k (g k (pool k))) pool) t =
      if t ∈ ks then g t (pool t) else pool t := by
  induction ks generalizing pool with
  | nil => simp
  | cons k rest ih =>
    have hk : k ∉ rest := (List.nodup_cons.mp hnd).1
    rw [List.foldl_cons, ih (List.nodup_cons.mp hnd).2]
    by_cases htk : t = k
    · subst htk
      simp [hk]
    · by_cases htr : t ∈ rest
      · simp [htk, htr, Function.update_noteq htk]
      · simp [htk, htr, Function.update_noteq htk]

/-- The pool entry of a type after `toggleDiceSelection`: the count is kept and
every die with the given id gets `selected` set to the new membership. -/
theorem toggleDiceSelection_pool (m : DiceManager) (diceId : DieId) (t : DiceType) :
    (m.toggleDiceSelection diceId).dicePool t =
      { m.dicePool t with
        results := (m.dicePool t).results.map (fun die =>
          if die.id = diceId then
            { die with selected := decide (diceId ∈ (m.toggleDiceSelection diceId).selectedDice) }
          else die) } := by
  have h := foldl_update_apply
    (fun _ e => { e with
      results := e.results.map (fun die =>
        if die.id = diceId then
          { die with selected := decide (diceId ∈ (m.toggleDiceSelection diceId).selectedDice) }
        else die) })
    diceTypes diceTypes_nodup m.dicePool t
  rw [if_pos (mem_diceTypes t)] at h
  exact h

theorem resetAllDice_pool (m : DiceManager) (t : DiceType) :
    m.resetAllDice.dicePool t = { count := 0, results := [] } := by
  have h := foldl_update_apply (fun _ _ => { count := 0, results := [] })
    diceTypes diceTypes_nodup m.dicePool t
  rw [if_pos (mem_diceTypes t)] at h
  exact h

/-! ## Scenario: roll one d6, select it, remove it -/

theorem rollOneD6_pool (random : Nat → ℚ) (now : Nat → Int) :
    ((DiceManager.new.addDice Host.fresh "d6" 1).manager.rollAllDice random now).manager.dicePool
        .d6 =
      { count := 1
        results := [{ value := DiceManager.rollSingleDie 6 (random 0)
                      id := { type := .d6, index := 0, time := now 0 }
                      selected := false
                      removed := false }] } := by
  have hone : roundToDouble 1 = 1 := by decide
  simp [DiceManager.rollAllDice, diceTypes, DiceManager.rollAllDiceStep, LoopState.init,
    DiceManager.new, DiceManager.addDice, lookupPool, DiceType.ofKey, DiceManager.rollLoop,
    DiceManager.getDiceSides, Function.update, hone]

theorem rollOneD6_selectedDice (random : Nat → ℚ) (now : Nat → Int) :
    ((DiceManager.new.addDice Host.fresh "d6" 1).manager.rollAllDice random
      now).manager.selectedDice = ∅ := by
  have hone : roundToDouble 1 = 1 := by decide
  simp [DiceManager.rollAllDice, diceTypes, DiceManager.rollAllDiceStep, LoopState.init,
    DiceManager.new, DiceManager.addDice, lookupPool, DiceType.ofKey, DiceManager.rollLoop,
    DiceManager.getDiceSides, Function.update, hone]

theorem toggleDiceSelection_selectedDice (m : DiceManager) (diceId : DieId) :
    (m.toggleDiceSelection diceId).selectedDice =
      if diceId ∈ m.selectedDice then m.selectedDice.erase diceId
      else insert diceId m.selectedDice := by
  simp only [DiceManager.toggleDiceSelection]

/-- C9: `removeSelectedDice` relates the dice of each type before and after
position by position: no die changes its id or value; a die whose id is in the
selection ends with `removed = true` and `selected = false`; a die whose id is
not in the selection keeps its `removed` and `selected` flags.  In particular,
on a new manager, after loading and rolling one d6, selecting that die and
calling `removeSelectedDice`, the snapshot has `byType.d6.count = 0` and
`byType.d6.total = 0` (and the die has `removed = true`). -/
theorem C9_removeSelectedDice_per_die (m : DiceManager) (now : Nat → Int) (t : DiceType)
    (random : Nat → ℚ) (nowRoll : Nat → Int) :
    List.Forall₂
      (fun before after =>
        after.id = before.id ∧ after.value = before.value ∧
        (before.id ∈ m.selectedDice → after.removed = true ∧ after.selected = false) ∧
        (before.id ∉ m.selectedDice →
          after.removed = before.removed ∧ after.selected = before.selected))
      (m.dicePool t).results
      ((m.removeSelectedDice now).manager.dicePool t).results ∧
    (((DiceManager.new.addDice Host.fresh "d6" 1).manager.rollAllDice random
        nowRoll).manager.dicePool .d6).results =
      [{ value := DiceManager.rollSingleDie 6 (random 0)
         id := { type := .d6, index := 0, time := nowRoll 0 }
         selected := false
         removed := false }] ∧
    ((((DiceManager.new.addDice Host.fresh "d6" 1).manager.rollAllDice random
        nowRoll).manager.toggleDiceSelection
          { type := .d6, index := 0, time := nowRoll 0 }).removeSelectedDice now).snapshot.byType
        .d6 =
      some { rolls := [{ value := DiceManager.rollSingleDie 6 (random 0)
                         id := { type := .d6, index := 0, time := nowRoll 0 }
                         selected := false
                         removed := true }]
             total := 0
             count := 0 } := by
  refine ⟨removeSelectedDice_per_die m now t, ?_, ?_⟩
  · rw [rollOneD6_pool]
  · rw [(removeSelectedDice_at _ now .d6).2, toggleDiceSelection_pool,
      toggleDiceSelection_selectedDice, rollOneD6_pool, rollOneD6_selectedDice]
    simp [forEachDie, DiceManager.removeCallback, liveCount]

/-! ## Die values stay within the sides of their type -/

theorem getDiceSides_pos (t : DiceType) : 0 < DiceManager.getDiceSides t := by
  cases t <;> decide

theorem getDiceSides_two_le (t : DiceType) : 2 ≤ DiceManager.getDiceSides t := by
  cases t <;> decide

theorem getDiceSides_le (t : DiceType) : DiceManager.getDiceSides t ≤ 2 ^ 52 := by
  cases t <;> decide

theorem toDouble_one_half : toDouble (1 / 2) = 1 / 2 := by
  have h := toDouble_mul_zpow 1 (-1) (by decide) (by decide)
  norm_num at h
  exact h

theorem rollSingleDie_range (sides : Int) (hs : 2 ≤ sides) (hs2 : sides ≤ 2 ^ 52) (r : ℚ)
    (h0 : 0 ≤ r) (h1 : r < 1) (hd : toDouble r = r) :
    1 ≤ DiceManager.rollSingleDie sides r ∧ DiceManager.rollSingleDie sides r ≤ sides := by
  unfold DiceManager.rollSingleDie
  have hsq : (0 : ℚ) ≤ (sides : ℚ) := by
    have : (0 : Int) ≤ sides := by omega
    exact_mod_cast this
  have hlow : 0 ≤ ⌊toDouble (r * (sides : ℚ))⌋ :=
    Int.floor_nonneg.mpr (toDouble_nonneg _ (mul_nonneg h0 hsq))
  have hhigh : ⌊toDouble (r * (sides : ℚ))⌋ < sides := by
    rw [Int.floor_lt]
    exact toDouble_mul_lt r sides h0 (double_lt_one r hd h1) hs hs2
  omega

/-- The draw `0.8333333333333333` (the binary64 value
`3752999689475413 / 2^52`) on a d6: the exact product with `6` lies below `5`,
the binary64 product is `5`, and the die shows `6`. -/
theorem rollSingleDie_rounds_product :
    (3752999689475413 / 4503599627370496 : ℚ) * ((6 : Int) : ℚ) < 5 ∧
    toDouble (3752999689475413 / 4503599627370496 * ((6 : Int) : ℚ)) = 5 ∧
    DiceManager.rollSingleDie 6 (3752999689475413 / 4503599627370496) = 6 := by
  have he : ulpExponent (3752999689475413 / 4503599627370496 * ((6 : Int) : ℚ)) = 2 - 52 :=
    ulpExponent_of_bounds _ 2 (by decide) (by rw [abs_of_pos] <;> norm_num)
      (by rw [abs_of_pos] <;> norm_num)
  have hr : roundHalfEven (3752999689475413 / 4503599627370496 * ((6 : Int) : ℚ) /
      (2 : ℚ) ^ (2 - 52 : ℤ)) = 5629499534213120 := by
    rw [roundHalfEven_of_floor _ 5629499534213119 (by norm_num) (by norm_num)]
    norm_num
  have hd : toDouble (3752999689475413 / 4503599627370496 * ((6 : Int) : ℚ)) = 5 := by
    unfold toDouble
    rw [he, hr]
    norm_num
  refine ⟨by norm_num, hd, ?_⟩
  unfold DiceManager.rollSingleDie
  rw [hd]
  norm_num

theorem rollLoop_range (type : DiceType) (sides : Int) (hs : 2 ≤ sides) (hs2 : sides ≤ 2 ^ 52)
    (random : Nat → ℚ)
    (hrandom : ∀ k, 0 ≤ random k ∧ random k < 1 ∧ toDouble (random k) = random k)
    (now : Nat → Int) (r0 c0 n : Nat) :
    ∀ die ∈ (DiceManager.rollLoop type sides random now r0 c0 n).1,
      1 ≤ die.value ∧ die.value ≤ sides := by
  induction n with
  | zero => simp [DiceManager.rollLoop]
  | succ i ih =>
    intro die hdie
    simp only [DiceManager.rollLoop, List.mem_append, List.mem_singleton] at hdie
    rcases hdie with h | h
    · exact ih die h
    · subst h
      exact rollSingleDie_range sides hs hs2 _ (hrandom _).1 (hrandom _).2.1 (hrandom _).2.2

theorem forall₂_transfer {R : Die → Die → Prop} {P : Die → Prop} {l1 l2 : List Die}
    (h : List.Forall₂ R l1 l2) (hstep : ∀ a b, R a b → P a → P b) (hP : ∀ a ∈ l1, P a) :
    ∀ b ∈ l2, P b := by
  induction h with
  | nil => simp
  | cons hab _ ih =>
    intro b hb
    rcases List.mem_cons.mp hb with hb | hb
    · subst hb
      exact hstep _ _ hab (hP _ (List.mem_cons_self _ _))
    · exact ih (fun a ha => hP a (List.mem_cons_of_mem _ ha)) b hb

/-- Every die that `rerollSelectedDice` leaves at a type has its old value or a
value drawn during the call. -/
theorem rerollSelectedDice_values (m : DiceManager) (random : Nat → ℚ) (now : Nat → Int)
    (t : DiceType) :
    List.Forall₂
      (fun before after =>
        after.value = before.value ∨
        ∃ k, after.value = DiceManager.rollSingleDie (DiceManager.getDiceSides t) (random k))
      (m.dicePool t).results
      ((m.rerollSelectedDice random now).manager.dicePool t).results := by
  obtain ⟨c0, hpool, -⟩ := rerollSelectedDice_at m random now t
  rw [hpool]
  apply forEachDie_forall₂
  intro s die
  cases hr : die.removed with
  | false =>
    by_cases hs : die.id ∈ m.selectedDice
    · rw [rerollCallback_selected _ _ _ _ _ hr hs]
      exact Or.inr ⟨s.2, rfl⟩
    · rw [rerollCallback_unselected _ _ _ _ _ hr hs]
      exact Or.inl rfl
  | true =>
    rw [rerollCallback_removed _ _ _ _ _ hr]
    exact Or.inl rfl

theorem valuesInRange_new : ValuesInRange DiceManager.new := by
  intro t die hdie
  simp [DiceManager.new] at hdie

theorem valuesInRange_of_results {m m1 : DiceManager}
    (h : ∀ t, (m1.dicePool t).results = (m.dicePool t).results ∨ (m1.dicePool t).results = [])
    (hm : ValuesInRange m) : ValuesInRange m1 := by
  intro t die hdie
  rcases h t with h | h
  · rw [h] at hdie
    exact hm t die hdie
  · rw [h] at hdie
    cases hdie

theorem addDice_results (m : DiceManager) (h : Host) (type : String) (n : Int) (t : DiceType) :
    ((m.addDice h type n).manager.dicePool t).results = (m.dicePool t).results := by
  unfold DiceManager.addDice
  cases lookupPool type with
  | entry u =>
    by_cases htu : t = u
    · subst htu; simp
    · simp [Function.update_noteq htu]
  | inherited => rfl
  | undefined => rfl

theorem removeDice_results (m : DiceManager) (h : Host) (type : String) (n : Int)
    (t : DiceType) :
    ((m.removeDice h type n).manager.dicePool t).results = (m.dicePool t).results := by
  unfold DiceManager.removeDice
  cases lookupPool type with
  | entry u =>
    by_cases htu : t = u
    · subst htu; simp
    · simp [Function.update_noteq htu]
  | inherited => rfl
  | undefined => rfl

theorem resetDice_results (m : DiceManager) (h : Host) (type : String) (t : DiceType) :
    ((m.resetDice h type).manager.dicePool t).results = (m.dicePool t).results ∨
    ((m.resetDice h type).manager.dicePool t).results = [] := by
  unfold DiceManager.resetDice
  cases lookupPool type with
  | entry u =>
    by_cases htu : t = u
    · subst htu; simp
    · simp [Function.update_noteq htu]
  | inherited => exact Or.inl rfl
  | undefined => exact Or.inl rfl

theorem valuesInRange_rollAllDice (m : DiceManager) (random : Nat → ℚ)
    (hrandom : ∀ k, 0 ≤ random k ∧ random k < 1 ∧ toDouble (random k) = random k)
    (now : Nat → Int) (hm : ValuesInRange m) :
    ValuesInRange (m.rollAllDice random now).manager := by
  intro t die hdie
  by_cases hc : 0 < (m.dicePool t).count
  · obtain ⟨r0, c0, -, hres⟩ := (rollAllDice_at m random now t).2.2 hc
    rw [hres] at hdie
    exact rollLoop_range t _ (getDiceSides_two_le t) (getDiceSides_le t) random hrandom now r0 c0 _ die hdie
  · rw [((rollAllDice_at m random now t).2.1 hc).2] at hdie
    exact hm t die hdie

theorem valuesInRange_rerollSelectedDice (m : DiceManager) (random : Nat → ℚ)
    (hrandom : ∀ k, 0 ≤ random k ∧ random k < 1 ∧ toDouble (random k) = random k)
    (now : Nat → Int) (hm : ValuesInRange m) :
    ValuesInRange (m.rerollSelectedDice random now).manager := by
  intro t
  refine forall₂_transfer (rerollSelectedDice_values m random now t) ?_ (hm t)
  intro a b hab ha
  rcases hab with h | ⟨k, h⟩
  · rw [h]; exact ha
  · rw [h]
    exact rollSingleDie_range _ (getDiceSides_two_le t) (getDiceSides_le t) _ (hrandom k).1
      (hrandom k).2.1 (hrandom k).2.2

theorem valuesInRange_removeSelectedDice (m : DiceManager) (now : Nat → Int)
    (hm : ValuesInRange m) : ValuesInRange (m.removeSelectedDice now).manager := by
  intro t
  refine forall₂_transfer (removeSelectedDice_per_die m now t) ?_ (hm t)
  intro a b hab ha
  rw [hab.2.1]; exact ha

theorem valuesInRange_toggleDiceSelection (m : DiceManager) (diceId : DieId)
    (hm : ValuesInRange m) : ValuesInRange (m.toggleDiceSelection diceId) := by
  intro t die hdie
  rw [toggleDiceSelection_pool] at hdie
  simp only [List.mem_map] at hdie
  obtain ⟨d0, hd0, hmap⟩ := hdie
  have hv : die.value = d0.value := by
    rw [← hmap]
    by_cases hid : d0.id = diceId
    · simp [hid]
    · simp [hid]
  rw [hv]
  exact hm t d0 hd0

theorem valuesInRange_apply (op : Op) (hop : op.RandomInRange) (s : DiceManager × Host)
    (hs : ValuesInRange s.1) : ValuesInRange (op.apply s).1 := by
  cases op with
  | addDice type count =>
    exact valuesInRange_of_results (fun t => Or.inl (addDice_results s.1 s.2 type count t)) hs
  | removeDice type count =>
    exact valuesInRange_of_results (fun t => Or.inl (removeDice_results s.1 s.2 type count t)) hs
  | resetDice type =>
    exact valuesInRange_of_results (fun t => resetDice_results s.1 s.2 type t) hs
  | resetAllDice =>
    exact valuesInRange_of_results
      (fun t => Or.inr (by rw [show (Op.resetAllDice.apply s).1 = s.1.resetAllDice from rfl,
        resetAllDice_pool])) hs
  | rollAllDice random now => exact valuesInRange_rollAllDice s.1 random hop now hs
  | rerollSelectedDice random now => exact valuesInRange_rerollSelectedDice s.1 random hop now hs
  | toggleDiceSelection diceId => exact valuesInRange_toggleDiceSelection s.1 diceId hs
  | removeSelectedDice now => exact valuesInRange_removeSelectedDice s.1 now hs

theorem valuesInRange_runOps (ops : List Op) (hops : ∀ op ∈ ops, op.RandomInRange)
    (s : DiceManager × Host) (hs : ValuesInRange s.1) : ValuesInRange (runOps ops s).1 := by
  induction ops generalizing s with
  | nil => exact hs
  | cons op rest ih =>
    exact ih (fun o ho => hops o (List.mem_cons_of_mem _ ho)) (op.apply s)
      (valuesInRange_apply op (hops op (List.mem_cons_self _ _)) s hs)

/-- C5: the side counts of d2, d4, d6, d8, d10, d12, d20, d100 are 2, 4, 6, 8,
10, 12, 20, 100; when every value returned by `Math.random()` is a binary64
value in `[0, 1)`, every die that `rollAllDice` creates for a type `t` and every value that
`rerollSelectedDice` draws for a die of type `t` is an integer between `1` and
`sides(t)`; hence in every state reached from a new manager by a sequence of
calls, every die in `results[t]` has its value in `[1, sides(t)]`. -/
theorem C5_die_values_in_range (ops : List Op) (hops : ∀ op ∈ ops, op.RandomInRange)
    (h0 : Host) (m : DiceManager) (random : Nat → ℚ)
    (hrandom : ∀ k, 0 ≤ random k ∧ random k < 1 ∧ toDouble (random k) = random k)
    (now : Nat → Int) (t : DiceType) :
    (DiceManager.getDiceSides .d2 = 2 ∧ DiceManager.getDiceSides .d4 = 4 ∧
      DiceManager.getDiceSides .d6 = 6 ∧ DiceManager.getDiceSides .d8 = 8 ∧
      DiceManager.getDiceSides .d10 = 10 ∧ DiceManager.getDiceSides .d12 = 12 ∧
      DiceManager.getDiceSides .d20 = 20 ∧ DiceManager.getDiceSides .d100 = 100) ∧
    (∀ k, 1 ≤ DiceManager.rollSingleDie (DiceManager.getDiceSides t) (random k) ∧
      DiceManager.rollSingleDie (DiceManager.getDiceSides t) (random k) ≤
        DiceManager.getDiceSides t) ∧
    (0 < (m.dicePool t).count →
      ∀ die ∈ ((m.rollAllDice random now).manager.dicePool t).results,
        1 ≤ die.value ∧ die.value ≤ DiceManager.getDiceSides t) ∧
    List.Forall₂
      (fun before after =>
        before.removed = false ∧ before.id ∈ m.selectedDice →
          1 ≤ after.value ∧ after.value ≤ DiceManager.getDiceSides t)
      (m.dicePool t).results
      ((m.rerollSelectedDice random now).manager.dicePool t).results ∧
    (∀ die ∈ ((runOps ops (DiceManager.new, h0)).1.dicePool t).results,
      1 ≤ die.value ∧ die.value ≤ DiceManager.getDiceSides t) := by
  refine ⟨by decide, ?_, ?_, ?_, ?_⟩
  · intro k
    exact rollSingleDie_range _ (getDiceSides_two_le t) (getDiceSides_le t) _ (hrandom k).1
      (hrandom k).2.1 (hrandom k).2.2
  · intro hc die hdie
    obtain ⟨r0, c0, -, hres⟩ := (rollAllDice_at m random now t).2.2 hc
    rw [hres] at hdie
    exact rollLoop_range t _ (getDiceSides_two_le t) (getDiceSides_le t) random hrandom now r0 c0 _ die hdie
  · obtain ⟨c0, hpool, -⟩ := rerollSelectedDice_at m random now t
    rw [hpool]
    apply forEachDie_forall₂
    rintro s die ⟨hr, hs⟩
    rw [rerollCallback_selected _ _ _ _ _ hr hs]
    exact rollSingleDie_range _ (getDiceSides_two_le t) (getDiceSides_le t) _ (hrandom _).1
      (hrandom _).2.1 (hrandom _).2.2
  · exact valuesInRange_runOps ops hops (DiceManager.new, h0) valuesInRange_new t

/-- C5 at a concrete input: two d6 are loaded and rolled with every draw equal
to one half; the reached state holds two dice of type d6. -/
theorem C5_die_values_in_range_witness :
    (((runOps [Op.addDice "d6" 2, Op.rollAllDice (fun _ => 1 / 2) (fun _ => 1700000000000)]
        (DiceManager.new, Host.fresh)).1.dicePool .d6).results.length = 2) ∧
    (∀ die ∈ ((runOps [Op.addDice "d6" 2, Op.rollAllDice (fun _ => 1 / 2) (fun _ => 1700000000000)]
        (DiceManager.new, Host.fresh)).1.dicePool .d6).results,
      1 ≤ die.value ∧ die.value ≤ DiceManager.getDiceSides .d6) :=
  ⟨by decide,
   (C5_die_values_in_range
      [Op.addDice "d6" 2, Op.rollAllDice (fun _ => 1 / 2) (fun _ => 1700000000000)]
      (by
        intro op hop
        simp only [List.mem_cons, List.mem_singleton, List.not_mem_nil, or_false] at hop
        rcases hop with rfl | rfl
        · trivial
        · intro k
          exact ⟨by norm_num, by norm_num, toDouble_one_half⟩)
      Host.fresh exampleSelected (fun _ => 1 / 2)
      (fun _ => ⟨by norm_num, by norm_num, toDouble_one_half⟩)
      (fun _ => 1700000000000) .d6).2.2.2.2⟩

/-- C6 at concrete inputs: one d6 rolled with draw one half, then selected, then
rerolled or removed; the three snapshots have the key d6. -/
theorem C6_snapshot_total_and_count_witness :
    (∃ r, ((DiceManager.new.addDice Host.fresh "d6" 1).manager.rollAllDice (fun _ => 1 / 2)
        (fun _ => 1700000000000)).snapshot.byType .d6 = some r ∧
      r.total = liveTotal r.rolls ∧ r.count = (liveCount r.rolls : Nat)) ∧
    (∃ r, (exampleSelected.rerollSelectedDice (fun _ => 1 / 3)
        (fun _ => 1700000000001)).snapshot.byType .d6 = some r ∧
      r.total = liveTotal r.rolls ∧ r.count = (liveCount r.rolls : Nat)) ∧
    (∃ r, (exampleSelected.removeSelectedDice (fun _ => 1700000000001)).snapshot.byType .d6 =
        some r ∧
      r.total = liveTotal r.rolls ∧ r.count = (liveCount r.rolls : Nat)) :=
  ⟨⟨{ rolls := [{ value := DiceManager.rollSingleDie 6 (1 / 2)
                  id := { type := .d6, index := 0, time := 1700000000000 }
                  selected := false
                  removed := false }]
      total := 0 + DiceManager.rollSingleDie 6 (1 / 2)
      count := 1 },
    by rfl,
    (C6_snapshot_total_and_count (DiceManager.new.addDice Host.fresh "d6" 1).manager
      (fun _ => 1 / 2) (fun _ => 1700000000000) .d6 _).1 (by rfl)⟩,
   ⟨{ rolls := [{ value := DiceManager.rollSingleDie 6 (1 / 3)
                  id := { type := .d6, index := 0, time := 1700000000000 }
                  selected := false
                  removed := false }]
      total := 0 + DiceManager.rollSingleDie 6 (1 / 3)
      count := 1 },
    by rfl,
    (C6_snapshot_total_and_count exampleSelected (fun _ => 1 / 3) (fun _ => 1700000000001)
      .d6 _).2.1 (by rfl)⟩,
   ⟨{ rolls := [{ value := DiceManager.rollSingleDie 6 (1 / 2)
                  id := { type := .d6, index := 0, time := 1700000000000 }
                  selected := false
                  removed := true }]
      total := 0
      count := 0 },
    by rfl,
    (C6_snapshot_total_and_count exampleSelected (fun _ => 1 / 3) (fun _ => 1700000000001)
      .d6 _).2.2 (by rfl)⟩⟩

/-! ## `toggleDiceSelection` -/

theorem toggleDiceSelection_mem (m : DiceManager) (diceId other : DieId) :
    other ∈ (m.toggleDiceSelection diceId).selectedDice ↔
      if other = diceId then diceId ∉ m.selectedDice else other ∈ m.selectedDice := by
  rw [toggleDiceSelection_selectedDice]
  by_cases hmem : diceId ∈ m.selectedDice
  · by_cases ho : other = diceId
    · subst ho
      simp [hmem]
    · simp [hmem, ho]
  · by_cases ho : other = diceId
    · subst ho
      simp [hmem]
    · simp [hmem, ho]

theorem toggleDiceSelection_per_die (m : DiceManager) (diceId : DieId) (t : DiceType) :
    List.Forall₂
      (fun before after =>
        (before.id = diceId →
          after = { before with
            selected := decide (diceId ∈ (m.toggleDiceSelection diceId).selectedDice) }) ∧
        (before.id ≠ diceId → after = before))
      (m.dicePool t).results
      ((m.toggleDiceSelection diceId).dicePool t).results := by
  rw [toggleDiceSelection_pool]
  simp only [List.forall₂_map_right_iff]
  apply List.forall₂_same.mpr
  intro die _
  by_cases hid : die.id = diceId
  · simp [hid]
  · simp [hid]

theorem map_eq_self_of_forall {α : Type} (f : α → α) (l : List α) (h : ∀ a ∈ l, f a = a) :
    l.map f = l := by
  induction l with
  | nil => rfl
  | cons a rest ih =>
    rw [List.map_cons, h a (List.mem_cons_self _ _),
      ih (fun b hb => h b (List.mem_cons_of_mem _ hb))]

/-- C11: for every state and every id, `toggleDiceSelection(id)` flips the
membership of `id` in the selection and leaves the membership of every other
id unchanged; afterwards, position by position, every die whose id equals `id`
has `selected` equal to the new membership (its other fields unchanged) and
every die with a different id is unchanged; and if no die of the pool has that
id, every pool entry is exactly as before. -/
theorem C11_toggleDiceSelection_flips (m : DiceManager) (diceId : DieId) :
    (diceId ∈ (m.toggleDiceSelection diceId).selectedDice ↔ diceId ∉ m.selectedDice) ∧
    (∀ other, other ≠ diceId →
      (other ∈ (m.toggleDiceSelection diceId).selectedDice ↔ other ∈ m.selectedDice)) ∧
    (∀ t, List.Forall₂
      (fun before after =>
        (before.id = diceId →
          after = { before with
            selected := decide (diceId ∈ (m.toggleDiceSelection diceId).selectedDice) }) ∧
        (before.id ≠ diceId → after = before))
      (m.dicePool t).results
      ((m.toggleDiceSelection diceId).dicePool t).results) ∧
    ((∀ t, ∀ die ∈ (m.dicePool t).results, die.id ≠ diceId) →
      ∀ t, (m.toggleDiceSelection diceId).dicePool t = m.dicePool t) := by
  refine ⟨?_, ?_, toggleDiceSelection_per_die m diceId, ?_⟩
  · rw [toggleDiceSelection_mem, if_pos rfl]
  · intro other ho
    rw [toggleDiceSelection_mem, if_neg ho]
  · intro hno t
    rw [toggleDiceSelection_pool]
    have hmap := map_eq_self_of_forall
      (fun die : Die =>
        if die.id = diceId then
          { die with selected := decide (diceId ∈ (m.toggleDiceSelection diceId).selectedDice) }
        else die)
      (m.dicePool t).results
      (fun die hdie => if_neg (hno t die hdie))
    rw [hmap]

/-- C12 (counterexample): in the state `exampleRemoved` the only d6 has
`removed = true` and `selected = false` and the selection is empty; toggling
that die's id puts the id into the selection and sets the die's `selected`
flag.  So it is false that toggling the id of a removed die always leaves the
selection and the die unchanged. -/
theorem C12_toggle_removed_not_ignored :
    (exampleRemoved.dicePool .d6).results =
      [{ value := DiceManager.rollSingleDie 6 (1 / 2)
         id := { type := .d6, index := 0, time := 1700000000000 }
         selected := false
         removed := true }] ∧
    exampleRemoved.selectedDice = ∅ ∧
    (exampleRemoved.toggleDiceSelection
      { type := .d6, index := 0, time := 1700000000000 }).selectedDice =
      {{ type := .d6, index := 0, time := 1700000000000 }} ∧
    ((exampleRemoved.toggleDiceSelection
      { type := .d6, index := 0, time := 1700000000000 }).dicePool .d6).results =
      [{ value := DiceManager.rollSingleDie 6 (1 / 2)
         id := { type := .d6, index := 0, time := 1700000000000 }
         selected := true
         removed := true }] ∧
    ¬ (∀ (m : DiceManager) (t : DiceType) (die : Die),
        die ∈ (m.dicePool t).results → die.removed = true →
        (m.toggleDiceSelection die.id).selectedDice = m.selectedDice ∧
        ((m.toggleDiceSelection die.id).dicePool t).results = (m.dicePool t).results) := by
  have hres : (exampleRemoved.dicePool .d6).results =
      [{ value := DiceManager.rollSingleDie 6 (1 / 2)
         id := { type := .d6, index := 0, time := 1700000000000 }
         selected := false
         removed := true }] := by rfl
  have hempty : exampleRemoved.selectedDice = ∅ := by rfl
  have hsel : (exampleRemoved.toggleDiceSelection
      { type := .d6, index := 0, time := 1700000000000 }).selectedDice =
      {{ type := .d6, index := 0, time := 1700000000000 }} := by rfl
  refine ⟨hres, hempty, hsel, by rfl, ?_⟩
  intro h
  have h1 := (h exampleRemoved .d6
    { value := DiceManager.rollSingleDie 6 (1 / 2)
      id := { type := .d6, index := 0, time := 1700000000000 }
      selected := false
      removed := true }
    (by rw [hres]; exact List.mem_singleton.mpr rfl) rfl).1
  rw [hsel, hempty] at h1
  exact Finset.singleton_ne_empty _ h1

/-- C12 (amended): `toggleDiceSelection` does not look at `removed`.  For every
state and every id it flips the id's membership in the selection, and every
die with `removed = true` that has this id gets `selected` equal to the new
membership, its id, value and `removed = true` being unchanged. -/
theorem C12_toggle_removed_die (m : DiceManager) (diceId : DieId) (t : DiceType) :
    (diceId ∈ (m.toggleDiceSelection diceId).selectedDice ↔ diceId ∉ m.selectedDice) ∧
    List.Forall₂
      (fun before after =>
        before.removed = true ∧ before.id = diceId →
          after = { before with selected := decide (diceId ∉ m.selectedDice) } ∧
          after.removed = true)
      (m.dicePool t).results
      ((m.toggleDiceSelection diceId).dicePool t).results := by
  have hmem : diceId ∈ (m.toggleDiceSelection diceId).selectedDice ↔ diceId ∉ m.selectedDice := by
    rw [toggleDiceSelection_mem, if_pos rfl]
  refine ⟨hmem, ?_⟩
  refine List.Forall₂.imp ?_ (toggleDiceSelection_per_die m diceId t)
  rintro before after ⟨hsame, -⟩ ⟨hr, hid⟩
  have h := hsame hid
  have hdec : decide (diceId ∈ (m.toggleDiceSelection diceId).selectedDice) =
      decide (diceId ∉ m.selectedDice) := by
    simp only [hmem]
  rw [hdec] at h
  refine ⟨h, ?_⟩
  rw [h]
  exact hr

/-! ## Removed dice -/

theorem rerollSelectedDice_removed (m : DiceManager) (random : Nat → ℚ) (now : Nat → Int)
    (t : DiceType) :
    List.Forall₂ (fun before after => before.removed = true → after = before)
      (m.dicePool t).results
      ((m.rerollSelectedDice random now).manager.dicePool t).results := by
  obtain ⟨c0, hpool, -⟩ := rerollSelectedDice_at m random now t
  rw [hpool]
  apply forEachDie_forall₂
  intro s die hr
  rw [rerollCallback_removed _ _ _ _ _ hr]

/-- C13: for every state, every die with `removed = true` is left exactly as it
was by `rerollSelectedDice` (so it keeps its value), whether or not its id is
in the selection; and the `total` returned for its type is the sum over the
dice of `rolls` with `removed = false`, where `rolls` are the stored dice, so
the value of a removed die is not counted. -/
theorem C13_reroll_ignores_removed (m : DiceManager) (random : Nat → ℚ) (now : Nat → Int)
    (t : DiceType) :
    List.Forall₂ (fun before after => before.removed = true → after = before)
      (m.dicePool t).results
      ((m.rerollSelectedDice random now).manager.dicePool t).results ∧
    (∀ r, (m.rerollSelectedDice random now).snapshot.byType t = some r →
      r.rolls = ((m.rerollSelectedDice random now).manager.dicePool t).results ∧
      r.total =
        ((r.rolls.filter (fun die => !die.removed)).map (fun die => die.value)).sum) := by
  refine ⟨rerollSelectedDice_removed m random now t, ?_⟩
  intro r hr
  obtain ⟨c0, hpool, hby⟩ := rerollSelectedDice_at m random now t
  rw [hby] at hr
  by_cases hc : (m.dicePool t).results.length > 0
  · rw [if_pos hc] at hr
    cases hr
    rw [hpool]
    refine ⟨rfl, ?_⟩
    simpa [liveTotal] using
      forEachDie_reroll_total m.selectedDice (DiceManager.getDiceSides t) random 0 c0
        (m.dicePool t).results
  · rw [if_neg hc] at hr
    cases hr

theorem resetDice_pool_key (m : DiceManager) (h : Host) (t : DiceType) :
    (m.resetDice h t.key).manager.dicePool t = { count := 0, results := [] } := by
  simp [DiceManager.resetDice, lookupPool_key]

/-- C14: for every state, position by position, a die with `removed = true`
still has `removed = true` (and the same id) after `toggleDiceSelection` with
any id, after `rerollSelectedDice` and after `removeSelectedDice`; `addDice`
and `removeDice` leave every `results` array as it is.  The other three
operations discard dice: `resetAllDice` empties every `results`, `resetDice(t)`
empties `results[t]`, and `rollAllDice` replaces `results[t]` of a type with
positive count by dice that all have `removed = false`. -/
theorem C14_removed_is_terminal (m : DiceManager) (h : Host) (diceId : DieId)
    (random : Nat → ℚ) (now : Nat → Int) (type : String) (n : Int) (t : DiceType) :
    List.Forall₂ (fun before after => before.removed = true →
        after.removed = true ∧ after.id = before.id)
      (m.dicePool t).results ((m.toggleDiceSelection diceId).dicePool t).results ∧
    List.Forall₂ (fun before after => before.removed = true →
        after.removed = true ∧ after.id = before.id)
      (m.dicePool t).results ((m.rerollSelectedDice random now).manager.dicePool t).results ∧
    List.Forall₂ (fun before after => before.removed = true →
        after.removed = true ∧ after.id = before.id)
      (m.dicePool t).results ((m.removeSelectedDice now).manager.dicePool t).results ∧
    ((m.addDice h type n).manager.dicePool t).results = (m.dicePool t).results ∧
    ((m.removeDice h type n).manager.dicePool t).results = (m.dicePool t).results ∧
    (m.resetAllDice.dicePool t).results = [] ∧
    ((m.resetDice h t.key).manager.dicePool t).results = [] ∧
    (0 < (m.dicePool t).count →
      ∀ die ∈ ((m.rollAllDice random now).manager.dicePool t).results, die.removed = false) := by
  refine ⟨?_, ?_, ?_, addDice_results m h type n t, removeDice_results m h type n t, ?_, ?_, ?_⟩
  · refine List.Forall₂.imp ?_ (toggleDiceSelection_per_die m diceId t)
    rintro before after ⟨hsame, hother⟩ hr
    by_cases hid : before.id = diceId
    · rw [hsame hid]
      exact ⟨hr, rfl⟩
    · rw [hother hid]
      exact ⟨hr, rfl⟩
  · refine List.Forall₂.imp ?_ (rerollSelectedDice_removed m random now t)
    intro before after hsame hr
    rw [hsame hr]
    exact ⟨hr, rfl⟩
  · refine List.Forall₂.imp ?_ (removeSelectedDice_per_die m now t)
    rintro before after ⟨hid, -, hin, hout⟩ hr
    by_cases hs : before.id ∈ m.selectedDice
    · exact ⟨(hin hs).1, hid⟩
    · exact ⟨(hout hs).1.trans hr, hid⟩
  · rw [resetAllDice_pool]
  · rw [resetDice_pool_key]
  · intro hc die hdie
    obtain ⟨r0, c0, -, hres⟩ := (rollAllDice_at m random now t).2.2 hc
    rw [hres] at hdie
    exact (rollLoop_flags _ _ _ _ _ _ _ die hdie).2

/-! ## Ids of the stored dice -/

theorem idKeys_rollLoop (type : DiceType) (sides : Int) (random : Nat → ℚ) (now : Nat → Int)
    (r0 c0 n : Nat) :
    idKeys (DiceManager.rollLoop type sides random now r0 c0 n).1 =
      (List.range n).map (fun i => (type, i)) := by
  induction n with
  | zero => rfl
  | succ i ih =>
    unfold idKeys at ih ⊢
    simp only [DiceManager.rollLoop, List.map_append, List.map_cons, List.map_nil,
      List.range_succ, ih]

theorem forall₂_ids {l1 l2 : List Die}
    (h : List.Forall₂ (fun before after => after.id = before.id) l1 l2) :
    idKeys l2 = idKeys l1 ∧ l2.length = l1.length := by
  induction h with
  | nil => exact ⟨rfl, rfl⟩
  | cons hab _ ih =>
    unfold idKeys at ih ⊢
    simp only [List.map_cons, List.length_cons, hab, ih.1, ih.2, and_self]

theorem idsNumbered_of_forall₂ {m m1 : DiceManager}
    (h : ∀ t, List.Forall₂ (fun before after => after.id = before.id)
      (m.dicePool t).results (m1.dicePool t).results)
    (hm : IdsNumbered m) : IdsNumbered m1 := by
  intro t
  rw [(forall₂_ids (h t)).1, (forall₂_ids (h t)).2]
  exact hm t

theorem idsNumbered_of_results {m m1 : DiceManager}
    (h : ∀ t, (m1.dicePool t).results = (m.dicePool t).results ∨ (m1.dicePool t).results = [])
    (hm : IdsNumbered m) : IdsNumbered m1 := by
  intro t
  rcases h t with h | h
  · rw [h]
    exact hm t
  · rw [h]
    rfl

theorem rerollSelectedDice_ids (m : DiceManager) (random : Nat → ℚ) (now : Nat → Int)
    (t : DiceType) :
    List.Forall₂ (fun before after => after.id = before.id)
      (m.dicePool t).results
      ((m.rerollSelectedDice random now).manager.dicePool t).results := by
  obtain ⟨c0, hpool, -⟩ := rerollSelectedDice_at m random now t
  rw [hpool]
  apply forEachDie_forall₂
  intro s die
  cases hr : die.removed with
  | false =>
    by_cases hs : die.id ∈ m.selectedDice
    · rw [rerollCallback_selected _ _ _ _ _ hr hs]
    · rw [rerollCallback_unselected _ _ _ _ _ hr hs]
  | true => rw [rerollCallback_removed _ _ _ _ _ hr]

theorem idsNumbered_new : IdsNumbered DiceManager.new := by
  intro t
  rfl

theorem idsNumbered_rollAllDice (m : DiceManager) (random : Nat → ℚ) (now : Nat → Int)
    (hm : IdsNumbered m) : IdsNumbered (m.rollAllDice random now).manager := by
  intro t
  by_cases hc : 0 < (m.dicePool t).count
  · obtain ⟨r0, c0, -, hres⟩ := (rollAllDice_at m random now t).2.2 hc
    rw [hres, rollLoop_length]
    exact idKeys_rollLoop _ _ _ _ _ _ _
  · rw [((rollAllDice_at m random now t).2.1 hc).2]
    exact hm t

theorem idsNumbered_apply (op : Op) (s : DiceManager × Host) (hs : IdsNumbered s.1) :
    IdsNumbered (op.apply s).1 := by
  cases op with
  | addDice type count =>
    exact idsNumbered_of_results (fun t => Or.inl (addDice_results s.1 s.2 type count t)) hs
  | removeDice type count =>
    exact idsNumbered_of_results (fun t => Or.inl (removeDice_results s.1 s.2 type count t)) hs
  | resetDice type =>
    exact idsNumbered_of_results (fun t => resetDice_results s.1 s.2 type t) hs
  | resetAllDice =>
    exact idsNumbered_of_results
      (fun t => Or.inr (by rw [show (Op.resetAllDice.apply s).1 = s.1.resetAllDice from rfl,
        resetAllDice_pool])) hs
  | rollAllDice random now => exact idsNumbered_rollAllDice s.1 random now hs
  | rerollSelectedDice random now =>
    exact idsNumbered_of_forall₂ (fun t => rerollSelectedDice_ids s.1 random now t) hs
  | toggleDiceSelection diceId =>
    refine idsNumbered_of_forall₂ (fun t => ?_) hs
    refine List.Forall₂.imp ?_ (toggleDiceSelection_per_die s.1 diceId t)
    rintro before after ⟨hsame, hother⟩
    by_cases hid : before.id = diceId
    · rw [hsame hid]
    · rw [hother hid]
  | removeSelectedDice now =>
    refine idsNumbered_of_forall₂ (fun t => ?_) hs
    exact List.Forall₂.imp (fun _ _ h => h.1) (removeSelectedDice_per_die s.1 now t)

theorem idsNumbered_runOps (ops : List Op) (s : DiceManager × Host) (hs : IdsNumbered s.1) :
    IdsNumbered (runOps ops s).1 := by
  induction ops generalizing s with
  | nil => exact hs
  | cons op rest ih => exact ih (op.apply s) (idsNumbered_apply op s hs)

theorem nodup_ids_of_idsNumbered (m : DiceManager) (hm : IdsNumbered m) :
    ((allDice m).map (fun die => die.id)).Nodup := by
  apply List.Nodup.of_map (fun id : DieId => (id.type, id.index))
  rw [List.map_map]
  have hkeys : List.map ((fun id : DieId => (id.type, id.index)) ∘ fun die : Die => die.id)
      (allDice m) =
      diceTypes.flatMap
        (fun t => (List.range (m.dicePool t).results.length).map (fun i => (t, i))) := by
    unfold allDice
    rw [List.map_flatMap]
    congr 1
    funext t
    exact hm t
  rw [hkeys, List.nodup_flatMap]
  constructor
  · intro t _
    exact (List.nodup_range _).map (fun a b hab => (Prod.mk.inj hab).2)
  · refine List.Pairwise.imp ?_ diceTypes_nodup
    intro t u htu
    show List.Disjoint _ _
    intro x hx hu
    simp only [List.mem_map, List.mem_range] at hx hu
    obtain ⟨i, -, hi⟩ := hx
    obtain ⟨j, -, hj⟩ := hu
    rw [← hi] at hj
    exact htu (Prod.mk.inj hj).1.symm

/-- C15: in every state reached from a new manager by any sequence of calls,
the ids of all dice stored in the pool (over all eight types) are pairwise
distinct, so every id, in particular one in the selection, is the id of at
most one stored die. -/
theorem C15_ids_pairwise_distinct (ops : List Op) (h0 : Host) :
    ((allDice (runOps ops (DiceManager.new, h0)).1).map (fun die => die.id)).Nodup ∧
    ∀ diceId : DieId,
      ((allDice (runOps ops (DiceManager.new, h0)).1).filter
        (fun die => decide (die.id = diceId))).length ≤ 1 := by
  have hnd := nodup_ids_of_idsNumbered _
    (idsNumbered_runOps ops (DiceManager.new, h0) idsNumbered_new)
  refine ⟨hnd, ?_⟩
  intro diceId
  have hcount := List.nodup_iff_count_le_one.mp hnd diceId
  rw [List.count, List.countP_map, List.countP_eq_length_filter] at hcount
  have hfun : ((fun x => x == diceId) ∘ fun die : Die => die.id) =
      fun die => decide (die.id = diceId) := by
    funext die
    by_cases hid : die.id = diceId <;> simp [hid]
  rw [hfun] at hcount
  exact hcount

/-- C16 (evaluation at the failing input): one d6 is rolled while `Date.now()`
returns 1700000000000 and the die is selected; a second `rollAllDice` during
the same millisecond gives the freshly rolled die the id of the first die
again, so the fresh, unselected die has its id in the selection. -/
theorem C16_same_millisecond_reuses_id :
    (exampleRolled.dicePool .d6).results.map (fun die => die.id) =
      [{ type := .d6, index := 0, time := 1700000000000 }] ∧
    exampleSelected.selectedDice = {{ type := .d6, index := 0, time := 1700000000000 }} ∧
    ((exampleSelected.rollAllDice (fun _ => 1 / 3) (fun _ => 1700000000000)).manager.dicePool
        .d6).results =
      [{ value := DiceManager.rollSingleDie 6 (1 / 3)
         id := { type := .d6, index := 0, time := 1700000000000 }
         selected := false
         removed := false }] ∧
    ({ type := .d6, index := 0, time := 1700000000000 } : DieId) ∈
      (exampleSelected.rollAllDice (fun _ => 1 / 3)
        (fun _ => 1700000000000)).manager.selectedDice := by
  refine ⟨by rfl, by rfl, by rfl, by decide⟩

/-! ## Resets and counts -/

/-- C17: for each of the eight types `t` and every state, `resetDice(t)` sets
`count[t]` to `0` and `results[t]` to the empty array, returns `0`, and leaves
the selection set (also ids of discarded dice), every other type's count and
results, and the host objects unchanged. -/
theorem C17_resetDice_clears_type (m : DiceManager) (h : Host) (t : DiceType) :
    ((m.resetDice h t.key).manager.dicePool t).count = 0 ∧
    ((m.resetDice h t.key).manager.dicePool t).results = [] ∧
    (m.resetDice h t.key).value = .int 0 ∧
    (m.resetDice h t.key).manager.selectedDice = m.selectedDice ∧
    (∀ u, u ≠ t → (m.resetDice h t.key).manager.dicePool u = m.dicePool u) ∧
    (m.resetDice h t.key).host = h := by
  refine ⟨?_, ?_, ?_, ?_, ?_, ?_⟩
  · rw [resetDice_pool_key]
  · rw [resetDice_pool_key]
  · simp [DiceManager.resetDice, lookupPool_key]
  · simp [DiceManager.resetDice, lookupPool_key]
  · intro u hu
    simp [DiceManager.resetDice, lookupPool_key, Function.update_noteq hu]
  · simp [DiceManager.resetDice, lookupPool_key]

theorem resetAllDice_eq_new (m : DiceManager) : m.resetAllDice = DiceManager.new := by
  have hpool : m.resetAllDice.dicePool = DiceManager.new.dicePool := by
    funext t
    rw [resetAllDice_pool]
    rfl
  have hsel : m.resetAllDice.selectedDice = DiceManager.new.selectedDice := rfl
  cases hm : m.resetAllDice with
  | mk pool sel =>
    rw [hm] at hpool hsel
    cases hn : DiceManager.new with
    | mk pool0 sel0 =>
      rw [hn] at hpool hsel
      simp only at hpool hsel
      rw [hpool, hsel]

theorem getTotalDiceCount_congr (m m1 : DiceManager)
    (h : ∀ t, (m1.dicePool t).count = (m.dicePool t).count) :
    m1.getTotalDiceCount = m.getTotalDiceCount := by
  simp only [DiceManager.getTotalDiceCount, diceTypes, List.map_cons, List.map_nil,
    List.foldl_cons, List.foldl_nil, h]

theorem sum_natAbs_diceTypes (f : DiceType → Nat) :
    (diceTypes.map f).sum = ∑ t : DiceType, f t := by
  rfl

theorem getTotalDiceCount_eq_sum (m : DiceManager)
    (hsafe : ∑ t : DiceType, ((m.dicePool t).count).natAbs ≤ 2 ^ 53) :
    m.getTotalDiceCount = ∑ t : DiceType, (m.dicePool t).count := by
  rw [← sum_diceTypes]
  rw [← sum_natAbs_diceTypes] at hsafe
  have h := foldl_round_eq_sum (diceTypes.map (fun t => (m.dicePool t).count)) 0
    (by
      rw [List.map_map]
      simpa using hsafe)
  rw [List.foldl_map, zero_add] at h
  rw [← h]
  unfold DiceManager.getTotalDiceCount
  rw [List.foldl_map]

/-- C18: for every state, `resetAllDice` yields the state of a newly
constructed manager: every count is `0`, every `results` is empty and the
selection is empty, so `getTotalDiceCount()` and `getSelectedDiceCount()` are
`0`; applying it twice gives the same state as applying it once. -/
theorem C18_resetAllDice_is_new (m : DiceManager) :
    m.resetAllDice = DiceManager.new ∧
    (∀ t, (m.resetAllDice.dicePool t).count = 0 ∧ (m.resetAllDice.dicePool t).results = []) ∧
    m.resetAllDice.selectedDice = ∅ ∧
    m.resetAllDice.getTotalDiceCount = 0 ∧
    m.resetAllDice.getSelectedDiceCount = 0 ∧
    m.resetAllDice.resetAllDice = m.resetAllDice ∧
    m.resetAllDice.resetAllDice.getTotalDiceCount = 0 ∧
    m.resetAllDice.resetAllDice.getSelectedDiceCount = 0 := by
  have htotal : DiceManager.new.getTotalDiceCount = 0 := by decide
  have hselected : DiceManager.new.getSelectedDiceCount = 0 := by decide
  refine ⟨resetAllDice_eq_new m, ?_, rfl, ?_, ?_, ?_, ?_, ?_⟩
  · intro t
    rw [resetAllDice_pool]
    exact ⟨rfl, rfl⟩
  · rw [resetAllDice_eq_new, htotal]
  · rw [resetAllDice_eq_new, hselected]
  · rw [resetAllDice_eq_new, resetAllDice_eq_new]
  · rw [resetAllDice_eq_new, htotal]
  · rw [resetAllDice_eq_new, hselected]

theorem addDice_count (m : DiceManager) (h : Host) (type : String) (n : Int) (t : DiceType) :
    ((m.addDice h type n).manager.dicePool t).count =
      if lookupPool type = .entry t then roundToDouble ((m.dicePool t).count + n)
      else (m.dicePool t).count := by
  unfold DiceManager.addDice
  cases hl : lookupPool type with
  | entry u =>
    by_cases htu : t = u
    · subst htu; simp
    · have hne : u ≠ t := fun e => htu e.symm
      simp [Function.update_noteq htu, hne]
  | inherited => simp
  | undefined => simp

theorem removeDice_count (m : DiceManager) (h : Host) (type : String) (n : Int)
    (t : DiceType) :
    ((m.removeDice h type n).manager.dicePool t).count =
      if lookupPool type = .entry t then max 0 (roundToDouble ((m.dicePool t).count - n))
      else (m.dicePool t).count := by
  unfold DiceManager.removeDice
  cases hl : lookupPool type with
  | entry u =>
    by_cases htu : t = u
    · subst htu; simp
    · have hne : u ≠ t := fun e => htu e.symm
      simp [Function.update_noteq htu, hne]
  | inherited => simp
  | undefined => simp

theorem resetDice_count (m : DiceManager) (h : Host) (type : String) (t : DiceType) :
    ((m.resetDice h type).manager.dicePool t).count =
      if lookupPool type = .entry t then 0 else (m.dicePool t).count := by
  unfold DiceManager.resetDice
  cases hl : lookupPool type with
  | entry u =>
    by_cases htu : t = u
    · subst htu; simp
    · have hne : u ≠ t := fun e => htu e.symm
      simp [Function.update_noteq htu, hne]
  | inherited => simp
  | undefined => simp

theorem rerollSelectedDice_count (m : DiceManager) (random : Nat → ℚ) (now : Nat → Int)
    (t : DiceType) :
    ((m.rerollSelectedDice random now).manager.dicePool t).count = (m.dicePool t).count := by
  obtain ⟨c0, hpool, -⟩ := rerollSelectedDice_at m random now t
  rw [hpool]

theorem removeSelectedDice_count (m : DiceManager) (now : Nat → Int) (t : DiceType) :
    ((m.removeSelectedDice now).manager.dicePool t).count = (m.dicePool t).count := by
  rw [(removeSelectedDice_at m now t).1]

theorem toggleDiceSelection_count (m : DiceManager) (diceId : DieId) (t : DiceType) :
    ((m.toggleDiceSelection diceId).dicePool t).count = (m.dicePool t).count := by
  rw [toggleDiceSelection_pool]

/-- C19 (counterexample): with `count.d20 = 2^53` and `count.d12 = 1` (reached
by two `addDice` calls on a new manager) the counts sum to `2^53 + 1`, but
`getTotalDiceCount()` returns `2^53`; and with `count.d6 = 2^53`, the value of
`getTotalDiceCount()` after `addDice('d6', 1)` is `2^53`, the same as before
and not `1` more. -/
theorem C19_getTotalDiceCount_rounds_above_safe_range :
    ((((DiceManager.new.addDice Host.fresh "d20" 9007199254740992).manager.addDice Host.fresh
      "d12" 1).manager.dicePool .d20).count = 9007199254740992 ∧
    (((DiceManager.new.addDice Host.fresh "d20" 9007199254740992).manager.addDice Host.fresh
      "d12" 1).manager.dicePool .d12).count = 1 ∧
    (∀ u, u ≠ .d20 → u ≠ .d12 →
      (((DiceManager.new.addDice Host.fresh "d20" 9007199254740992).manager.addDice Host.fresh
        "d12" 1).manager.dicePool u).count = 0) ∧
    ((DiceManager.new.addDice Host.fresh "d20" 9007199254740992).manager.addDice Host.fresh
      "d12" 1).manager.getTotalDiceCount = 9007199254740992) ∧
    (DiceManager.new.addDice Host.fresh "d6" 9007199254740992).manager.getTotalDiceCount =
      9007199254740992 ∧
    ((DiceManager.new.addDice Host.fresh "d6" 9007199254740992).manager.addDice Host.fresh
      "d6" 1).manager.getTotalDiceCount = 9007199254740992 ∧
    ((DiceManager.new.addDice Host.fresh "d6" 9007199254740992).manager.addDice Host.fresh
      "d6" 1).manager.getTotalDiceCount ≠
      (DiceManager.new.addDice Host.fresh "d6" 9007199254740992).manager.getTotalDiceCount
        + 1 := by
  decide

/-- C19 (amended): `getTotalDiceCount()` depends on the counts only: it is the
same for two states with the same counts, whatever their results and
selection.  When the magnitudes of the eight counts sum to at most `2^53`, it
is the sum of `count` over the eight types; and when they do so together with
the magnitude of `n`, its value after `addDice(t, n)` is its value before plus
`n`, for every type `t` and every integer `n`. -/
theorem C19_getTotalDiceCount_sums_counts (m m1 : DiceManager) (h : Host) (t : DiceType)
    (n : Int) :
    (∑ u : DiceType, ((m.dicePool u).count).natAbs ≤ 2 ^ 53 →
      m.getTotalDiceCount = ∑ u : DiceType, (m.dicePool u).count) ∧
    ((∀ u, (m1.dicePool u).count = (m.dicePool u).count) →
      m1.getTotalDiceCount = m.getTotalDiceCount) ∧
    (∑ u : DiceType, ((m.dicePool u).count).natAbs + n.natAbs ≤ 2 ^ 53 →
      (m.addDice h t.key n).manager.getTotalDiceCount = m.getTotalDiceCount + n) := by
  refine ⟨getTotalDiceCount_eq_sum m, getTotalDiceCount_congr m m1, ?_⟩
  intro hsafe
  have hone : ((m.dicePool t).count).natAbs ≤ ∑ u : DiceType, ((m.dicePool u).count).natAbs :=
    Finset.single_le_sum (f := fun u => ((m.dicePool u).count).natAbs)
      (fun _ _ => Nat.zero_le _) (Finset.mem_univ t)
  have hadd : ((m.dicePool t).count + n).natAbs ≤ (m.dicePool t).count.natAbs + n.natAbs :=
    Int.natAbs_add_le _ _
  have hterm : ∀ u, ((m.addDice h t.key n).manager.dicePool u).count =
      (m.dicePool u).count + if u = t then n else 0 := by
    intro u
    rw [addDice_count, lookupPool_key]
    by_cases hu : u = t
    · subst hu
      simp [roundToDouble_of_le _ (show ((m.dicePool u).count + n).natAbs ≤ 2 ^ 53 by omega)]
    · have hne : t ≠ u := fun e => hu e.symm
      simp [hu, hne]
  have hafter : ∑ u : DiceType, (((m.addDice h t.key n).manager.dicePool u).count).natAbs ≤
      2 ^ 53 := by
    have hle : ∀ u, (((m.addDice h t.key n).manager.dicePool u).count).natAbs ≤
        ((m.dicePool u).count).natAbs + if u = t then n.natAbs else 0 := by
      intro u
      rw [hterm]
      by_cases hu : u = t
      · simp only [hu, if_true]
        exact Int.natAbs_add_le _ _
      · simp [hu]
    calc ∑ u : DiceType, (((m.addDice h t.key n).manager.dicePool u).count).natAbs
        ≤ ∑ u : DiceType, (((m.dicePool u).count).natAbs + if u = t then n.natAbs else 0) :=
          Finset.sum_le_sum (fun u _ => hle u)
      _ = ∑ u : DiceType, ((m.dicePool u).count).natAbs + n.natAbs := by
          simp only [Finset.sum_add_distrib, Finset.sum_ite_eq', Finset.mem_univ, if_true]
      _ ≤ 2 ^ 53 := hsafe
  rw [getTotalDiceCount_eq_sum _ hafter, getTotalDiceCount_eq_sum m (by omega)]
  simp only [hterm, Finset.sum_add_distrib, Finset.sum_ite_eq', Finset.mem_univ, if_true]

/-- C19 at a concrete input: with two d6 loaded, `addDice('d6', 3)` raises
`getTotalDiceCount()` by `3`. -/
theorem C19_getTotalDiceCount_sums_counts_witness :
    (∑ u : DiceType,
        (((DiceManager.new.addDice Host.fresh "d6" 2).manager.dicePool u).count).natAbs
      + (3 : Int).natAbs ≤ 2 ^ 53) ∧
    ((DiceManager.new.addDice Host.fresh "d6" 2).manager.addDice Host.fresh DiceType.d6.key
      3).manager.getTotalDiceCount =
      (DiceManager.new.addDice Host.fresh "d6" 2).manager.getTotalDiceCount + 3 :=
  ⟨by decide,
   (C19_getTotalDiceCount_sums_counts (DiceManager.new.addDice Host.fresh "d6" 2).manager
      DiceManager.new Host.fresh .d6 3).2.2 (by decide)⟩

/-! ## Counts are never negative -/

theorem countsNonneg_new : CountsNonneg DiceManager.new := by
  intro t
  exact le_refl _

theorem countsNonneg_apply (op : Op) (hop : op.CountArgNonneg) (s : DiceManager × Host)
    (hs : CountsNonneg s.1) : CountsNonneg (op.apply s).1 := by
  intro t
  have ht := hs t
  cases op with
  | addDice type count =>
    have hn : 0 ≤ count := hop
    show 0 ≤ ((s.1.addDice s.2 type count).manager.dicePool t).count
    rw [addDice_count]
    split
    · exact roundToDouble_nonneg _ (by omega)
    · exact ht
  | removeDice type count =>
    show 0 ≤ ((s.1.removeDice s.2 type count).manager.dicePool t).count
    rw [removeDice_count]
    split
    · exact le_max_left _ _
    · exact ht
  | resetDice type =>
    show 0 ≤ ((s.1.resetDice s.2 type).manager.dicePool t).count
    rw [resetDice_count]
    split
    · exact le_refl _
    · exact ht
  | resetAllDice =>
    show 0 ≤ (s.1.resetAllDice.dicePool t).count
    rw [resetAllDice_pool]
  | rollAllDice random now =>
    show 0 ≤ ((s.1.rollAllDice random now).manager.dicePool t).count
    rw [(rollAllDice_at s.1 random now t).1]
    exact ht
  | rerollSelectedDice random now =>
    show 0 ≤ ((s.1.rerollSelectedDice random now).manager.dicePool t).count
    rw [rerollSelectedDice_count]
    exact ht
  | toggleDiceSelection diceId =>
    show 0 ≤ ((s.1.toggleDiceSelection diceId).dicePool t).count
    rw [toggleDiceSelection_count]
    exact ht
  | removeSelectedDice now =>
    show 0 ≤ ((s.1.removeSelectedDice now).manager.dicePool t).count
    rw [removeSelectedDice_count]
    exact ht

theorem countsNonneg_runOps (ops : List Op) (hops : ∀ op ∈ ops, op.CountArgNonneg)
    (s : DiceManager × Host) (hs : CountsNonneg s.1) : CountsNonneg (runOps ops s).1 := by
  induction ops generalizing s with
  | nil => exact hs
  | cons op rest ih =>
    exact ih (fun o ho => hops o (List.mem_cons_of_mem _ ho)) (op.apply s)
      (countsNonneg_apply op (hops op (List.mem_cons_self _ _)) s hs)

/-- C20: in every state reached from a new manager by a sequence of calls in
which `addDice` and `removeDice` are only called with `n ≥ 0`, `count[t] ≥ 0`
for every type `t`. -/
theorem C20_counts_never_negative (ops : List Op) (hops : ∀ op ∈ ops, op.CountArgNonneg)
    (h0 : Host) (t : DiceType) :
    0 ≤ ((runOps ops (DiceManager.new, h0)).1.dicePool t).count :=
  countsNonneg_runOps ops hops (DiceManager.new, h0) countsNonneg_new t

/-- C20 at a concrete input: two d6 are added and five removed, which leaves
the count of d6 at `0`. -/
theorem C20_counts_never_negative_witness :
    ((runOps [Op.addDice "d6" 2, Op.removeDice "d6" 5] (DiceManager.new, Host.fresh)).1.dicePool
      .d6).count = 0 ∧
    0 ≤ ((runOps [Op.addDice "d6" 2, Op.removeDice "d6" 5] (DiceManager.new, Host.fresh)).1.dicePool
      .d6).count :=
  ⟨by decide,
   C20_counts_never_negative [Op.addDice "d6" 2, Op.removeDice "d6" 5]
     (by
       intro op hop
       simp only [List.mem_cons, List.mem_singleton, List.not_mem_nil, or_false] at hop
       rcases hop with rfl | rfl
       · show (0 : Int) ≤ 2
         decide
       · show (0 : Int) ≤ 5
         decide)
     Host.fresh .d6⟩

/-! ## Frame conditions of the selection operations and of `rollAllDice` -/

theorem rollAllDice_manager (m : DiceManager) (random : Nat → ℚ) (now : Nat → Int) :
    (m.rollAllDice random now).manager =
      (diceTypes.foldl (DiceManager.rollAllDiceStep random now) (LoopState.init m)).manager := by
  simp only [DiceManager.rollAllDice]

theorem rollAllDice_selectedDice (m : DiceManager) (random : Nat → ℚ) (now : Nat → Int) :
    (m.rollAllDice random now).manager.selectedDice = m.selectedDice := by
  rw [rollAllDice_manager]
  exact foldl_step_selected (rollAllDiceStep_local random now) diceTypes (LoopState.init m)

/-- C21: `removeSelectedDice`, `rerollSelectedDice` and `toggleDiceSelection`
leave the loaded-dice counter and the length of every `results` array as they
are: for every state and type `t`, `count[t]` and the length of `results[t]`
are the same before and after (a die removed by `removeSelectedDice` stays in
its place with `removed = true`), so `getTotalDiceCount()` is unchanged. -/
theorem C21_selection_operations_keep_counts (m : DiceManager) (diceId : DieId)
    (random : Nat → ℚ) (now : Nat → Int) (t : DiceType) :
    (((m.removeSelectedDice now).manager.dicePool t).count = (m.dicePool t).count ∧
      ((m.removeSelectedDice now).manager.dicePool t).results.length =
        (m.dicePool t).results.length ∧
      List.Forall₂
        (fun before after => before.id ∈ m.selectedDice →
          after.id = before.id ∧ after.removed = true)
        (m.dicePool t).results ((m.removeSelectedDice now).manager.dicePool t).results ∧
      (m.removeSelectedDice now).manager.getTotalDiceCount = m.getTotalDiceCount) ∧
    (((m.rerollSelectedDice random now).manager.dicePool t).count = (m.dicePool t).count ∧
      ((m.rerollSelectedDice random now).manager.dicePool t).results.length =
        (m.dicePool t).results.length ∧
      (m.rerollSelectedDice random now).manager.getTotalDiceCount = m.getTotalDiceCount) ∧
    (((m.toggleDiceSelection diceId).dicePool t).count = (m.dicePool t).count ∧
      ((m.toggleDiceSelection diceId).dicePool t).results.length =
        (m.dicePool t).results.length ∧
      (m.toggleDiceSelection diceId).getTotalDiceCount = m.getTotalDiceCount) := by
  refine ⟨⟨removeSelectedDice_count m now t, ?_, ?_, ?_⟩,
    ⟨rerollSelectedDice_count m random now t, ?_, ?_⟩,
    ⟨toggleDiceSelection_count m diceId t, ?_, ?_⟩⟩
  · exact (removeSelectedDice_per_die m now t).length_eq.symm
  · refine List.Forall₂.imp ?_ (removeSelectedDice_per_die m now t)
    rintro before after ⟨hid, -, hin, -⟩ hs
    exact ⟨hid, (hin hs).1⟩
  · exact getTotalDiceCount_congr _ _ (fun u => removeSelectedDice_count m now u)
  · exact (rerollSelectedDice_ids m random now t).length_eq.symm
  · exact getTotalDiceCount_congr _ _ (fun u => rerollSelectedDice_count m random now u)
  · exact (toggleDiceSelection_per_die m diceId t).length_eq.symm
  · exact getTotalDiceCount_congr _ _ (fun u => toggleDiceSelection_count m diceId u)

/-- C22: `rollAllDice` neither clears nor otherwise changes the selection set
and changes no type's count: for every state, the selection and every
`count[t]` are the same before and after `rollAllDice`. -/
theorem C22_rollAllDice_keeps_selection_and_counts (m : DiceManager) (random : Nat → ℚ)
    (now : Nat → Int) :
    (m.rollAllDice random now).manager.selectedDice = m.selectedDice ∧
    (m.rollAllDice random now).manager.getSelectedDiceCount = m.getSelectedDiceCount ∧
    ∀ t, ((m.rollAllDice random now).manager.dicePool t).count = (m.dicePool t).count := by
  refine ⟨rollAllDice_selectedDice m random now, ?_, fun t => (rollAllDice_at m random now t).1⟩
  unfold DiceManager.getSelectedDiceCount
  rw [rollAllDice_selectedDice]

/-! ## Which types a snapshot contains -/

theorem rerollSelectedDice_byType_isSome (m : DiceManager) (random : Nat → ℚ)
    (now : Nat → Int) (t : DiceType) :
    (m.rerollSelectedDice random now).snapshot.byType t ≠ none ↔ (m.dicePool t).results ≠ [] := by
  obtain ⟨c0, -, hby⟩ := rerollSelectedDice_at m random now t
  rw [hby]
  by_cases hc : (m.dicePool t).results.length > 0
  · rw [if_pos hc]
    have hne : (m.dicePool t).results ≠ [] := fun h => by rw [h] at hc; exact absurd hc (by decide)
    simp [hne]
  · rw [if_neg hc]
    have hnil : (m.dicePool t).results = [] := List.length_eq_zero.mp (by omega)
    simp [hnil]

theorem removeSelectedDice_byType_isSome (m : DiceManager) (now : Nat → Int) (t : DiceType) :
    (m.removeSelectedDice now).snapshot.byType t ≠ none ↔ (m.dicePool t).results ≠ [] := by
  rw [(removeSelectedDice_at m now t).2]
  by_cases hc : (m.dicePool t).results.length > 0
  · rw [if_pos hc]
    have hne : (m.dicePool t).results ≠ [] := fun h => by rw [h] at hc; exact absurd hc (by decide)
    simp [hne]
  · rw [if_neg hc]
    have hnil : (m.dicePool t).results = [] := List.length_eq_zero.mp (by omega)
    simp [hnil]

/-- C24: `rollAllDice` skips a type `t` whose count is `0`: `t` is no key of
the returned `byType` and its pool entry, stored results included, is left as
it was; so the snapshot of a following `rerollSelectedDice` or
`removeSelectedDice` has the key `t` whenever those stale results are not
empty.  In general the `byType` of a reroll or remove snapshot has exactly the
types whose `results` are not empty as keys. -/
theorem C24_rollAllDice_skips_zero_count (m : DiceManager) (random random1 : Nat → ℚ)
    (now now1 : Nat → Int) (t : DiceType) (hc : (m.dicePool t).count = 0) :
    (m.rollAllDice random now).snapshot.byType t = none ∧
    (m.rollAllDice random now).manager.dicePool t = m.dicePool t ∧
    ((m.dicePool t).results ≠ [] →
      ((m.rollAllDice random now).manager.rerollSelectedDice random1 now1).snapshot.byType t ≠
        none ∧
      ((m.rollAllDice random now).manager.removeSelectedDice now1).snapshot.byType t ≠ none) ∧
    (∀ u, (m.rerollSelectedDice random1 now1).snapshot.byType u ≠ none ↔
      (m.dicePool u).results ≠ []) ∧
    (∀ u, (m.removeSelectedDice now1).snapshot.byType u ≠ none ↔
      (m.dicePool u).results ≠ []) := by
  have hnot : ¬ 0 < (m.dicePool t).count := by rw [hc]; decide
  have hskip := (rollAllDice_at m random now t).2.1 hnot
  refine ⟨hskip.1, hskip.2, ?_, fun u => rerollSelectedDice_byType_isSome m random1 now1 u,
    fun u => removeSelectedDice_byType_isSome m now1 u⟩
  intro hne
  constructor
  · rw [rerollSelectedDice_byType_isSome, hskip.2]
    exact hne
  · rw [removeSelectedDice_byType_isSome, hskip.2]
    exact hne

/-- C24 at a concrete input: in `exampleStale` the count of d6 is `0` while one
rolled d6 is still stored. -/
theorem C24_rollAllDice_skips_zero_count_witness :
    (exampleStale.dicePool .d6).count = 0 ∧
    (exampleStale.dicePool .d6).results.length = 1 ∧
    (exampleStale.rollAllDice (fun _ => 1 / 3) (fun _ => 1700000000002)).snapshot.byType .d6 =
      none ∧
    (exampleStale.rollAllDice (fun _ => 1 / 3) (fun _ => 1700000000002)).manager.dicePool .d6 =
      exampleStale.dicePool .d6 :=
  ⟨by decide, by decide,
   (C24_rollAllDice_skips_zero_count exampleStale (fun _ => 1 / 3) (fun _ => 1 / 4)
      (fun _ => 1700000000002) (fun _ => 1700000000003) .d6 (by decide)).1,
   (C24_rollAllDice_skips_zero_count exampleStale (fun _ => 1 / 3) (fun _ => 1 / 4)
      (fun _ => 1700000000002) (fun _ => 1700000000003) .d6 (by decide)).2.1⟩

/-! ## The `selected` flag and the selection set -/

theorem forall₂_transfer_to {R : Die → Die → Prop} {P Q : Die → Prop} {l1 l2 : List Die}
    (h : List.Forall₂ R l1 l2) (hstep : ∀ a b, R a b → P a → Q b) (hP : ∀ a ∈ l1, P a) :
    ∀ b ∈ l2, Q b := by
  induction h with
  | nil => simp
  | cons hab _ ih =>
    intro b hb
    rcases List.mem_cons.mp hb with hb | hb
    · subst hb
      exact hstep _ _ hab (hP _ (List.mem_cons_self _ _))
    · exact ih (fun a ha => hP a (List.mem_cons_of_mem _ ha)) b hb

theorem addDice_selectedDice (m : DiceManager) (h : Host) (type : String) (n : Int) :
    (m.addDice h type n).manager.selectedDice = m.selectedDice := by
  unfold DiceManager.addDice
  cases lookupPool type <;> rfl

theorem removeDice_selectedDice (m : DiceManager) (h : Host) (type : String) (n : Int) :
    (m.removeDice h type n).manager.selectedDice = m.selectedDice := by
  unfold DiceManager.removeDice
  cases lookupPool type <;> rfl

theorem resetDice_selectedDice (m : DiceManager) (h : Host) (type : String) :
    (m.resetDice h type).manager.selectedDice = m.selectedDice := by
  unfold DiceManager.resetDice
  cases lookupPool type <;> rfl

theorem rerollSelectedDice_flags (m : DiceManager) (random : Nat → ℚ) (now : Nat → Int)
    (t : DiceType) :
    List.Forall₂
      (fun before after =>
        after.removed = before.removed ∧
        (before.removed = false → before.id ∈ m.selectedDice → after.selected = false) ∧
        (before.id ∉ m.selectedDice → after = before))
      (m.dicePool t).results
      ((m.rerollSelectedDice random now).manager.dicePool t).results := by
  obtain ⟨c0, hpool, -⟩ := rerollSelectedDice_at m random now t
  rw [hpool]
  apply forEachDie_forall₂
  intro s die
  cases hr : die.removed with
  | false =>
    by_cases hs : die.id ∈ m.selectedDice
    · rw [rerollCallback_selected _ _ _ _ _ hr hs]
      exact ⟨hr, fun _ _ => rfl, fun h => absurd hs h⟩
    · rw [rerollCallback_unselected _ _ _ _ _ hr hs]
      exact ⟨hr, fun _ h => absurd h hs, fun _ => rfl⟩
  | true =>
    rw [rerollCallback_removed _ _ _ _ _ hr]
    exact ⟨hr, fun h => absurd h (by decide), fun _ => rfl⟩

theorem noLiveSelected_rerollSelectedDice (m : DiceManager) (random : Nat → ℚ)
    (now : Nat → Int) (hm : SelectedInSelection m) :
    NoLiveSelected (m.rerollSelectedDice random now).manager := by
  intro t
  refine forall₂_transfer_to (rerollSelectedDice_flags m random now t) ?_ (hm t)
  rintro before after ⟨hrem, hin, hout⟩ hbefore hlive
  rw [hrem] at hlive
  by_cases hs : before.id ∈ m.selectedDice
  · exact hin hlive hs
  · rw [hout hs]
    cases hsel : before.selected with
    | false => rfl
    | true => exact absurd (hbefore hlive hsel) hs

theorem noLiveSelected_removeSelectedDice (m : DiceManager) (now : Nat → Int)
    (hm : SelectedInSelection m) : NoLiveSelected (m.removeSelectedDice now).manager := by
  intro t
  refine forall₂_transfer_to (removeSelectedDice_per_die m now t) ?_ (hm t)
  rintro before after ⟨-, -, hin, hout⟩ hbefore hlive
  by_cases hs : before.id ∈ m.selectedDice
  · exact (hin hs).2
  · rw [(hout hs).2]
    have hlive0 : before.removed = false := by rw [← (hout hs).1]; exact hlive
    cases hsel : before.selected with
    | false => rfl
    | true => exact absurd (hbefore hlive0 hsel) hs

theorem selectedInSelection_of_noLiveSelected {m : DiceManager} (h : NoLiveSelected m) :
    SelectedInSelection m := by
  intro t die hdie hlive hsel
  rw [h t die hdie hlive] at hsel
  cases hsel

theorem selectedInSelection_of_results {m m1 : DiceManager}
    (h : ∀ t, (m1.dicePool t).results = (m.dicePool t).results ∨ (m1.dicePool t).results = [])
    (hsel : m1.selectedDice = m.selectedDice) (hm : SelectedInSelection m) :
    SelectedInSelection m1 := by
  intro t die hdie hlive hflag
  rw [hsel]
  rcases h t with h | h
  · rw [h] at hdie
    exact hm t die hdie hlive hflag
  · rw [h] at hdie
    cases hdie

theorem selectedInSelection_new : SelectedInSelection DiceManager.new := by
  intro t die hdie
  simp [DiceManager.new] at hdie

theorem selectedInSelection_rollAllDice (m : DiceManager) (random : Nat → ℚ)
    (now : Nat → Int) (hm : SelectedInSelection m) :
    SelectedInSelection (m.rollAllDice random now).manager := by
  intro t die hdie hlive hflag
  rw [rollAllDice_selectedDice]
  by_cases hc : 0 < (m.dicePool t).count
  · obtain ⟨r0, c0, -, hres⟩ := (rollAllDice_at m random now t).2.2 hc
    rw [hres] at hdie
    rw [(rollLoop_flags _ _ _ _ _ _ _ die hdie).1] at hflag
    cases hflag
  · rw [((rollAllDice_at m random now t).2.1 hc).2] at hdie
    exact hm t die hdie hlive hflag

theorem selectedInSelection_toggleDiceSelection (m : DiceManager) (diceId : DieId)
    (hm : SelectedInSelection m) : SelectedInSelection (m.toggleDiceSelection diceId) := by
  intro t
  refine forall₂_transfer_to (toggleDiceSelection_per_die m diceId t) ?_ (hm t)
  rintro before after ⟨hsame, hother⟩ hbefore hlive hflag
  by_cases hid : before.id = diceId
  · rw [hsame hid] at hflag ⊢
    have hmem : diceId ∈ (m.toggleDiceSelection diceId).selectedDice := by
      simpa using hflag
    show before.id ∈ _
    rw [hid]
    exact hmem
  · rw [hother hid] at hlive hflag ⊢
    rw [toggleDiceSelection_mem, if_neg hid]
    exact hbefore hlive hflag

theorem selectedInSelection_apply (op : Op) (s : DiceManager × Host)
    (hs : SelectedInSelection s.1) : SelectedInSelection (op.apply s).1 := by
  cases op with
  | addDice type count =>
    exact selectedInSelection_of_results
      (fun t => Or.inl (addDice_results s.1 s.2 type count t))
      (addDice_selectedDice s.1 s.2 type count) hs
  | removeDice type count =>
    exact selectedInSelection_of_results
      (fun t => Or.inl (removeDice_results s.1 s.2 type count t))
      (removeDice_selectedDice s.1 s.2 type count) hs
  | resetDice type =>
    exact selectedInSelection_of_results (fun t => resetDice_results s.1 s.2 type t)
      (resetDice_selectedDice s.1 s.2 type) hs
  | resetAllDice =>
    intro t die hdie
    rw [show (Op.resetAllDice.apply s).1 = s.1.resetAllDice from rfl, resetAllDice_pool] at hdie
    cases hdie
  | rollAllDice random now => exact selectedInSelection_rollAllDice s.1 random now hs
  | rerollSelectedDice random now =>
    exact selectedInSelection_of_noLiveSelected
      (noLiveSelected_rerollSelectedDice s.1 random now hs)
  | toggleDiceSelection diceId => exact selectedInSelection_toggleDiceSelection s.1 diceId hs
  | removeSelectedDice now =>
    exact selectedInSelection_of_noLiveSelected (noLiveSelected_removeSelectedDice s.1 now hs)

theorem selectedInSelection_runOps (ops : List Op) (s : DiceManager × Host)
    (hs : SelectedInSelection s.1) : SelectedInSelection (runOps ops s).1 := by
  induction ops generalizing s with
  | nil => exact hs
  | cons op rest ih => exact ih (op.apply s) (selectedInSelection_apply op s hs)

/-- C25: in every state reached from a new manager by any sequence of calls,
every stored die with `removed = false` and `selected = true` has its id in
the selection set; consequently, right after `rerollSelectedDice` or
`removeSelectedDice` in such a state, no die with `removed = false` has
`selected = true`. -/
theorem C25_selected_flag_implies_selection (ops : List Op) (h0 : Host) (random : Nat → ℚ)
    (now : Nat → Int) (t : DiceType) :
    (∀ die ∈ ((runOps ops (DiceManager.new, h0)).1.dicePool t).results,
      die.removed = false → die.selected = true →
        die.id ∈ (runOps ops (DiceManager.new, h0)).1.selectedDice) ∧
    (∀ die ∈ (((runOps ops (DiceManager.new, h0)).1.rerollSelectedDice random
        now).manager.dicePool t).results,
      die.removed = false → die.selected = false) ∧
    (∀ die ∈ (((runOps ops (DiceManager.new, h0)).1.removeSelectedDice now).manager.dicePool
        t).results,
      die.removed = false → die.selected = false) := by
  have hinv := selectedInSelection_runOps ops (DiceManager.new, h0) selectedInSelection_new
  exact ⟨hinv t, noLiveSelected_rerollSelectedDice _ random now hinv t,
    noLiveSelected_removeSelectedDice _ now hinv t⟩

/-! ## The grand total after removal -/

theorem selectedLiveTotal_cons (selectedDice : Finset DieId) (die : Die) (rest : List Die) :
    selectedLiveTotal selectedDice (die :: rest) =
      (if die.removed = false ∧ die.id ∈ selectedDice then die.value else 0) +
        selectedLiveTotal selectedDice rest := by
  unfold selectedLiveTotal
  cases hr : die.removed <;> by_cases hs : die.id ∈ selectedDice <;>
    simp [List.filter_cons, hr, hs]

theorem forEachDie_remove_liveTotal (selectedDice : Finset DieId) (a : Int) (dice : List Die) :
    liveTotal (forEachDie (DiceManager.removeCallback selectedDice) a dice).2 =
      liveTotal dice - selectedLiveTotal selectedDice dice := by
  induction dice generalizing a with
  | nil => simp [forEachDie, liveTotal, selectedLiveTotal]
  | cons die rest ih =>
    simp only [forEachDie, liveTotal_cons, selectedLiveTotal_cons]
    by_cases hs : die.id ∈ selectedDice
    · rw [removeCallback_selected _ _ _ hs]
      cases hr : die.removed <;> simp [ih, hs]
    · cases hr : die.removed with
      | false =>
        rw [removeCallback_unselected_live _ _ _ hs hr]
        simp [ih, hs, hr]
        ring
      | true =>
        rw [removeCallback_unselected_removed _ _ _ hs hr]
        simp [ih, hs, hr]

theorem removeSelectedDice_totalOf (m : DiceManager) (now : Nat → Int) (t : DiceType) :
    totalOf ((m.removeSelectedDice now).snapshot.byType t) =
      liveTotal (m.dicePool t).results -
        selectedLiveTotal m.selectedDice (m.dicePool t).results := by
  rw [(removeSelectedDice_at m now t).2]
  by_cases hc : (m.dicePool t).results.length > 0
  · rw [if_pos hc]
    simp only [totalOf]
    rw [forEachDie_remove_total, zero_add, forEachDie_remove_liveTotal]
  · rw [if_neg hc]
    have hnil : (m.dicePool t).results = [] := List.length_eq_zero.mp (by omega)
    simp [totalOf, hnil, liveTotal, selectedLiveTotal]

theorem selectedLiveTotal_nonneg (selectedDice : Finset DieId) (rolls : List Die)
    (h : ∀ die ∈ rolls, 0 ≤ die.value) : 0 ≤ selectedLiveTotal selectedDice rolls := by
  unfold selectedLiveTotal
  apply List.sum_nonneg
  intro x hx
  simp only [List.mem_map, List.mem_filter] at hx
  obtain ⟨die, ⟨hdie, -⟩, rfl⟩ := hx
  exact h die hdie

theorem forEachDie_remove_empty (a : Int) (dice : List Die) :
    (forEachDie (DiceManager.removeCallback ∅) a dice).2 = dice := by
  induction dice generalizing a with
  | nil => rfl
  | cons die rest ih =>
    simp only [forEachDie]
    cases hr : die.removed with
    | false =>
      rw [removeCallback_unselected_live _ _ _ (Finset.not_mem_empty _) hr]
      simp [ih]
    | true =>
      rw [removeCallback_unselected_removed _ _ _ (Finset.not_mem_empty _) hr]
      simp [ih]

theorem removeSelectedDice_selectedDice (m : DiceManager) (now : Nat → Int) :
    (m.removeSelectedDice now).manager.selectedDice = ∅ := by
  simp only [DiceManager.removeSelectedDice]

/-- A second `removeSelectedDice` right after the first changes no pool entry
and returns the same `byType`. -/
theorem removeSelectedDice_twice (m : DiceManager) (now now1 : Nat → Int) (t : DiceType) :
    ((m.removeSelectedDice now).manager.removeSelectedDice now1).manager.dicePool t =
      (m.removeSelectedDice now).manager.dicePool t ∧
    ((m.removeSelectedDice now).manager.removeSelectedDice now1).snapshot.byType t =
      (m.removeSelectedDice now).snapshot.byType t := by
  have h2 := removeSelectedDice_at (m.removeSelectedDice now).manager now1 t
  rw [removeSelectedDice_selectedDice] at h2
  have h1 := removeSelectedDice_at m now t
  have hlen : ((m.removeSelectedDice now).manager.dicePool t).results.length =
      (m.dicePool t).results.length :=
    (removeSelectedDice_per_die m now t).length_eq.symm
  constructor
  · rw [h2.1, forEachDie_remove_empty]
  · rw [h2.2, forEachDie_remove_total, forEachDie_remove_empty, hlen, h1.2,
      forEachDie_remove_total, h1.1]

/-- C26: for every state, the `grandTotal` returned by `removeSelectedDice` is
the sum of the values of the dice that were live (`removed = false`) before
the call minus the sum of the values of the live dice whose id was in the
selection; as stored values are never negative (they are at least `1`), it
does not exceed the live total before the call; and a second
`removeSelectedDice` right afterwards changes no die and returns the same
`byType` (rolls, totals, counts) and the same `grandTotal`. -/
theorem C26_removeSelectedDice_grandTotal (m : DiceManager) (now now1 : Nat → Int)
    (hvalues : ValuesInRange m) :
    (m.removeSelectedDice now).snapshot.grandTotal =
      (∑ t : DiceType, liveTotal (m.dicePool t).results) -
        ∑ t : DiceType, selectedLiveTotal m.selectedDice (m.dicePool t).results ∧
    (m.removeSelectedDice now).snapshot.grandTotal ≤
      ∑ t : DiceType, liveTotal (m.dicePool t).results ∧
    (∀ t, ((m.removeSelectedDice now).manager.removeSelectedDice now1).manager.dicePool t =
      (m.removeSelectedDice now).manager.dicePool t) ∧
    (∀ t, ((m.removeSelectedDice now).manager.removeSelectedDice now1).snapshot.byType t =
      (m.removeSelectedDice now).snapshot.byType t) ∧
    ((m.removeSelectedDice now).manager.removeSelectedDice now1).snapshot.grandTotal =
      (m.removeSelectedDice now).snapshot.grandTotal := by
  have hgrand : (m.removeSelectedDice now).snapshot.grandTotal =
      (∑ t : DiceType, liveTotal (m.dicePool t).results) -
        ∑ t : DiceType, selectedLiveTotal m.selectedDice (m.dicePool t).results := by
    rw [removeSelectedDice_grandTotal, ← Finset.sum_sub_distrib]
    exact Finset.sum_congr rfl (fun t _ => removeSelectedDice_totalOf m now t)
  have hnonneg : 0 ≤ ∑ t : DiceType, selectedLiveTotal m.selectedDice (m.dicePool t).results := by
    apply Finset.sum_nonneg
    intro t _
    apply selectedLiveTotal_nonneg
    intro die hdie
    have := (hvalues t die hdie).1
    omega
  refine ⟨hgrand, ?_, fun t => (removeSelectedDice_twice m now now1 t).1,
    fun t => (removeSelectedDice_twice m now now1 t).2, ?_⟩
  · rw [hgrand]
    omega
  · rw [removeSelectedDice_grandTotal, removeSelectedDice_grandTotal]
    exact Finset.sum_congr rfl (fun t _ => by rw [(removeSelectedDice_twice m now now1 t).2])

theorem valuesInRange_exampleSelected : ValuesInRange exampleSelected :=
  valuesInRange_toggleDiceSelection exampleRolled _
    (valuesInRange_rollAllDice _ _ (fun _ => ⟨by norm_num, by norm_num, toDouble_one_half⟩) _
      (valuesInRange_of_results
        (fun t => Or.inl (addDice_results DiceManager.new Host.fresh "d6" 1 t))
        valuesInRange_new))

/-- C26 at a concrete input: the state `exampleSelected`, whose one live d6 is
selected, so that the returned grand total is the live total minus that die's
value. -/
theorem C26_removeSelectedDice_grandTotal_witness :
    ValuesInRange exampleSelected ∧
    (exampleSelected.removeSelectedDice (fun _ => 1700000000001)).snapshot.grandTotal =
      (∑ t : DiceType, liveTotal (exampleSelected.dicePool t).results) -
        ∑ t : DiceType,
          selectedLiveTotal exampleSelected.selectedDice (exampleSelected.dicePool t).results :=
  ⟨valuesInRange_exampleSelected,
   (C26_removeSelectedDice_grandTotal exampleSelected (fun _ => 1700000000001)
      (fun _ => 1700000000002) valuesInRange_exampleSelected).1⟩

/-! ## Snapshots share their arrays with the manager -/

theorem DiceManager.eq_of_fields {m m1 : DiceManager} (hpool : m.dicePool = m1.dicePool)
    (hsel : m.selectedDice = m1.selectedDice) : m = m1 := by
  cases m
  cases m1
  simp only at hpool hsel
  rw [hpool, hsel]

theorem foldl_update_address_other (address : DiceType → Nat) (value : DiceType → List Die)
    (ks : List DiceType) (heap : Nat → List Die) (a : Nat) (ha : ∀ k ∈ ks, address k ≠ a) :
    (ks.foldl (fun heap t => Function.update heap (address t) (value t)) heap) a = heap a := by
  induction ks generalizing heap with
  | nil => rfl
  | cons k rest ih =>
    rw [List.foldl_cons, ih _ (fun j hj => ha j (List.mem_cons_of_mem _ hj))]
    exact Function.update_noteq (fun h => ha k (List.mem_cons_self _ _) h.symm) _ _

theorem foldl_update_address_mem (address : DiceType → Nat)
    (hinj : Function.Injective address) (value : DiceType → List Die) (ks : List DiceType)
    (heap : Nat → List Die) (t : DiceType) (ht : t ∈ ks) :
    (ks.foldl (fun heap t => Function.update heap (address t) (value t)) heap) (address t) =
      value t := by
  induction ks generalizing heap with
  | nil => cases ht
  | cons k rest ih =>
    rw [List.foldl_cons]
    by_cases htr : t ∈ rest
    · exact ih _ htr
    · have htk : t = k := by
        rcases List.mem_cons.mp ht with h | h
        · exact h
        · exact absurd h htr
      subst htk
      rw [foldl_update_address_other address value rest _ (address t)
        (fun j hj h => htr (hinj h ▸ hj))]
      exact Function.update_same _ _ _

theorem HeapManager.mutate_view (e : HeapManager) (hwf : e.WellFormed) (m1 : DiceManager) :
    (e.mutate m1).view = m1 := by
  apply DiceManager.eq_of_fields
  · funext t
    show ({ count := (m1.dicePool t).count, results := (e.mutate m1).heap (e.results t) } :
      PoolEntry) = m1.dicePool t
    have h : (e.mutate m1).heap (e.results t) = (m1.dicePool t).results :=
      foldl_update_address_mem e.results hwf.1 (fun u => (m1.dicePool u).results) diceTypes
        e.heap t (mem_diceTypes t)
    rw [h]
  · rfl

theorem HeapManager.mutate_wellFormed (e : HeapManager) (hwf : e.WellFormed)
    (m1 : DiceManager) : (e.mutate m1).WellFormed :=
  hwf

theorem SelectionOp.apply_eq_mutate (op : SelectionOp) (e : HeapManager) :
    op.apply e = e.mutate (op.applyView e.view) := by
  cases op <;> rfl

theorem runSelectionOps_spec (ops : List SelectionOp) (e : HeapManager) (hwf : e.WellFormed) :
    (runSelectionOps ops e).results = e.results ∧
    (runSelectionOps ops e).WellFormed ∧
    (runSelectionOps ops e).view = runSelectionOpsView ops e.view := by
  induction ops generalizing e with
  | nil => exact ⟨rfl, hwf, rfl⟩
  | cons op rest ih =>
    have hstep : op.apply e = e.mutate (op.applyView e.view) := op.apply_eq_mutate e
    have hwf1 : (op.apply e).WellFormed := by
      rw [hstep]
      exact e.mutate_wellFormed hwf _
    have hview : (op.apply e).view = op.applyView e.view := by
      rw [hstep]
      exact e.mutate_view hwf _
    have hres : (op.apply e).results = e.results := by
      rw [hstep]
      rfl
    obtain ⟨h1, h2, h3⟩ := ih (op.apply e) hwf1
    refine ⟨?_, h2, ?_⟩
    · show (runSelectionOps rest (op.apply e)).results = e.results
      rw [h1, hres]
    · show (runSelectionOps rest (op.apply e)).view = runSelectionOpsView rest (op.applyView e.view)
      rw [h3, hview]

theorem foldl_filter_ite {α β : Type} (p : α → Prop) [DecidablePred p] (f : β → α → β)
    (l : List α) (b : β) :
    (l.filter (fun a => decide (p a))).foldl f b =
      l.foldl (fun x a => if p a then f x a else x) b := by
  induction l generalizing b with
  | nil => rfl
  | cons a rest ih =>
    by_cases h : p a
    · simp [List.filter_cons, h, ih]
    · simp [List.filter_cons, h, ih]

theorem typeIndex_injective : Function.Injective typeIndex := by
  intro t u h
  cases t <;> cases u <;> first | rfl | (exact absurd h (by decide))

theorem typeIndex_lt (t : DiceType) : typeIndex t < 8 := by
  cases t <;> decide

theorem HeapManager.rolledResults_wellFormed (e : HeapManager) (hwf : e.WellFormed) :
    Function.Injective e.rolledResults ∧ ∀ t, e.rolledResults t < e.nextAddress + 8 := by
  constructor
  · intro t u h
    unfold HeapManager.rolledResults at h
    by_cases ht : e.count t > 0 <;> by_cases hu : e.count u > 0
    · rw [if_pos ht, if_pos hu] at h
      exact typeIndex_injective (by omega)
    · rw [if_pos ht, if_neg hu] at h
      have := hwf.2 u
      omega
    · rw [if_neg ht, if_pos hu] at h
      have := hwf.2 t
      omega
    · rw [if_neg ht, if_neg hu] at h
      exact hwf.1 h
  · intro t
    unfold HeapManager.rolledResults
    have h1 := hwf.2 t
    have h2 := typeIndex_lt t
    split <;> omega

theorem HeapManager.rollAllDice_view (e : HeapManager) (hwf : e.WellFormed)
    (random : Nat → ℚ) (now : Nat → Int) :
    (e.rollAllDice random now).1.view = (e.view.rollAllDice random now).manager := by
  apply DiceManager.eq_of_fields
  · funext t
    show ({ count := ((e.view.rollAllDice random now).manager.dicePool t).count
            results := (e.rollAllDice random now).1.heap (e.rolledResults t) } : PoolEntry) =
      (e.view.rollAllDice random now).manager.dicePool t
    have hheap : (e.rollAllDice random now).1.heap =
        (diceTypes.filter (fun t => decide (e.count t > 0))).foldl
          (fun heap t => Function.update heap (e.rolledResults t)
            ((e.view.rollAllDice random now).manager.dicePool t).results)
          e.heap := by
      rw [foldl_filter_ite]
      rfl
    have h : (e.rollAllDice random now).1.heap (e.rolledResults t) =
        ((e.view.rollAllDice random now).manager.dicePool t).results := by
      rw [hheap]
      by_cases hc : e.count t > 0
      · exact foldl_update_address_mem e.rolledResults (e.rolledResults_wellFormed hwf).1 _ _ _ t
          (List.mem_filter.mpr ⟨mem_diceTypes t, by simpa using hc⟩)
      · rw [foldl_update_address_other]
        · have hskip := ((rollAllDice_at e.view random now t).2.1 hc).2
          rw [hskip]
          unfold HeapManager.rolledResults
          rw [if_neg hc]
          rfl
        · intro k hk h
          have hkc : e.count k > 0 := by simpa using (List.mem_filter.mp hk).2
          have hne : k ≠ t := fun hkt => hc (hkt ▸ hkc)
          exact hne ((e.rolledResults_wellFormed hwf).1 h)
    rw [h]
  · rfl

theorem SnapshotOp.applyView_rolls (first : SnapshotOp) (m : DiceManager) (t : DiceType)
    (r : TypeResult) (hr : (first.applyView m).snapshot.byType t = some r) :
    r.rolls = ((first.applyView m).manager.dicePool t).results := by
  cases first with
  | rollAllDice random now =>
    change (m.rollAllDice random now).snapshot.byType t = some r at hr
    show r.rolls = ((m.rollAllDice random now).manager.dicePool t).results
    by_cases hc : 0 < (m.dicePool t).count
    · obtain ⟨r0, c0, hby, hres⟩ := (rollAllDice_at m random now t).2.2 hc
      rw [hby] at hr
      cases hr
      exact hres.symm
    · rw [((rollAllDice_at m random now t).2.1 hc).1] at hr
      cases hr
  | rerollSelectedDice random now =>
    change (m.rerollSelectedDice random now).snapshot.byType t = some r at hr
    show r.rolls = ((m.rerollSelectedDice random now).manager.dicePool t).results
    obtain ⟨c0, hpool, hby⟩ := rerollSelectedDice_at m random now t
    rw [hby] at hr
    by_cases hc : (m.dicePool t).results.length > 0
    · rw [if_pos hc] at hr
      cases hr
      rw [hpool]
    · rw [if_neg hc] at hr
      cases hr
  | removeSelectedDice now =>
    change (m.removeSelectedDice now).snapshot.byType t = some r at hr
    show r.rolls = ((m.removeSelectedDice now).manager.dicePool t).results
    rw [(removeSelectedDice_at m now t).2] at hr
    by_cases hc : (m.dicePool t).results.length > 0
    · rw [if_pos hc] at hr
      cases hr
      rw [(removeSelectedDice_at m now t).1]
    · rw [if_neg hc] at hr
      cases hr

/-- On array objects a snapshot operation leads to a well-formed manager whose
dice are those of the operation on the manager without addresses, and the
snapshot's `rolls` are the arrays stored in the pool afterwards. -/
theorem SnapshotOp.apply_spec (first : SnapshotOp) (e : HeapManager) (hwf : e.WellFormed) :
    (first.apply e).1.WellFormed ∧
    (first.apply e).1.view = (first.applyView e.view).manager ∧
    (first.apply e).2 = (first.applyView e.view).snapshot.withRolls (first.apply e).1.results := by
  cases first with
  | rollAllDice random now =>
    exact ⟨e.rolledResults_wellFormed hwf, e.rollAllDice_view hwf random now, rfl⟩
  | rerollSelectedDice random now =>
    exact ⟨e.mutate_wellFormed hwf _, e.mutate_view hwf _, rfl⟩
  | removeSelectedDice now =>
    exact ⟨e.mutate_wellFormed hwf _, e.mutate_view hwf _, rfl⟩

theorem exampleHeapLoaded_wellFormed : exampleHeapLoaded.WellFormed :=
  ⟨typeIndex_injective, typeIndex_lt⟩

/-- What the caller reads from a snapshot after later in-place operations: the
numbers it was returned with, and as `rolls` the dice the manager stores
now. -/
theorem snapshot_read_later (e : HeapManager) (hwf : e.WellFormed) (first : SnapshotOp)
    (later : List SelectionOp) (t : DiceType) :
    ((first.apply e).2.read (runSelectionOps later (first.apply e).1).heap).byType t =
      ((first.applyView e.view).snapshot.byType t).map
        (fun r =>
          { r with
            rolls :=
              ((runSelectionOpsView later (first.applyView e.view).manager).dicePool t).results }) := by
  obtain ⟨hwf1, hview1, hsnap⟩ := first.apply_spec e hwf
  obtain ⟨hres2, -, hview2⟩ := runSelectionOps_spec later (first.apply e).1 hwf1
  have hcur : (runSelectionOps later (first.apply e).1).heap ((first.apply e).1.results t) =
      ((runSelectionOpsView later (first.applyView e.view).manager).dicePool t).results := by
    rw [← hview1, ← hview2, ← hres2]
    rfl
  rw [hsnap]
  simp only [SnapshotRef.read, Snapshot.withRolls]
  cases (first.applyView e.view).snapshot.byType t with
  | none => rfl
  | some r =>
    simp only [Option.map_some']
    rw [hcur]

/-- C23 (counterexample): one d6 is rolled, which returns a snapshot; then the
die is selected with `toggleDiceSelection`, then removed with
`removeSelectedDice`.  Read through that first snapshot, the die has
`selected = false` at first, `selected = true` after the toggle and
`removed = true` after the removal (while the snapshot's `count` is still `1`),
so the rolls of a returned snapshot are changed by later operations. -/
theorem C23_snapshot_rolls_change :
    (((exampleHeapLoaded.rollAllDice (fun _ => 1 / 2) (fun _ => 1700000000000)).2.read
        (exampleHeapLoaded.rollAllDice (fun _ => 1 / 2) (fun _ => 1700000000000)).1.heap).byType
        .d6 =
      some { rolls := [{ value := DiceManager.rollSingleDie 6 (1 / 2)
                         id := { type := .d6, index := 0, time := 1700000000000 }
                         selected := false
                         removed := false }]
             total := 0 + DiceManager.rollSingleDie 6 (1 / 2)
             count := 1 }) ∧
    (((exampleHeapLoaded.rollAllDice (fun _ => 1 / 2) (fun _ => 1700000000000)).2.read
        (runSelectionOps
          [SelectionOp.toggleDiceSelection { type := .d6, index := 0, time := 1700000000000 }]
          (exampleHeapLoaded.rollAllDice (fun _ => 1 / 2)
            (fun _ => 1700000000000)).1).heap).byType .d6 =
      some { rolls := [{ value := DiceManager.rollSingleDie 6 (1 / 2)
                         id := { type := .d6, index := 0, time := 1700000000000 }
                         selected := true
                         removed := false }]
             total := 0 + DiceManager.rollSingleDie 6 (1 / 2)
             count := 1 }) ∧
    (((exampleHeapLoaded.rollAllDice (fun _ => 1 / 2) (fun _ => 1700000000000)).2.read
        (runSelectionOps
          [SelectionOp.toggleDiceSelection { type := .d6, index := 0, time := 1700000000000 },
           SelectionOp.removeSelectedDice (fun _ => 1700000000001)]
          (exampleHeapLoaded.rollAllDice (fun _ => 1 / 2)
            (fun _ => 1700000000000)).1).heap).byType .d6 =
      some { rolls := [{ value := DiceManager.rollSingleDie 6 (1 / 2)
                         id := { type := .d6, index := 0, time := 1700000000000 }
                         selected := false
                         removed := true }]
             total := 0 + DiceManager.rollSingleDie 6 (1 / 2)
             count := 1 }) ∧
    ¬ (∀ (e : HeapManager), e.WellFormed → ∀ (first : SnapshotOp) (later : List SelectionOp)
        (t : DiceType),
        ((first.apply e).2.read (runSelectionOps later (first.apply e).1).heap).byType t =
          ((first.apply e).2.read (first.apply e).1.heap).byType t) := by
  have h1 : ((exampleHeapLoaded.rollAllDice (fun _ => 1 / 2) (fun _ => 1700000000000)).2.read
        (exampleHeapLoaded.rollAllDice (fun _ => 1 / 2) (fun _ => 1700000000000)).1.heap).byType
        .d6 =
      some { rolls := [{ value := DiceManager.rollSingleDie 6 (1 / 2)
                         id := { type := .d6, index := 0, time := 1700000000000 }
                         selected := false
                         removed := false }]
             total := 0 + DiceManager.rollSingleDie 6 (1 / 2)
             count := 1 } := by rfl
  have h2 : ((exampleHeapLoaded.rollAllDice (fun _ => 1 / 2) (fun _ => 1700000000000)).2.read
        (runSelectionOps
          [SelectionOp.toggleDiceSelection { type := .d6, index := 0, time := 1700000000000 }]
          (exampleHeapLoaded.rollAllDice (fun _ => 1 / 2)
            (fun _ => 1700000000000)).1).heap).byType .d6 =
      some { rolls := [{ value := DiceManager.rollSingleDie 6 (1 / 2)
                         id := { type := .d6, index := 0, time := 1700000000000 }
                         selected := true
                         removed := false }]
             total := 0 + DiceManager.rollSingleDie 6 (1 / 2)
             count := 1 } := by rfl
  refine ⟨h1, h2, by rfl, ?_⟩
  intro h
  have h3 := h exampleHeapLoaded exampleHeapLoaded_wellFormed
    (SnapshotOp.rollAllDice (fun _ => 1 / 2) (fun _ => 1700000000000))
    [SelectionOp.toggleDiceSelection { type := .d6, index := 0, time := 1700000000000 }] .d6
  have h4 := h2.symm.trans (h3.trans h1)
  simp at h4

/-- C23 (amended): the numbers of a returned snapshot (`total`, `count`,
`grandTotal`, `timestamp`) stay as returned, but its `rolls` are the manager's
own arrays: after any sequence of later `toggleDiceSelection`,
`rerollSelectedDice` and `removeSelectedDice` calls, the caller reads under
each key `t` of the snapshot the dice that the manager stores for `t` at that
moment (with their current `value`, `selected` and `removed`), and the keys
are unchanged.  At the moment of return (no later call) this is the snapshot of
the operation itself. -/
theorem C23_snapshot_shares_rolls (e : HeapManager) (hwf : e.WellFormed) (first : SnapshotOp)
    (later : List SelectionOp) (t : DiceType) :
    ((first.apply e).2.read (runSelectionOps later (first.apply e).1).heap).byType t =
      ((first.applyView e.view).snapshot.byType t).map
        (fun r =>
          { rolls :=
              ((runSelectionOpsView later (first.applyView e.view).manager).dicePool t).results
            total := r.total
            count := r.count }) ∧
    ((first.apply e).2.read (runSelectionOps later (first.apply e).1).heap).grandTotal =
      (first.applyView e.view).snapshot.grandTotal ∧
    ((first.apply e).2.read (runSelectionOps later (first.apply e).1).heap).timestamp =
      (first.applyView e.view).snapshot.timestamp ∧
    ((first.apply e).2.read (first.apply e).1.heap).byType t =
      (first.applyView e.view).snapshot.byType t := by
  obtain ⟨-, -, hsnap⟩ := first.apply_spec e hwf
  refine ⟨snapshot_read_later e hwf first later t, ?_, ?_, ?_⟩
  · rw [hsnap]
    rfl
  · rw [hsnap]
    rfl
  · have h0 := snapshot_read_later e hwf first [] t
    have hrun : runSelectionOps [] (first.apply e).1 = (first.apply e).1 := rfl
    have hrunView : runSelectionOpsView [] (first.applyView e.view).manager =
        (first.applyView e.view).manager := rfl
    rw [hrun, hrunView] at h0
    rw [h0]
    cases hby : (first.applyView e.view).snapshot.byType t with
    | none => rfl
    | some r =>
      have hrolls := first.applyView_rolls e.view t r hby
      simp only [Option.map_some']
      rw [← hrolls]

/-- C23 (amended) at a concrete input: one d6 loaded on a new manager, rolled,
then selected. -/
theorem C23_snapshot_shares_rolls_witness :
    exampleHeapLoaded.WellFormed ∧
    ((exampleHeapLoaded.rollAllDice (fun _ => 1 / 2) (fun _ => 1700000000000)).2.read
        (runSelectionOps
          [SelectionOp.toggleDiceSelection { type := .d6, index := 0, time := 1700000000000 }]
          (exampleHeapLoaded.rollAllDice (fun _ => 1 / 2)
            (fun _ => 1700000000000)).1).heap).grandTotal =
      (exampleHeapLoaded.view.rollAllDice (fun _ => 1 / 2)
        (fun _ => 1700000000000)).snapshot.grandTotal :=
  ⟨exampleHeapLoaded_wellFormed,
   (C23_snapshot_shares_rolls exampleHeapLoaded exampleHeapLoaded_wellFormed
      (SnapshotOp.rollAllDice (fun _ => 1 / 2) (fun _ => 1700000000000))
      [SelectionOp.toggleDiceSelection { type := .d6, index := 0, time := 1700000000000 }]
      .d6).2.1⟩

/-! ## `calculateStats` -/

theorem sorted_getD_mono (sorted : List Int) (hs : sorted.Sorted (fun a b => a ≤ b))
    (i j : Nat) (hij : i ≤ j) (hj : j < sorted.length) :
    sorted.getD i 0 ≤ sorted.getD j 0 := by
  have hi : i < sorted.length := lt_of_le_of_lt hij hj
  rw [List.getD_eq_getElem sorted 0 hi, List.getD_eq_getElem sorted 0 hj]
  rcases Nat.eq_or_lt_of_le hij with h | h
  · subst h
    exact le_refl _
  · exact (List.pairwise_iff_getElem.mp hs) i j hi hj h

theorem sorted_getD_mem (sorted : List Int) (i : Nat) (hi : i < sorted.length) :
    sorted.getD i 0 ∈ sorted := by
  rw [List.getD_eq_getElem sorted 0 hi]
  exact List.getElem_mem hi

theorem sorted_getD_bounds (sorted : List Int) (hs : sorted.Sorted (fun a b => a ≤ b))
    (x : Int) (hx : x ∈ sorted) :
    sorted.getD 0 0 ≤ x ∧ x ≤ sorted.getD (sorted.length - 1) 0 := by
  obtain ⟨i, hi, rfl⟩ := List.getElem_of_mem hx
  rw [← List.getD_eq_getElem sorted 0 hi]
  exact ⟨sorted_getD_mono sorted hs 0 i (Nat.zero_le _) hi,
    sorted_getD_mono sorted hs i (sorted.length - 1) (by omega) (by omega)⟩

theorem calculateStats_value (rolls : List Int) (hne : rolls ≠ []) :
    (DiceUtils.calculateStats rolls).value =
      some
        { sum := rolls.foldl (fun acc val => roundToDouble (acc + val)) 0
          average := toDouble
            (((rolls.foldl (fun acc val => roundToDouble (acc + val)) 0 : Int) : ℚ) /
              (rolls.length : ℚ))
          min := (rolls.insertionSort (fun a b => a ≤ b)).getD 0 0
          max := (rolls.insertionSort (fun a b => a ≤ b)).getD
            ((rolls.insertionSort (fun a b => a ≤ b)).length - 1) 0
          median :=
            if (rolls.insertionSort (fun a b => a ≤ b)).length % 2 = 0 then
              toDouble
                (((roundToDouble
                  ((rolls.insertionSort (fun a b => a ≤ b)).getD
                      ((rolls.insertionSort (fun a b => a ≤ b)).length / 2 - 1) 0 +
                    (rolls.insertionSort (fun a b => a ≤ b)).getD
                      ((rolls.insertionSort (fun a b => a ≤ b)).length / 2) 0) : Int) : ℚ) / 2)
            else (((rolls.insertionSort (fun a b => a ≤ b)).getD
              ((rolls.insertionSort (fun a b => a ≤ b)).length / 2) 0 : Int) : ℚ)
          count := rolls.length } := by
  have hlen : ¬ rolls.length = 0 := fun h => hne (List.length_eq_zero.mp h)
  unfold DiceUtils.calculateStats
  rw [if_neg hlen]

theorem getD_le_sum (l : List Nat) (i : Nat) : l.getD i 0 ≤ l.sum := by
  induction l generalizing i with
  | nil => simp
  | cons x l ih =>
    cases i with
    | zero => simp
    | succ i =>
      have := ih i
      simp only [List.getD_cons_succ, List.sum_cons]
      omega

theorem getD_add_getD_le_sum (l : List Nat) (i j : Nat) (hij : i < j) :
    l.getD i 0 + l.getD j 0 ≤ l.sum := by
  induction l generalizing i j with
  | nil => simp
  | cons x l ih =>
    cases j with
    | zero => omega
    | succ j =>
      cases i with
      | zero =>
        have := getD_le_sum l j
        simp only [List.getD_cons_zero, List.getD_cons_succ, List.sum_cons]
        omega
      | succ i =>
        have := ih i j (by omega)
        simp only [List.getD_cons_succ, List.sum_cons]
        omega

theorem getD_map_natAbs (l : List Int) (i : Nat) :
    (l.map Int.natAbs).getD i 0 = (l.getD i 0).natAbs := by
  induction l generalizing i with
  | nil => simp
  | cons x l ih =>
    cases i with
    | zero => simp
    | succ i => simpa using ih i

/-- Half of an integer of magnitude at most `2^53` is a binary64 value. -/
theorem toDouble_half_intCast (k : Int) (hk : k.natAbs ≤ 2 ^ 53) :
    toDouble ((k : ℚ) / 2) = (k : ℚ) / 2 := by
  by_cases hlt : k.natAbs < 2 ^ 53
  · have h := toDouble_mul_zpow k (-1) hlt (by decide)
    have hpow : (2 : ℚ) ^ (-1 : ℤ) = 1 / 2 := by norm_num
    rw [hpow, mul_one_div] at h
    exact h
  · have hcases : k = 2 * 4503599627370496 ∨ k = 2 * (-4503599627370496) := by omega
    rcases hcases with h | h
    · have h2 := toDouble_mul_zpow 4503599627370496 0 (by decide) (by decide)
      rw [h]
      norm_num at h2 ⊢
      exact h2
    · have h2 := toDouble_mul_zpow (-4503599627370496) 0 (by decide) (by decide)
      rw [h]
      norm_num at h2 ⊢
      exact h2

/-- C27 (counterexample): for the list `2^53, 1` the returned `sum` is `2^53`,
which is not the sum `2^53 + 1` of the list; for the list `1, 1, 2`, with sum
`4` and count `3`, the returned `average` is the binary64 value
`6004799503160661 / 2^52`, which is not `4 / 3`. -/
theorem C27_calculateStats_rounds :
    (∃ st : Stats, (DiceUtils.calculateStats [9007199254740992, 1]).value = some st ∧
      st.sum = 9007199254740992 ∧ st.sum ≠ ([9007199254740992, 1] : List Int).sum) ∧
    (∃ st : Stats, (DiceUtils.calculateStats [1, 1, 2]).value = some st ∧
      st.sum = 4 ∧ st.count = 3 ∧
      st.average = 6004799503160661 / 4503599627370496 ∧
      st.average ≠ (([1, 1, 2] : List Int).sum : ℚ) / (([1, 1, 2] : List Int).length : ℚ)) := by
  refine ⟨⟨_, calculateStats_value _ (by decide), by decide, by decide⟩,
    ⟨_, calculateStats_value _ (by decide), by decide, rfl, ?_, ?_⟩⟩
  · have hsum : ([1, 1, 2] : List Int).foldl (fun acc val => roundToDouble (acc + val)) 0 = 4 := by
      decide
    show toDouble ((([1, 1, 2] : List Int).foldl (fun acc val => roundToDouble (acc + val)) 0
      : Int) / (([1, 1, 2] : List Int).length : ℚ)) = _
    rw [hsum]
    have harg : (((4 : Int) : ℚ) / (([1, 1, 2] : List Int).length : ℚ)) = 4 / 3 := by norm_num
    rw [harg, toDouble_four_thirds]
  · have hsum : ([1, 1, 2] : List Int).foldl (fun acc val => roundToDouble (acc + val)) 0 = 4 := by
      decide
    show toDouble ((([1, 1, 2] : List Int).foldl (fun acc val => roundToDouble (acc + val)) 0
      : Int) / (([1, 1, 2] : List Int).length : ℚ)) ≠ _
    rw [hsum]
    have harg : (((4 : Int) : ℚ) / (([1, 1, 2] : List Int).length : ℚ)) = 4 / 3 := by norm_num
    rw [harg, toDouble_four_thirds]
    norm_num

/-- C27 (amended): for every non-empty list of integers `rolls` whose
magnitudes sum to at most `2^53`, `calculateStats(rolls)` returns an object
with `sum` the sum of the list, `count` its length, `average` the binary64
value nearest to `sum / count`, `min` its least element, `max` its greatest
element, and `median` the middle element of the ascending sort when the length
is odd or the mean of the two middle elements when it is even, so that
`min ≤ median ≤ max`.  For every list the argument is left in its order, and
for the empty list the function returns `null`. -/
theorem C27_calculateStats_spec (rolls : List Int) (hne : rolls ≠ [])
    (hsafe : (rolls.map Int.natAbs).sum ≤ 2 ^ 53) :
    (∃ st : Stats, (DiceUtils.calculateStats rolls).value = some st ∧
      st.sum = rolls.sum ∧
      st.count = rolls.length ∧
      st.average = toDouble ((rolls.sum : ℚ) / (rolls.length : ℚ)) ∧
      (st.min ∈ rolls ∧ ∀ x ∈ rolls, st.min ≤ x) ∧
      (st.max ∈ rolls ∧ ∀ x ∈ rolls, x ≤ st.max) ∧
      (∃ sorted : List Int, sorted.Sorted (fun a b => a ≤ b) ∧ sorted.Perm rolls ∧
        st.median =
          if rolls.length % 2 = 1 then ((sorted.getD (rolls.length / 2) 0 : Int) : ℚ)
          else ((sorted.getD (rolls.length / 2 - 1) 0 : Int) +
            (sorted.getD (rolls.length / 2) 0 : Int) : ℚ) / 2) ∧
      (st.min : ℚ) ≤ st.median ∧ st.median ≤ (st.max : ℚ)) ∧
    (DiceUtils.calculateStats []).value = none ∧
    (DiceUtils.calculateStats rolls).rolls = rolls ∧
    (DiceUtils.calculateStats []).rolls = [] := by
  have hsorted := List.sorted_insertionSort (fun a b : Int => a ≤ b) rolls
  have hperm := List.perm_insertionSort (fun a b : Int => a ≤ b) rolls
  have hlen := List.length_insertionSort (fun a b : Int => a ≤ b) rolls
  have hpos : 0 < rolls.length := List.length_pos.mpr hne
  have hsum : rolls.foldl (fun acc val => roundToDouble (acc + val)) 0 = rolls.sum := by
    rw [foldl_round_eq_sum rolls 0 (by simpa using hsafe), zero_add]
  have hsortedSafe : ((rolls.insertionSort (fun a b => a ≤ b)).map Int.natAbs).sum ≤ 2 ^ 53 := by
    rw [(hperm.map Int.natAbs).sum_eq]
    exact hsafe
  have hpair : rolls.length % 2 = 0 →
      ((rolls.insertionSort (fun a b => a ≤ b)).getD (rolls.length / 2 - 1) 0 +
        (rolls.insertionSort (fun a b => a ≤ b)).getD (rolls.length / 2) 0).natAbs ≤ 2 ^ 53 := by
    intro hpar
    have h1 := getD_add_getD_le_sum ((rolls.insertionSort (fun a b => a ≤ b)).map Int.natAbs)
      (rolls.length / 2 - 1) (rolls.length / 2) (by omega)
    rw [getD_map_natAbs, getD_map_natAbs] at h1
    have h2 := Int.natAbs_add_le
      ((rolls.insertionSort (fun a b => a ≤ b)).getD (rolls.length / 2 - 1) 0)
      ((rolls.insertionSort (fun a b => a ≤ b)).getD (rolls.length / 2) 0)
    omega
  have hmedian : (if (rolls.insertionSort (fun a b => a ≤ b)).length % 2 = 0 then
      toDouble
        (((roundToDouble
          ((rolls.insertionSort (fun a b => a ≤ b)).getD
              ((rolls.insertionSort (fun a b => a ≤ b)).length / 2 - 1) 0 +
            (rolls.insertionSort (fun a b => a ≤ b)).getD
              ((rolls.insertionSort (fun a b => a ≤ b)).length / 2) 0) : Int) : ℚ) / 2)
      else (((rolls.insertionSort (fun a b => a ≤ b)).getD
        ((rolls.insertionSort (fun a b => a ≤ b)).length / 2) 0 : Int) : ℚ)) =
      if rolls.length % 2 = 1 then
        (((rolls.insertionSort (fun a b => a ≤ b)).getD (rolls.length / 2) 0 : Int) : ℚ)
      else (((rolls.insertionSort (fun a b => a ≤ b)).getD (rolls.length / 2 - 1) 0 : Int) +
        ((rolls.insertionSort (fun a b => a ≤ b)).getD (rolls.length / 2) 0 : Int) : ℚ) / 2 := by
    rw [hlen]
    by_cases hpar : rolls.length % 2 = 0
    · have hodd : ¬ rolls.length % 2 = 1 := by omega
      rw [if_pos hpar, if_neg hodd, roundToDouble_of_le _ (hpair hpar),
        toDouble_half_intCast _ (hpair hpar)]
      push_cast
      rfl
    · have hodd : rolls.length % 2 = 1 := by omega
      rw [if_neg hpar, if_pos hodd]
  refine ⟨⟨_, calculateStats_value rolls hne, hsum, rfl, ?_, ⟨?_, ?_⟩, ⟨?_, ?_⟩, ?_, ?_, ?_⟩,
    rfl, ?_, rfl⟩
  · show toDouble (((rolls.foldl (fun acc val => roundToDouble (acc + val)) 0 : Int) : ℚ) /
      (rolls.length : ℚ)) = _
    rw [hsum]
  · exact hperm.mem_iff.mp (sorted_getD_mem _ 0 (by omega))
  · intro x hx
    exact (sorted_getD_bounds _ hsorted x (hperm.mem_iff.mpr hx)).1
  · exact hperm.mem_iff.mp (sorted_getD_mem _ _ (by omega))
  · intro x hx
    exact (sorted_getD_bounds _ hsorted x (hperm.mem_iff.mpr hx)).2
  · exact ⟨rolls.insertionSort (fun a b => a ≤ b), hsorted, hperm, hmedian⟩
  · show ((List.getD (rolls.insertionSort (fun a b => a ≤ b)) 0 0 : Int) : ℚ) ≤
      (if (rolls.insertionSort (fun a b => a ≤ b)).length % 2 = 0 then _ else _)
    rw [hmedian]
    have h1 := sorted_getD_mono _ hsorted 0 (rolls.length / 2 - 1) (Nat.zero_le _) (by omega)
    have h2 := sorted_getD_mono _ hsorted 0 (rolls.length / 2) (Nat.zero_le _) (by omega)
    have h1q : ((List.getD (rolls.insertionSort (fun a b => a ≤ b)) 0 0 : Int) : ℚ) ≤
        ((List.getD (rolls.insertionSort (fun a b => a ≤ b)) (rolls.length / 2 - 1) 0
          : Int) : ℚ) := by
      exact_mod_cast h1
    have h2q : ((List.getD (rolls.insertionSort (fun a b => a ≤ b)) 0 0 : Int) : ℚ) ≤
        ((List.getD (rolls.insertionSort (fun a b => a ≤ b)) (rolls.length / 2) 0
          : Int) : ℚ) := by
      exact_mod_cast h2
    split
    · exact h2q
    · linarith
  · show (if (rolls.insertionSort (fun a b => a ≤ b)).length % 2 = 0 then _ else _) ≤
      ((List.getD (rolls.insertionSort (fun a b => a ≤ b))
        ((rolls.insertionSort (fun a b => a ≤ b)).length - 1) 0 : Int) : ℚ)
    rw [hmedian, hlen]
    have h1 := sorted_getD_mono _ hsorted (rolls.length / 2 - 1) (rolls.length - 1) (by omega)
      (by omega)
    have h2 := sorted_getD_mono _ hsorted (rolls.length / 2) (rolls.length - 1) (by omega)
      (by omega)
    have h1q : ((List.getD (rolls.insertionSort (fun a b => a ≤ b)) (rolls.length / 2 - 1) 0
        : Int) : ℚ) ≤
        ((List.getD (rolls.insertionSort (fun a b => a ≤ b)) (rolls.length - 1) 0
          : Int) : ℚ) := by
      exact_mod_cast h1
    have h2q : ((List.getD (rolls.insertionSort (fun a b => a ≤ b)) (rolls.length / 2) 0
        : Int) : ℚ) ≤
        ((List.getD (rolls.insertionSort (fun a b => a ≤ b)) (rolls.length - 1) 0
          : Int) : ℚ) := by
      exact_mod_cast h2
    split
    · exact h2q
    · linarith
  · unfold DiceUtils.calculateStats
    split <;> rfl

/-- C27 at a concrete input: the list 4, 1, 3, 2 has sum 10, average and median
five halves, least element 1 and greatest element 4. -/
theorem C27_calculateStats_spec_witness :
    ([4, 1, 3, 2] : List Int) ≠ [] ∧
    (([4, 1, 3, 2] : List Int).map Int.natAbs).sum ≤ 2 ^ 53 ∧
    (DiceUtils.calculateStats [4, 1, 3, 2]).value =
      some { sum := 10, average := 5 / 2, min := 1, max := 4, median := 5 / 2, count := 4 } ∧
    (DiceUtils.calculateStats [4, 1, 3, 2]).rolls = [4, 1, 3, 2] :=
  ⟨by decide, by decide,
   by
    have hhalf : toDouble (5 / 2) = 5 / 2 := by
      have h := toDouble_half_intCast 5 (by decide)
      norm_num at h
      exact h
    have h1 : roundToDouble 4 = 4 := by decide
    have h2 : roundToDouble 5 = 5 := by decide
    have h3 : roundToDouble 8 = 8 := by decide
    have h4 : roundToDouble 10 = 10 := by decide
    simp only [DiceUtils.calculateStats, List.insertionSort, List.orderedInsert, List.foldl,
      List.length, List.getD]
    norm_num [h1, h2, h3, h4, hhalf],
   (C27_calculateStats_spec [4, 1, 3, 2] (by decide) (by decide)).2.2.1⟩

/-! ## Dice notation: parsing undoes formatting -/

theorem digitChar_spec (d : Nat) (hd : d < 10) :
    (digitChar d).isDigit = true ∧ digitValue (digitChar d) = d := by
  interval_cases d <;> decide

theorem natToChars_isDigit (n : Nat) : ∀ c ∈ natToChars n, c.isDigit = true := by
  intro c hc
  unfold natToChars at hc
  by_cases hn : n = 0
  · rw [if_pos hn] at hc
    rw [List.mem_singleton.mp hc]
    decide
  · rw [if_neg hn] at hc
    obtain ⟨d, hd, rfl⟩ := List.mem_map.mp hc
    exact (digitChar_spec d (Nat.digits_lt_base (by decide) (List.mem_reverse.mp hd))).1

theorem natToChars_ne_nil (n : Nat) : natToChars n ≠ [] := by
  unfold natToChars
  by_cases hn : n = 0
  · rw [if_pos hn]
    exact List.cons_ne_nil _ _
  · rw [if_neg hn]
    intro h
    have h1 := List.map_eq_nil_iff.mp h
    have h2 := List.reverse_eq_nil_iff.mp h1
    exact hn ((Nat.digits_eq_nil_iff_eq_zero).mp h2)

theorem digitsValue_reverse_map (digits : List Nat) (hd : ∀ d ∈ digits, d < 10) :
    digitsValue (digits.reverse.map digitChar) = Nat.ofDigits 10 digits := by
  induction digits with
  | nil => rfl
  | cons d rest ih =>
    have hrest := ih (fun x hx => hd x (List.mem_cons_of_mem _ hx))
    unfold digitsValue at hrest ⊢
    rw [List.reverse_cons, List.map_append, List.foldl_append, hrest]
    simp only [List.map_cons, List.map_nil, List.foldl_cons, List.foldl_nil]
    rw [(digitChar_spec d (hd d (List.mem_cons_self _ _))).2, Nat.ofDigits_cons]
    ring

theorem digitsValue_natToChars (n : Nat) : digitsValue (natToChars n) = n := by
  unfold natToChars
  by_cases hn : n = 0
  · rw [if_pos hn, hn]
    decide
  · rw [if_neg hn, digitsValue_reverse_map _ (fun d hd => Nat.digits_lt_base (by decide) hd),
      Nat.ofDigits_digits]

theorem span_append_stop (p : Char → Bool) (l : List Char) (c : Char) (rest : List Char)
    (hl : ∀ x ∈ l, p x = true) (hc : p c = false) :
    (l ++ c :: rest).span p = (l, c :: rest) := by
  induction l with
  | nil => simp [List.span_eq_take_drop, List.takeWhile, List.dropWhile, hc]
  | cons x xs ih =>
    have hx := hl x (List.mem_cons_self _ _)
    have hxs := ih (fun y hy => hl y (List.mem_cons_of_mem _ hy))
    rw [List.span_eq_take_drop] at hxs ⊢
    simp only [List.cons_append, List.takeWhile_cons, List.dropWhile_cons, hx, if_true]
    rw [(Prod.mk.inj hxs).1, (Prod.mk.inj hxs).2]

theorem span_all (p : Char → Bool) (l : List Char) (hl : ∀ x ∈ l, p x = true) :
    l.span p = (l, []) := by
  induction l with
  | nil => rfl
  | cons x xs ih =>
    have hx := hl x (List.mem_cons_self _ _)
    have hxs := ih (fun y hy => hl y (List.mem_cons_of_mem _ hy))
    rw [List.span_eq_take_drop] at hxs ⊢
    simp only [List.takeWhile_cons, List.dropWhile_cons, hx, if_true]
    rw [(Prod.mk.inj hxs).1, (Prod.mk.inj hxs).2]

theorem matchPattern_of_matchAt (text : List Char)
    (groups : List Char × List Char × Option (List Char)) (h : matchAt text = some groups) :
    matchPattern text = some groups := by
  cases text with
  | nil =>
    have hnone : matchAt [] = none := by decide
    rw [hnone] at h
    cases h
  | cons c rest =>
    unfold matchPattern
    rw [h]

theorem parseInt_digits (digits : List Char) (h : ∀ c ∈ digits, c.isDigit = true) :
    parseInt digits = roundToDouble (digitsValue digits : Int) := by
  unfold parseInt
  split
  · exact absurd (h '-' (List.mem_cons_self _ _)) (by decide)
  · exact absurd (h '+' (List.mem_cons_self _ _)) (by decide)
  · rfl

theorem parseInt_natToChars (n : Nat) (hn : n ≤ 2 ^ 53) :
    parseInt (natToChars n) = (n : Int) := by
  rw [parseInt_digits _ (natToChars_isDigit n), digitsValue_natToChars]
  exact roundToDouble_of_le _ (by simpa using hn)

/-- The digits `99999999999999999999` denote no binary64 value; `parseInt`
returns the nearest one, `10^20`. -/
theorem parseInt_rounds :
    parseInt "99999999999999999999".data = 100000000000000000000 := by
  decide

theorem natNumberToChars_of_le (n : Nat) (hn : n ≤ 2 ^ 53) :
    natNumberToChars n = natToChars n := by
  unfold natNumberToChars
  rw [if_pos (by norm_num at hn ⊢; exact hn)]

theorem numberToChars_natCast (n : Nat) (hn : n ≤ 2 ^ 53) :
    numberToChars (n : Int) = natToChars n := by
  unfold numberToChars
  rw [if_neg (by omega), Int.natAbs_ofNat, natNumberToChars_of_le n hn]

theorem roundTrip_exponent_example :
    roundTrip 1000000000000000000000 1 = some 1000000000000000000000 := by
  have hlen : (Nat.digits 10 1000000000000000000000).length = 22 := by norm_num
  have hround : roundToDouble 1000000000000000000000 = 1000000000000000000000 := by decide
  have hhi : roundToDouble 2000000000000000000000 ≠ 1000000000000000000000 := by decide
  unfold roundTrip
  rw [hlen]
  norm_num [hround, hhi]

theorem shortestRoundTrip_exponent_example :
    shortestRoundTrip 1000000000000000000000 17 1 = 1000000000000000000000 := by
  rw [shortestRoundTrip, roundTrip_exponent_example]

theorem natToChars_exponent_example :
    natToChars 1000000000000000000000 =
      ['1', '0', '0', '0', '0', '0', '0', '0', '0', '0', '0', '0', '0', '0', '0', '0', '0', '0',
       '0', '0', '0', '0'] := by
  simp [natToChars, digitChar]

theorem natNumberToChars_exponent_example :
    natNumberToChars 1000000000000000000000 = ['1', 'e', '+', '2', '1'] := by
  have h21 : natToChars 21 = ['2', '1'] := by simp [natToChars, digitChar]
  have hbig : ¬ (1000000000000000000000 : Nat) ≤ 9007199254740992 := by decide
  unfold natNumberToChars
  rw [if_neg hbig]
  simp only [shortestRoundTrip_exponent_example, natToChars_exponent_example]
  simp [dropTrailingZeros, h21]

theorem matchAt_plain (first second : List Char) (h1 : ∀ c ∈ first, c.isDigit = true)
    (h1ne : first ≠ []) (h2 : ∀ c ∈ second, c.isDigit = true) (h2ne : second ≠ []) :
    matchAt (first ++ ['d'] ++ second) = some (first, second, none) := by
  have hspan1 : (first ++ ['d'] ++ second).span Char.isDigit = (first, 'd' :: second) := by
    rw [List.append_assoc]
    exact span_append_stop Char.isDigit first 'd' second h1 (by decide)
  have hspan2 : second.span Char.isDigit = (second, []) := span_all Char.isDigit second h2
  unfold matchAt
  simp only [hspan1, hspan2, h1ne, h2ne, if_false, true_or, if_true]

theorem matchAt_signed (first second third : List Char) (sign : Char)
    (hsign : sign = '+' ∨ sign = '-') (h1 : ∀ c ∈ first, c.isDigit = true) (h1ne : first ≠ [])
    (h2 : ∀ c ∈ second, c.isDigit = true) (h2ne : second ≠ [])
    (h3 : ∀ c ∈ third, c.isDigit = true) (h3ne : third ≠ []) :
    matchAt (first ++ ['d'] ++ second ++ sign :: third) =
      some (first, second, some (sign :: third)) := by
  have hsd : sign.isDigit = false := by
    rcases hsign with h | h <;> rw [h] <;> decide
  have hspan1 : (first ++ ['d'] ++ second ++ sign :: third).span Char.isDigit =
      (first, 'd' :: (second ++ sign :: third)) := by
    rw [List.append_assoc, List.append_assoc]
    exact span_append_stop Char.isDigit first 'd' _ h1 (by decide)
  have hspan2 : (second ++ sign :: third).span Char.isDigit = (second, sign :: third) :=
    span_append_stop Char.isDigit second sign third h2 hsd
  have hspan3 : third.span Char.isDigit = (third, []) := span_all Char.isDigit third h3
  unfold matchAt
  simp only [hspan1, hspan2, hspan3, h1ne, h2ne, h3ne, hsign, if_false, true_or, if_true]

/-- C28 (counterexample): `10^21` is a binary64 value and a natural number;
`formatDiceNotation(1e21, 6, 0)` is the text `1e+21d6`, since a number from
`10^21` on is printed in exponent form, and `parseDiceNotation` finds in it
the leftmost match `21d6`, so it returns `{count: 21, sides: 6, modifier: 0}`
and not the count `10^21`. -/
theorem C28_exponent_form_is_not_parsed_back :
    roundToDouble 1000000000000000000000 = 1000000000000000000000 ∧
    DiceUtils.formatDiceNotation 1000000000000000000000 6 0 = "1e+21d6" ∧
    DiceUtils.parseDiceNotation (DiceUtils.formatDiceNotation 1000000000000000000000 6 0) =
      some { count := 21, sides := 6, modifier := 0 } ∧
    DiceUtils.parseDiceNotation (DiceUtils.formatDiceNotation 1000000000000000000000 6 0) ≠
      some { count := 1000000000000000000000, sides := 6, modifier := 0 } := by
  have h6 : natNumberToChars 6 = ['6'] := by
    simp [natNumberToChars, natToChars, digitChar]
  have hformat : DiceUtils.formatDiceNotation 1000000000000000000000 6 0 = "1e+21d6" := by
    simp [DiceUtils.formatDiceNotation, numberToChars, natNumberToChars_exponent_example, h6]
  refine ⟨by decide, hformat, ?_, ?_⟩
  · rw [hformat]
    decide
  · rw [hformat]
    decide

/-- C28 (amended): parsing undoes formatting of dice notation for numbers of
magnitude at most `2^53`.  For all natural numbers `count ≤ 2^53` and
`sides ≤ 2^53` and every integer `modifier` with `|modifier| ≤ 2^53`,
`parseDiceNotation(formatDiceNotation(count, sides, modifier))` returns
`{count, sides, modifier}`; and `formatDiceNotation` yields the digits of
`count`, the letter `d`, the digits of `sides`, and then `+m` for a modifier
`m > 0`, the number with its minus sign for `m < 0`, and nothing for `m = 0`,
for instance `2d6+3`. -/
theorem C28_parse_undoes_format (count sides : Nat) (modifier : Int)
    (hcount : count ≤ 2 ^ 53) (hsides : sides ≤ 2 ^ 53) (hmodifier : modifier.natAbs ≤ 2 ^ 53) :
    DiceUtils.parseDiceNotation (DiceUtils.formatDiceNotation count sides modifier) =
      some { count := count, sides := sides, modifier := modifier } ∧
    (DiceUtils.formatDiceNotation count sides modifier).data =
      natToChars count ++ ['d'] ++ natToChars sides ++
        (if modifier > 0 then '+' :: natToChars modifier.natAbs
         else if modifier < 0 then '-' :: natToChars modifier.natAbs
         else []) ∧
    DiceUtils.formatDiceNotation 2 6 3 = "2d6+3" := by
  have hc := natToChars_isDigit count
  have hs := natToChars_isDigit sides
  have hm := natToChars_isDigit modifier.natAbs
  have hcne := natToChars_ne_nil count
  have hsne := natToChars_ne_nil sides
  have hmne := natToChars_ne_nil modifier.natAbs
  have hexample : DiceUtils.formatDiceNotation 2 6 3 = "2d6+3" := by
    simp [DiceUtils.formatDiceNotation, numberToChars, natNumberToChars, natToChars, digitChar]
  refine ⟨?_, ?_, hexample⟩
  · unfold DiceUtils.parseDiceNotation DiceUtils.formatDiceNotation
    rw [numberToChars_natCast _ hcount, numberToChars_natCast _ hsides]
    by_cases hpos : modifier > 0
    · have hint : numberToChars modifier = natToChars modifier.natAbs := by
        unfold numberToChars
        rw [if_neg (by omega), natNumberToChars_of_le _ hmodifier]
      have hval : ((modifier.natAbs : Nat) : Int) = modifier := by omega
      simp only [hpos, if_true, hint]
      rw [List.append_assoc _ ['+'] _, List.singleton_append,
        matchPattern_of_matchAt _ _
          (matchAt_signed _ _ _ '+' (Or.inl rfl) hc hcne hs hsne hm hmne)]
      simp only [parseInt_natToChars _ hcount, parseInt_natToChars _ hsides]
      have hplus : parseInt ('+' :: natToChars modifier.natAbs) = modifier := by
        show roundToDouble ((digitsValue (natToChars modifier.natAbs) : Nat) : Int) = modifier
        rw [digitsValue_natToChars, hval]
        exact roundToDouble_of_le _ hmodifier
      rw [hplus]
    · by_cases hneg : modifier < 0
      · have hint : numberToChars modifier = '-' :: natToChars modifier.natAbs := by
          unfold numberToChars
          rw [if_pos hneg, natNumberToChars_of_le _ hmodifier]
        have hval : -((modifier.natAbs : Nat) : Int) = modifier := by omega
        simp only [hpos, hneg, if_true, if_false, hint]
        rw [matchPattern_of_matchAt _ _
            (matchAt_signed _ _ _ '-' (Or.inr rfl) hc hcne hs hsne hm hmne)]
        simp only [parseInt_natToChars _ hcount, parseInt_natToChars _ hsides]
        have hminus : parseInt ('-' :: natToChars modifier.natAbs) = modifier := by
          show roundToDouble (-((digitsValue (natToChars modifier.natAbs) : Nat) : Int)) =
            modifier
          rw [digitsValue_natToChars, hval]
          exact roundToDouble_of_le _ hmodifier
        rw [hminus]
      · have hzero : modifier = 0 := by omega
        simp only [hpos, hneg, if_false]
        rw [matchPattern_of_matchAt _ _ (matchAt_plain _ _ hc hcne hs hsne)]
        simp only [parseInt_natToChars _ hcount, parseInt_natToChars _ hsides, hzero]
  · unfold DiceUtils.formatDiceNotation
    rw [numberToChars_natCast _ hcount, numberToChars_natCast _ hsides]
    by_cases hpos : modifier > 0
    · have hint : numberToChars modifier = natToChars modifier.natAbs := by
        unfold numberToChars
        rw [if_neg (by omega), natNumberToChars_of_le _ hmodifier]
      simp only [hpos, if_true, hint, List.append_assoc, List.singleton_append]
    · by_cases hneg : modifier < 0
      · have hint : numberToChars modifier = '-' :: natToChars modifier.natAbs := by
          unfold numberToChars
          rw [if_pos hneg, natNumberToChars_of_le _ hmodifier]
        simp only [hpos, hneg, if_true, if_false, hint]
      · simp only [hpos, hneg, if_false, List.append_nil]

/-- C28 at a concrete input: `formatDiceNotation(2, 6, 3)` is parsed back to
`{count: 2, sides: 6, modifier: 3}`. -/
theorem C28_parse_undoes_format_witness :
    (2 : Nat) ≤ 2 ^ 53 ∧ (6 : Nat) ≤ 2 ^ 53 ∧ (3 : Int).natAbs ≤ 2 ^ 53 ∧
    DiceUtils.parseDiceNotation
        (DiceUtils.formatDiceNotation ((2 : Nat) : Int) ((6 : Nat) : Int) 3) =
      some { count := ((2 : Nat) : Int), sides := ((6 : Nat) : Int), modifier := 3 } :=
  ⟨by decide, by decide, by decide,
   (C28_parse_undoes_format 2 6 3 (by decide) (by decide) (by decide)).1⟩
